import Mathlib

/-!
Verification of dagu: the DAG builder (`internal/dag/builder.go`) and the
controller (`internal/controller/controller.go`).

A shallow embedding of the builder that turns a decoded YAML definition into a
`DAG`, of the helpers in `internal/utils` it calls, and of the controller that
reads and updates the status of a DAG, creates, rewrites or moves its file and
starts the child processes that run it; with them the process helpers of
`internal/utils/utils_unix.go`, the tick of the runner and `nameWithExt` of
`internal/admin/handlers/list.go`.

Conventions of the embedding.

* A decoded YAML value (`interface{}` in the source) is a `YamlValue`.  A Go map
  is a list of key/value pairs, listed in the order in which `range` visits
  them; Go leaves that order unspecified, so every statement about a map is
  made for an arbitrary list, i.e. for every iteration order.
* A Go `error` is its message.  A function returning `(T, error)` returns an
  `Except`; a method that also assigns to `*DAG` returns the error (if any)
  together with the DAG as it stands when the method returns.
* A failed type assertion is a run-time panic, kept apart from errors
  (`Failure.panic`).
* The process environment is a finite map from names to values, threaded
  explicitly through every function that reads or writes it.
* Functions of other packages (the cron parser, the shell-word parser,
  `os.ExpandEnv`, `unix.SignalNum`) and the helpers of `internal/utils` that
  run commands are parameters, collected in `Deps`; `DAG.Init`, the order of
  a `range` loop over a map built by the code and the constants of package
  `constants` are parameters as well, collected in `Context`.
* The controller returns, next to its result, the calls it makes to the socket
  and the database and the commands it starts; what they answer is a parameter.
-/

set_option linter.dupNamespace false

namespace Dagu

/-! ## Decoded YAML -/

/-- A value as the YAML decoder hands it over in an `interface{}`. -/
inductive YamlValue where
  | null : YamlValue
  | str (s : String) : YamlValue
  | int (n : Int) : YamlValue
  | bool (b : Bool) : YamlValue
  | float (bits : Nat) : YamlValue
  | list (xs : List YamlValue) : YamlValue
  | map (kvs : List (YamlValue × YamlValue)) : YamlValue

/-- The name `fmt` prints for the dynamic type of a value under `%T`. -/
def goTypeName : YamlValue → String
  | .null => "<nil>"
  | .str _ => "string"
  | .int _ => "int"
  | .bool _ => "bool"
  | .float _ => "float64"
  | .list _ => "[]interface \x7b\x7d"
  | .map _ => "map[interface \x7b\x7d]interface \x7b\x7d"

/-! ## Go maps with string keys -/

/-- A Go `map[string]T`: pairs with pairwise distinct keys. -/
abbrev GoMap (α : Type) := List (String × α)

/-- The lookup `m[k]` with the comma-ok result. -/
def GoMap.get {α : Type} (m : GoMap α) (k : String) : Option α :=
  match m with
  | [] => none
  | (k1, v1) :: rest => if k1 = k then some v1 else GoMap.get rest k

/-- The assignment `m[k] = v`: replaces the value of an existing key, adds a new key otherwise. -/
def GoMap.set {α : Type} (m : GoMap α) (k : String) (v : α) : GoMap α :=
  match m with
  | [] => [(k, v)]
  | (k1, v1) :: rest => if k1 = k then (k1, v) :: rest else (k1, v1) :: GoMap.set rest k v

/-! ## The process environment -/

/-- The process environment: the value bound to each name, if any. -/
abbrev Env := String → Option String

/-- The environment with `k` bound to `v`. -/
def Env.bind (env : Env) (k v : String) : Env :=
  fun x => if x = k then some v else env x

/-- The function `os.Getenv`: the value of `k`, empty when `k` is unset. -/
def osGetenv (env : Env) (k : String) : String :=
  match env k with
  | some v => v
  | none => ""

/-- The function `os.Setenv`.  It fails with `EINVAL` when the key is empty or
contains `=` or a NUL byte, or when the value contains a NUL byte; otherwise it
binds the key. -/
def osSetenv (env : Env) (k v : String) : Except String Env :=
  if k.data = [] ∨ '=' ∈ k.data ∨ '\x00' ∈ k.data ∨ '\x00' ∈ v.data then
    .error "setenv: invalid argument"
  else
    .ok (env.bind k v)

/-! ## What the builder takes from other packages -/

/-- The functions the builder calls that live outside `builder.go`.

* `cronParse`: `cronParser.Parse` of `robfig/cron`, the 5-field parser, giving
  the parsed schedule or the message of its error;
* `shellwordsParse`: `Parse` of a `go-shellwords` parser with `ParseBacktick`
  and `ParseEnv` off;
* `expandEnv`: `os.ExpandEnv`, which reads the environment;
* `parseCommand`, `parseVariable`, `splitCommand`: `utils.ParseCommand`,
  `utils.ParseVariable` and `utils.SplitCommand`; the first two run commands
  in the current environment;
* `unixSignalNum`: `unix.SignalNum`, `0` for a name that is no signal. -/
structure Deps (σ : Type) where
  cronParse : String → Except String σ
  shellwordsParse : String → Except String (List String)
  expandEnv : Env → String → String
  parseCommand : Env → String → Except String String
  parseVariable : Env → String → Except String String
  splitCommand : String → Bool → String × List String
  unixSignalNum : String → Int

/-! ## The data model (`dag.go`, `step.go`, as far as the builder assigns it and the
controller reads it) -/

/-- A cron schedule: the expression as written and its parsed form. -/
structure Schedule (σ : Type) where
  Expression : String
  Parsed : σ

structure MailOn where
  Failure : Bool
  Success : Bool

structure Condition where
  Condition : String
  Expected : String

/-- The executor of a step; `Config` is `none` for a nil map. -/
structure ExecutorConfig where
  Type_ : String
  Config : Option (GoMap YamlValue)

structure ContinueOn where
  Skipped : Bool
  Failure : Bool

structure RetryPolicy where
  Limit : Int
  Interval : Int

structure RepeatPolicy where
  Repeat : Bool
  Interval : Int

structure Step where
  Name : String
  Description : String
  Variables : List String
  Dir : String
  ExecutorConfig : ExecutorConfig
  CmdWithArgs : String
  Command : String
  Script : String
  Stdout : String
  Stderr : String
  Output : String
  Args : List String
  Depends : List String
  ContinueOn : ContinueOn
  RetryPolicy : Option RetryPolicy
  RepeatPolicy : RepeatPolicy
  MailOnError : Bool
  Preconditions : List Condition
  SignalOnStop : String

structure HandlerOn where
  Failure : Option Step
  Success : Option Step
  Cancel : Option Step
  Exit : Option Step

structure SmtpConfig where
  Host : String
  Port : String
  Username : String
  Password : String

structure MailConfig where
  From : String
  To : String
  Prefix : String

/-- The DAG.  The builder assigns every field but `Location`, the path of its
file; the three schedule lists are `none` while nil. -/
structure DAG (σ : Type) where
  Location : String
  Name : String
  Group : String
  Description : String
  Schedule : Option (List (Schedule σ))
  StopSchedule : Option (List (Dagu.Schedule σ))
  RestartSchedule : Option (List (Dagu.Schedule σ))
  Env : List String
  LogDir : String
  HandlerOn : HandlerOn
  Steps : List Step
  MailOn : Option MailOn
  ErrorMail : Option MailConfig
  InfoMail : Option MailConfig
  Smtp : Option SmtpConfig
  Delay : Int
  RestartWait : Int
  HistRetentionDays : Int
  Preconditions : List Condition
  MaxActiveRuns : Int
  DefaultParams : String
  Params : List String
  MaxCleanUpTime : Int
  Tags : List String

/-- How a call can fail: with a returned `error`, or with a run-time panic. -/
inductive Failure where
  | error (msg : String) : Failure
  | panic (msg : String) : Failure

/-- The options of the builder (`BuildDAGOptions`); `defaultEnv` in iteration order. -/
structure builder where
  headOnly : Bool
  parameters : String
  noEval : Bool
  noSetenv : Bool
  defaultEnv : List (String × String)

/-! ## Schedules -/

def scheduleStart : String := "start"
def scheduleStop : String := "stop"
def scheduleRestart : String := "restart"

/-- The function `parseSchedule`, with `ret` the list built so far.  It returns
the pair of the source: the list (`none` for nil) and the error (`none` for nil). -/
def parseScheduleLoop {σ : Type} (deps : Deps σ) :
    List String → List (Schedule σ) → Option (List (Schedule σ)) × Option String
  | [], ret => (some ret, none)
  | v :: rest, ret =>
    match deps.cronParse v with
    | .error e => (none, some ("invalid schedule: " ++ e))
    | .ok paresed => parseScheduleLoop deps rest (ret ++ [{ Expression := v, Parsed := paresed }])

def parseSchedule {σ : Type} (deps : Deps σ) (values : List String) :
    Option (List (Schedule σ)) × Option String :=
  parseScheduleLoop deps values []

/-- The local slices `starts`, `stops` and `restarts` of `buildSchedule`. -/
structure ScheduleLists where
  starts : List String
  stops : List String
  restarts : List String

/-- The inner `switch kk` of `buildSchedule`: append `s` to the slice that `kk` names. -/
def appendByKey (kk s : String) (acc : ScheduleLists) : ScheduleLists :=
  if kk = scheduleStart then { acc with starts := acc.starts ++ [s] }
  else if kk = scheduleStop then { acc with stops := acc.stops ++ [s] }
  else if kk = scheduleRestart then { acc with restarts := acc.restarts ++ [s] }
  else acc

/-- The loop over a top-level list: every element must be a string and goes to `starts`. -/
def collectStarts : List YamlValue → List String → Except String (List String)
  | [], starts => .ok starts
  | .str ss :: rest, starts => collectStarts rest (starts ++ [ss])
  | _ :: _, _ => .error "schedule must be a string or an array of strings"

/-- The loop over a list under the key `kk`. -/
def collectUnderKey (kk : String) : List YamlValue → ScheduleLists → Except String ScheduleLists
  | [], acc => .ok acc
  | .str vvv :: rest, acc => collectUnderKey kk rest (appendByKey kk vvv acc)
  | _ :: _, _ => .error "schedule must be a string or an array of strings"

/-- The body of the loop over the schedule map, for the entry `k: v`. -/
def scheduleEntry (k v : YamlValue) (acc : ScheduleLists) : Except String ScheduleLists :=
  match k with
  | .str kk =>
    if kk = scheduleStart ∨ kk = scheduleStop ∨ kk = scheduleRestart then
      match v with
      | .str s => .ok (appendByKey kk s acc)
      | .list vs => collectUnderKey kk vs acc
      | _ => .error "schedule must be a string or an array of strings"
    else
      .error "schedule key must be start or stop"
  | _ => .error "schedule key must be a string"

/-- The loop over the schedule map, entries in iteration order. -/
def scheduleEntries : List (YamlValue × YamlValue) → ScheduleLists → Except String ScheduleLists
  | [], acc => .ok acc
  | (k, v) :: rest, acc =>
    match scheduleEntry k v acc with
    | .error e => .error e
    | .ok acc1 => scheduleEntries rest acc1

/-- The type switch of `buildSchedule` on `def.Schedule`. -/
def classifySchedule (schedule : YamlValue) : Except String ScheduleLists :=
  match schedule with
  | .str s => .ok { starts := [s], stops := [], restarts := [] }
  | .list xs =>
    match collectStarts xs [] with
    | .error e => .error e
    | .ok starts => .ok { starts := starts, stops := [], restarts := [] }
  | .map kvs => scheduleEntries kvs { starts := [], stops := [], restarts := [] }
  | .null => .ok { starts := [], stops := [], restarts := [] }
  | other => .error ("invalid schedule type: " ++ goTypeName other)

/-- The method `builder.buildSchedule`: the error it returns (if any) and the DAG
as it leaves it.  Each schedule field is assigned before the error of its
`parseSchedule` call is looked at. -/
def buildSchedule {σ : Type} (deps : Deps σ) (schedule : YamlValue) (d : DAG σ) :
    Option String × DAG σ :=
  match classifySchedule schedule with
  | .error e => (some e, d)
  | .ok acc =>
    let r1 := parseSchedule deps acc.starts
    let d1 := { d with Schedule := r1.1 }
    match r1.2 with
    | some err => (some err, d1)
    | none =>
      let r2 := parseSchedule deps acc.stops
      let d2 := { d1 with StopSchedule := r2.1 }
      match r2.2 with
      | some err => (some err, d2)
      | none =>
        let r3 := parseSchedule deps acc.restarts
        (r3.2, { d2 with RestartSchedule := r3.1 })

/-! ### Vocabulary for the statements about schedules -/

/-- The strings of a list all of whose elements are strings; `none` if one is not. -/
def allStrings : List YamlValue → Option (List String)
  | [] => some []
  | .str s :: rest =>
    match allStrings rest with
    | some ss => some (s :: ss)
    | none => none
  | _ :: _ => none

/-- The cron expressions a value gives when it is a string or a list of strings. -/
def scheduleStrings : YamlValue → Option (List String)
  | .str s => some [s]
  | .list xs => allStrings xs
  | _ => none

/-- The key of a schedule map entry is one of `start`, `stop`, `restart`. -/
def IsScheduleKey (k : YamlValue) : Prop :=
  k = .str "start" ∨ k = .str "stop" ∨ k = .str "restart"

/-- The cron parser accepts the expression. -/
def Accepted {σ : Type} (deps : Deps σ) (s : String) : Prop :=
  ∃ p, deps.cronParse s = .ok p

/-- The expressions written under the key `key` in the entries of a schedule map. -/
def givenUnder (key : String) : List (YamlValue × YamlValue) → List String
  | [] => []
  | (.str k, v) :: rest =>
    if k = key then (scheduleStrings v).getD [] ++ givenUnder key rest else givenUnder key rest
  | _ :: rest => givenUnder key rest

/-- All the expressions a schedule value gives. -/
def givenExprs : YamlValue → List String
  | .str s => [s]
  | .list xs => (allStrings xs).getD []
  | .map kvs => givenUnder "start" kvs ++ givenUnder "stop" kvs ++ givenUnder "restart" kvs
  | _ => []

/-- A schedule of one of the three documented shapes: a string, a list of
strings, or a map from `start`, `stop`, `restart` to a string or a list of strings. -/
def WellTypedSchedule : YamlValue → Prop
  | .str _ => True
  | .list xs => (allStrings xs).isSome
  | .map kvs => ∀ kv ∈ kvs, IsScheduleKey kv.1 ∧ (scheduleStrings kv.2).isSome
  | _ => False

/-- A schedule of an accepted shape: absent, or well typed. -/
def ValidScheduleShape (v : YamlValue) : Prop :=
  v = .null ∨ WellTypedSchedule v

/-- The expressions of a list of schedules. -/
def expressions {σ : Type} (l : Option (List (Schedule σ))) : Option (List String) :=
  l.map (fun xs => xs.map (fun s => s.Expression))

/-! ## Steps -/

/-- The value of `int64(x)`: `x` wrapped into the 64-bit two's complement range. -/
def wrapInt64 (x : Int) : Int :=
  (x + 2 ^ 63) % 2 ^ 64 - 2 ^ 63

/-- The duration `time.Second * time.Duration(sec)`, in nanoseconds. -/
def secondsDuration (sec : Int) : Int :=
  wrapInt64 (1000000000 * wrapInt64 sec)

structure continueOnDef where
  Skipped : Bool
  Failure : Bool

structure retryPolicyDef where
  Limit : Int
  IntervalSec : Int

structure repeatPolicyDef where
  Repeat : Bool
  IntervalSec : Int

structure conditionDef where
  Condition : String
  Expected : String

/-- The decoded definition of a step, as far as `buildStep` reads it.  `Executor`
is an `interface{}`, `.null` when absent; the pointer fields are `none` when nil. -/
structure stepDef where
  Name : String
  Description : String
  Dir : String
  Executor : YamlValue
  Command : String
  Script : String
  Stdout : String
  Stderr : String
  Output : String
  Depends : List String
  ContinueOn : Option continueOnDef
  RetryPolicy : Option retryPolicyDef
  RepeatPolicy : Option repeatPolicyDef
  MailOnError : Bool
  Preconditions : List conditionDef
  SignalOnStop : Option String

/-- The function `assertStepDef`: the error it returns, `none` for nil. -/
def assertStepDef (sdef : stepDef) : Option String :=
  if sdef.Name = "" then some "step name must be specified"
  else if sdef.Command = "" then some "step command must be specified"
  else none

/-- The function `utils.SignalNum` of the unix build. -/
def SignalNum {σ : Type} (deps : Deps σ) (sigDef : String) : Except String Int :=
  let sig := deps.unixSignalNum sigDef
  if sig = 0 then .error ("invalid signal: " ++ sigDef) else .ok sig

/-- The function `utils.SignalNum` of the windows build. -/
def SignalNumWindows (sigDef : String) : Except String Int :=
  if sigDef = "SIGINT" then .ok 2
  else if sigDef = "SIGTERM" then .ok 15
  else .error ("invalid signal: " ++ sigDef)

/-- The method `builder.expandEnv`. -/
def builder.expandEnv {σ : Type} (b : builder) (deps : Deps σ) (env : Env) (val : String) :
    String :=
  if b.noEval then val else deps.expandEnv env val

/-- The function `loadPreCondition`. -/
def loadPreCondition (cond : List conditionDef) : List Condition :=
  cond.map (fun v => { Condition := v.Condition, Expected := v.Expected })

/-- The comparison `k == s` of an interface value with a string. -/
def eqString (k : YamlValue) (s : String) : Bool :=
  match k with
  | .str ks => decide (ks = s)
  | _ => false

/-- The name the run time gives the dynamic type of a value in the message of a
failed type assertion: `nil` for a nil interface, the type name otherwise. -/
def runtimeTypeName : YamlValue → String
  | .null => "nil"
  | other => goTypeName other

/-- The type assertion `v.(string)`, which panics on a value of another type. -/
def assertString (v : YamlValue) : Except Failure String :=
  match v with
  | .str s => .ok s
  | other =>
    .error (.panic
      ("interface conversion: interface \x7b\x7d is " ++ runtimeTypeName other ++ ", not string"))

/-- The assignment `Config[k] = v`; assigning into a nil map panics. -/
def setConfig (ec : ExecutorConfig) (k : String) (v : YamlValue) : Except Failure ExecutorConfig :=
  match ec.Config with
  | some cfg => .ok { ec with Config := some (GoMap.set cfg k v) }
  | none => .error (.panic "assignment to entry in nil map")

/-- The loop of `buildStep` over an executor map, entries in iteration order. -/
def executorEntries : List (YamlValue × YamlValue) → ExecutorConfig → Except Failure ExecutorConfig
  | [], ec => .ok ec
  | (k, v) :: rest, ec =>
    if eqString k "type" then
      match assertString v with
      | .error f => .error f
      | .ok t => executorEntries rest { ec with Type_ := t }
    else
      match assertString k with
      | .error f => .error f
      | .ok ks =>
        match setConfig ec ks v with
        | .error f => .error f
        | .ok ec1 => executorEntries rest ec1

/-- The executor part of `buildStep`: `Config` starts as an empty map, then the
type switch on `def.Executor`. -/
def buildExecutor (executor : YamlValue) : Except Failure ExecutorConfig :=
  match executor with
  | .null => .ok { Type_ := "", Config := some [] }
  | .str val => .ok { Type_ := val, Config := some [] }
  | .map val => executorEntries val { Type_ := "", Config := some [] }
  | _ => .error (.error "invalid executor config")

/-- The method `builder.buildStep`.  It reads the environment `env` (through
`expandEnv`) and does not change it. -/
def buildStep {σ : Type} (deps : Deps σ) (b : builder) (env : Env) (vars : List String)
    (sdef : stepDef) : Except Failure Step :=
  match assertStepDef sdef with
  | some err => .error (.error err)
  | none =>
    match buildExecutor sdef.Executor with
    | .error f => .error f
    | .ok ec =>
      let step : Step :=
        { Name := sdef.Name
          Description := sdef.Description
          CmdWithArgs := sdef.Command
          Command := (deps.splitCommand sdef.Command false).1
          Args := (deps.splitCommand sdef.Command false).2
          Script := sdef.Script
          Stdout := b.expandEnv deps env sdef.Stdout
          Stderr := b.expandEnv deps env sdef.Stderr
          Output := sdef.Output
          Dir := b.expandEnv deps env sdef.Dir
          ExecutorConfig := ec
          Variables := vars
          Depends := sdef.Depends
          ContinueOn :=
            match sdef.ContinueOn with
            | some c => { Skipped := c.Skipped, Failure := c.Failure }
            | none => { Skipped := false, Failure := false }
          RetryPolicy :=
            match sdef.RetryPolicy with
            | some r => some { Limit := r.Limit, Interval := secondsDuration r.IntervalSec }
            | none => none
          RepeatPolicy :=
            match sdef.RepeatPolicy with
            | some r => { Repeat := r.Repeat, Interval := secondsDuration r.IntervalSec }
            | none => { Repeat := false, Interval := 0 }
          SignalOnStop := ""
          MailOnError := sdef.MailOnError
          Preconditions := loadPreCondition sdef.Preconditions }
      match sdef.SignalOnStop with
      | none => .ok step
      | some sigDef =>
        match SignalNum deps sigDef with
        | .error err => .error (.error err)
        | .ok _ => .ok { step with SignalOnStop := sigDef }

/-- The loop of `buildStepsFromDefinition`, with `ret` the steps built so far. -/
def buildStepsLoop {σ : Type} (deps : Deps σ) (b : builder) (env : Env)
    (vars : List String) : List stepDef → List Step → Except Failure (List Step)
  | [], ret => .ok ret
  | sdef :: rest, ret =>
    match buildStep deps b env vars sdef with
    | .error f => .error f
    | .ok step => buildStepsLoop deps b env vars rest (ret ++ [step])

/-- The method `builder.buildStepsFromDefinition`, on `def.Steps`: the failure (if
any) and the DAG as it leaves it. -/
def buildStepsFromDefinition {σ : Type} (deps : Deps σ) (b : builder) (env : Env)
    (steps : List stepDef) (d : DAG σ) : Option Failure × DAG σ :=
  match buildStepsLoop deps b env d.Env steps [] with
  | .error f => (some f, d)
  | .ok ret => (none, { d with Steps := ret })

/-! ### Vocabulary for the statements about steps -/

/-- An executor value that `buildStep` takes without failing: absent, a string, or
a map with string keys whose value under `type` is a string. -/
def WellFormedExecutor : YamlValue → Prop
  | .null => True
  | .str _ => True
  | .map m => ∀ kv ∈ m, (∃ k, kv.1 = .str k) ∧ (kv.1 = .str "type" → ∃ t, kv.2 = .str t)
  | _ => False

/-- A step definition that passes the checks of `buildStep` other than the one on
the executor: name and command are given, and the stop signal, if any, is a signal. -/
def ValidStepDef {σ : Type} (deps : Deps σ) (sdef : stepDef) : Prop :=
  sdef.Name ≠ "" ∧ sdef.Command ≠ "" ∧
    ∀ s, sdef.SignalOnStop = some s → ∃ n, SignalNum deps s = .ok n

/-- A step definition with the given name and command and nothing else. -/
def stepDef.simple (name command : String) : stepDef :=
  { Name := name, Description := "", Dir := "", Executor := .null, Command := command,
    Script := "", Stdout := "", Stderr := "", Output := "", Depends := [],
    ContinueOn := none, RetryPolicy := none, RepeatPolicy := none, MailOnError := false,
    Preconditions := [], SignalOnStop := none }

/-- The builder with no option set, `&builder{}`. -/
def builder.zero : builder :=
  { headOnly := false, parameters := "", noEval := false, noSetenv := false, defaultEnv := [] }

/-! ## Environment variables (`loadVariables`) -/

/-- The closure `loadFn` of `loadVariables`: the string entries of the map `m`
are appended to `a`; an entry whose key is no string is passed over, one whose
value is no string is an error. -/
def loadFn : List (YamlValue × YamlValue) → List (String × String) →
    Except String (List (String × String))
  | [], a => .ok a
  | (k, v) :: rest, a =>
    match k with
    | .str ks =>
      match v with
      | .str vs => loadFn rest (a ++ [(ks, vs)])
      | _ => .error ("invalid value for env " ++ ks)
    | _ => loadFn rest a

/-- The loop of `loadVariables` over a list: every element that is a map is
loaded, any other element is passed over. -/
def loadList : List YamlValue → List (String × String) → Except String (List (String × String))
  | [], vals => .ok vals
  | v :: rest, vals =>
    match v with
    | .map aa =>
      match loadFn aa vals with
      | .error e => .error e
      | .ok vals1 => loadList rest vals1
    | _ => loadList rest vals

/-- The first half of `loadVariables`: the slice `vals`, the defaults (in
iteration order) followed by what `strVariables` gives. -/
def collectVariables (strVariables : YamlValue) (defaults : List (String × String)) :
    Except String (List (String × String)) :=
  match strVariables with
  | .map a => loadFn a defaults
  | .list a => loadList a defaults
  | _ => .ok defaults

/-- The second half of `loadVariables`: each value is evaluated in the current
environment, stored in `vars` and, unless `noSetenv`, exported.  The result
comes with the environment as the loop leaves it. -/
def evalVariables {σ : Type} (deps : Deps σ) (noSetenv : Bool) :
    List (String × String) → GoMap String → Env → Except String (GoMap String) × Env
  | [], vars, env => (.ok vars, env)
  | (key, val) :: rest, vars, env =>
    match deps.parseVariable env val with
    | .error e => (.error e, env)
    | .ok parsed =>
      if noSetenv then evalVariables deps noSetenv rest (GoMap.set vars key parsed) env
      else
        match osSetenv env key parsed with
        | .error e => (.error e, env)
        | .ok env1 => evalVariables deps noSetenv rest (GoMap.set vars key parsed) env1

/-- The method `builder.loadVariables`: the map it returns, or its error, and the
environment after the call. -/
def loadVariables {σ : Type} (deps : Deps σ) (b : builder) (strVariables : YamlValue)
    (defaults : List (String × String)) (env : Env) : Except String (GoMap String) × Env :=
  match collectVariables strVariables defaults with
  | .error e => (.error e, env)
  | .ok vals => evalVariables deps b.noSetenv vals [] env

/-! ### Vocabulary for the statements about variables -/

/-- The YAML list of single-entry maps `[k1: v1, ..., kn: vn]`. -/
def envList (entries : List (String × String)) : YamlValue :=
  .list (entries.map (fun kv => .map [(.str kv.1, .str kv.2)]))

/-- Evaluation in list order, as the specification words it: the value of each
entry is evaluated in the environment as updated by the entries before it, and
the key is bound to the result before the next entry is looked at.  The result
lists the keys with their evaluated values. -/
def evalInOrder (parseVariable : Env → String → Except String String) :
    List (String × String) → Env → Except String (List (String × String)) × Env
  | [], env => (.ok [], env)
  | (k, v) :: rest, env =>
    match parseVariable env v with
    | .error e => (.error e, env)
    | .ok p =>
      match osSetenv env k p with
      | .error e => (.error e, env)
      | .ok env1 =>
        match evalInOrder parseVariable rest env1 with
        | (.ok ps, env2) => (.ok ((k, p) :: ps), env2)
        | (.error e, env2) => (.error e, env2)

/-- The value of the last occurrence of the key `k` in a list of bindings. -/
def lastBinding : List (String × String) → String → Option String
  | [], _ => none
  | (k1, v1) :: rest, k =>
    match lastBinding rest k with
    | some v => some v
    | none => if k1 = k then some v1 else none

/-! ## Parameters (`parseParameters`) -/

/-- The two parts `strings.SplitN(v, "=", 2)` gives for a `v` that contains `=`:
the text before the first `=` and the text after it. -/
def splitAtEq (v : String) : String × String :=
  (String.mk (v.data.takeWhile (fun c => c ≠ '=')),
    String.mk ((v.data.dropWhile (fun c => c ≠ '=')).drop 1))

/-- A call of `os.Setenv` whose error is dropped. -/
def setenvIgnoringError (env : Env) (k v : String) : Env :=
  match osSetenv env k v with
  | .ok env1 => env1
  | .error _ => env

/-- The evaluation of a token in `parseParameters`: with `eval`,
`utils.ParseCommand(os.ExpandEnv(v))`; without, the token itself. -/
def evalToken {σ : Type} (deps : Deps σ) (eval : Bool) (env : Env) (v : String) :
    Except String String :=
  if eval then deps.parseCommand env (deps.expandEnv env v) else .ok v

/-- One turn of the loop of `parseParameters`, for the token `v` at index `i`
(`strconv.Itoa(i+1)` is `Nat.repr (i + 1)`):
the slices `ret` and `envs` after the turn, or the error returned, and the
environment after the turn. -/
def parameterStep {σ : Type} (deps : Deps σ) (b : builder) (eval : Bool) (i : Nat) (v : String)
    (ret envs : List String) (env : Env) : Except String (List String × List String) × Env :=
  match evalToken deps eval env v with
  | .error e => (.error e, env)
  | .ok v1 =>
    if b.noSetenv then (.ok (ret ++ [v1], envs), env)
    else
      let envs1 := if '=' ∈ v1.data then envs ++ [v1] else envs
      let env1 :=
        if '=' ∈ v1.data then setenvIgnoringError env (splitAtEq v1).1 (splitAtEq v1).2 else env
      match osSetenv env1 (Nat.repr (i + 1)) v1 with
      | .error e => (.error e, env1)
      | .ok env2 => (.ok (ret ++ [v1], envs1), env2)

/-- The loop of `parseParameters` from index `i` on. -/
def parseParametersLoop {σ : Type} (deps : Deps σ) (b : builder) (eval : Bool) :
    Nat → List String → List String → List String → Env →
      Except String (List String × List String) × Env
  | _, [], ret, envs, env => (.ok (ret, envs), env)
  | i, v :: rest, ret, envs, env =>
    match parameterStep deps b eval i v ret envs env with
    | (.error e, env1) => (.error e, env1)
    | (.ok (ret1, envs1), env1) => parseParametersLoop deps b eval (i + 1) rest ret1 envs1 env1

/-- The method `builder.parseParameters`: `params` and `envs`, or the error, and
the environment after the call. -/
def parseParameters {σ : Type} (deps : Deps σ) (b : builder) (value : String) (eval : Bool)
    (env : Env) : Except String (List String × List String) × Env :=
  match deps.shellwordsParse value with
  | .error e => (.error e, env)
  | .ok parsed => parseParametersLoop deps b eval 0 parsed [] [] env

/-! ### Vocabulary for the statements about parameters -/

/-- The token contains `=`. -/
def hasEq (v : String) : Bool := decide ('=' ∈ v.data)

/-- A name `os.Setenv` takes as the key of a `K=V` parameter: not empty and
without NUL byte (the text before the first `=` never contains `=`). -/
def ValidKey (k : String) : Prop := k.data ≠ [] ∧ '\x00' ∉ k.data

/-- The bindings the turn for the value `v` at index `i` exports, in the order of
the calls of `os.Setenv`: the one of `K=V` (when `v` contains `=` and `os.Setenv`
takes the name and the value), then the positional one. -/
def exportsOfToken (i : Nat) (v : String) : List (String × String) :=
  (if hasEq v = true ∧ (splitAtEq v).1.data ≠ [] ∧ '\x00' ∉ (splitAtEq v).1.data ∧
      '\x00' ∉ (splitAtEq v).2.data
    then [((splitAtEq v).1, (splitAtEq v).2)] else []) ++ [(Nat.repr (i + 1), v)]

/-- The bindings exported for the values `vs` of the tokens from index `i` on. -/
def exportsFrom : Nat → List String → List (String × String)
  | _, [] => []
  | i, v :: rest => exportsOfToken i v ++ exportsFrom (i + 1) rest

/-- The environment after a list of bindings has been exported in order. -/
def Env.bindAll (env : Env) (bs : List (String × String)) : Env :=
  fun k =>
    match lastBinding bs k with
    | some x => some x
    | none => env k

/-- The values `vs`, each evaluated by `f` in the same environment `env`; the
first error is the result. -/
def evalAllIn (f : Env → String → Except String String) (env : Env) :
    List String → Except String (List String)
  | [] => .ok []
  | v :: rest =>
    match f env v with
    | .error e => .error e
    | .ok p =>
      match evalAllIn f env rest with
      | .error e => .error e
      | .ok ps => .ok (p :: ps)

/-! ## Tags (`parseTags`) -/

/-- The tables of package `unicode` that `strings.TrimSpace` and
`strings.ToLower` consult: `unicode.IsSpace` and `unicode.ToLower`. -/
structure UnicodeTables where
  isSpace : Char → Bool
  toLower : Char → Char

/-- The function `strings.Split(s, sep)` for a separator of one character: the
texts between the separators, `cur` being the text under way. -/
def splitFrom (sep : Char) : List Char → List Char → List String
  | [], cur => [String.mk cur]
  | c :: cs, cur =>
    if c = sep then String.mk cur :: splitFrom sep cs [] else splitFrom sep cs (cur ++ [c])

/-- The call `strings.Split(s, ",")`. -/
def stringsSplitComma (s : String) : List String :=
  splitFrom ',' s.data []

/-- The function `strings.TrimSpace`: leading and trailing white space removed. -/
def stringsTrimSpace (U : UnicodeTables) (s : String) : String :=
  String.mk ((s.data.dropWhile U.isSpace).reverse.dropWhile U.isSpace).reverse

/-- The function `strings.ToLower`: every character mapped to its lower case. -/
def stringsToLower (U : UnicodeTables) (s : String) : String :=
  String.mk (s.data.map U.toLower)

/-- The loop of `parseTags`, with `ret` the tags found so far. -/
def parseTagsLoop (U : UnicodeTables) : List String → List String → List String
  | [], ret => ret
  | v :: rest, ret =>
    if stringsToLower U (stringsTrimSpace U v) ≠ "" then
      parseTagsLoop U rest (ret ++ [stringsToLower U (stringsTrimSpace U v)])
    else parseTagsLoop U rest ret

/-- The function `parseTags`. -/
def parseTags (U : UnicodeTables) (value : String) : List String :=
  parseTagsLoop U (stringsSplitComma value) []

/-- The tags as the specification words them: the comma-separated fields, each
trimmed and lowercased, in order, the empty ones dropped. -/
def tagsOfFields (U : UnicodeTables) (value : String) : List String :=
  ((stringsSplitComma value).map (fun f => stringsToLower U (stringsTrimSpace U f))).filter
    (fun tag => tag ≠ "")

/-! ## The whole definition (`buildFromDefinition` and its build steps) -/

/-- The zero value `DAG{}`. -/
def DAG.zero (σ : Type) : DAG σ :=
  { Location := "", Name := "", Group := "", Description := "", Schedule := none,
    StopSchedule := none,
    RestartSchedule := none, Env := [], LogDir := "",
    HandlerOn := { Failure := none, Success := none, Cancel := none, Exit := none },
    Steps := [], MailOn := none, ErrorMail := none, InfoMail := none, Smtp := none,
    Delay := 0, RestartWait := 0, HistRetentionDays := 0, Preconditions := [],
    MaxActiveRuns := 0, DefaultParams := "", Params := [], MaxCleanUpTime := 0, Tags := [] }

structure mailOnDef where
  Failure : Bool
  Success : Bool

/-- The handlers of a definition; a handler that is not given is `none`. -/
structure handlerOnDef where
  Failure : Option stepDef
  Success : Option stepDef
  Cancel : Option stepDef
  Exit : Option stepDef

structure smtpConfigDef where
  Host : String
  Port : String
  Username : String
  Password : String

structure mailConfigDef where
  From : String
  To : String
  Prefix : String

/-- The decoded definition of a DAG, as far as `builder.go` reads it.  `Schedule`
and `Env` are `interface{}` values; the pointer fields are `none` when nil. -/
structure configDefinition where
  Name : String
  Group : String
  Description : String
  Schedule : YamlValue
  LogDir : String
  Env : YamlValue
  HandlerOn : handlerOnDef
  Steps : List stepDef
  Smtp : smtpConfigDef
  MailOn : Option mailOnDef
  ErrorMail : mailConfigDef
  InfoMail : mailConfigDef
  DelaySec : Int
  RestartWaitSec : Int
  HistRetentionDays : Option Int
  Preconditions : List conditionDef
  MaxActiveRuns : Int
  Params : String
  MaxCleanUpTimeSec : Option Int
  Tags : String

/-- What `builder.go` takes from the rest of the repository and from the run
time, next to `Deps`.

* `dagInit`: the method `DAG.Init` of `dag.go`;
* `rangeOrder`: the order in which a `range` loop visits the entries of a
  `map[string]string`;
* `unicode`: the tables behind `strings.TrimSpace` and `strings.ToLower`;
* `OnExit`, `OnSuccess`, `OnFailure`, `OnCancel`: the constants of that name
  of package `constants`. -/
structure Context (σ : Type) where
  dagInit : DAG σ → DAG σ
  rangeOrder : GoMap String → List (String × String)
  unicode : UnicodeTables
  OnExit : String
  OnSuccess : String
  OnFailure : String
  OnCancel : String

/-- A build function: the error it returns (if any), the DAG as it leaves it
and the environment after the call. -/
abbrev BuildFn (σ : Type) := configDefinition → DAG σ → Env → Option Failure × DAG σ × Env

/-- The struct `buildStep` of `builder.go`: a build function and whether it is
part of the headline. -/
structure buildStepEntry (σ : Type) where
  BuildFn : BuildFn σ
  Headline : Bool

/-- The function `buildConfigEnv`, on the entries of the map in the order the
loop visits them. -/
def buildConfigEnv (entries : List (String × String)) : List String :=
  entries.map (fun kv => kv.1 ++ "=" ++ kv.2)

/-- The method `builder.buildEnvVariables`; `baseConfig` is `b.baseConfig`. -/
def buildEnvVariables {σ : Type} (deps : Deps σ) (C : Context σ) (b : builder)
    (baseConfig : Option (DAG σ)) : BuildFn σ :=
  fun cdef d env =>
    match loadVariables deps b cdef.Env b.defaultEnv env with
    | (.error e, env1) => (some (.error e), d, env1)
    | (.ok vars, env1) =>
      match baseConfig with
      | none => (none, { d with Env := buildConfigEnv (C.rangeOrder vars) }, env1)
      | some base =>
        (none,
          { d with
            Env := buildConfigEnv (C.rangeOrder vars) ++
              base.Env.filter (fun e => (GoMap.get vars (splitAtEq e).1).isNone) },
          env1)

/-- The method `builder.buildLogdir`; `utils.ParseVariable` gives the empty
string along with an error. -/
def buildLogdir {σ : Type} (deps : Deps σ) : BuildFn σ :=
  fun cdef d env =>
    match deps.parseVariable env cdef.LogDir with
    | .error e => (some (.error e), { d with LogDir := "" }, env)
    | .ok dir => (none, { d with LogDir := dir }, env)

/-- The method `builder.buildParameters`. -/
def buildParameters {σ : Type} (deps : Deps σ) (b : builder) : BuildFn σ :=
  fun cdef d env =>
    let d1 := { d with DefaultParams := cdef.Params }
    let p := if b.parameters ≠ "" then b.parameters else d1.DefaultParams
    match parseParameters deps b p (!b.noEval) env with
    | (.error e, env1) => (some (.error e), { d1 with Params := [] }, env1)
    | (.ok (params, envs), env1) =>
      (none, { d1 with Params := params, Env := d1.Env ++ envs }, env1)

/-- One block of `buildHandlers`: when the handler is given, its name is set to
the constant `name` and the step built from it is assigned through `assign`,
also the nil step that comes with an error. -/
def buildHandler {σ : Type} (deps : Deps σ) (b : builder) (env : Env) (name : String)
    (hdef : Option stepDef) (assign : DAG σ → Option Step → DAG σ) (d : DAG σ) :
    Option Failure × DAG σ :=
  match hdef with
  | none => (none, d)
  | some sdef =>
    match buildStep deps b env d.Env { sdef with Name := name } with
    | .ok step => (none, assign d (some step))
    | .error (.error msg) => (some (.error msg), assign d none)
    | .error (.panic msg) => (some (.panic msg), d)

/-- The method `builder.buildHandlers`, on `def.HandlerOn`: the failure (if any)
and the DAG as it leaves it. -/
def buildHandlers {σ : Type} (deps : Deps σ) (C : Context σ) (b : builder) (env : Env)
    (hdef : handlerOnDef) (d : DAG σ) : Option Failure × DAG σ :=
  match buildHandler deps b env C.OnExit hdef.Exit
      (fun d s => { d with HandlerOn := { d.HandlerOn with Exit := s } }) d with
  | (some f, d1) => (some f, d1)
  | (none, d1) =>
    match buildHandler deps b env C.OnSuccess hdef.Success
        (fun d s => { d with HandlerOn := { d.HandlerOn with Success := s } }) d1 with
    | (some f, d2) => (some f, d2)
    | (none, d2) =>
      match buildHandler deps b env C.OnFailure hdef.Failure
          (fun d s => { d with HandlerOn := { d.HandlerOn with Failure := s } }) d2 with
      | (some f, d3) => (some f, d3)
      | (none, d3) =>
        buildHandler deps b env C.OnCancel hdef.Cancel
          (fun d s => { d with HandlerOn := { d.HandlerOn with Cancel := s } }) d3

/-- The method `builder.buildConfig`. -/
def buildConfig {σ : Type} : BuildFn σ :=
  fun cdef d env =>
    let d1 :=
      match cdef.HistRetentionDays with
      | some n => { d with HistRetentionDays := n }
      | none => d
    let d2 :=
      { d1 with
        Preconditions := loadPreCondition cdef.Preconditions
        MaxActiveRuns := cdef.MaxActiveRuns }
    match cdef.MaxCleanUpTimeSec with
    | some sec => (none, { d2 with MaxCleanUpTime := secondsDuration sec }, env)
    | none => (none, d2, env)

/-- The function `buildSmtpConfigFromDefinition`. -/
def buildSmtpConfigFromDefinition {σ : Type} : BuildFn σ :=
  fun cdef d env =>
    (none,
      { d with
        Smtp := some { Host := cdef.Smtp.Host, Port := cdef.Smtp.Port,
                       Username := cdef.Smtp.Username, Password := cdef.Smtp.Password } },
      env)

/-- The function `buildMailConfigFromDefinition`, which returns no error. -/
def buildMailConfigFromDefinition (mdef : mailConfigDef) : MailConfig :=
  { From := mdef.From, To := mdef.To, Prefix := mdef.Prefix }

/-- The function `buildErrorMailConfig`. -/
def buildErrorMailConfig {σ : Type} : BuildFn σ :=
  fun cdef d env =>
    (none, { d with ErrorMail := some (buildMailConfigFromDefinition cdef.ErrorMail) }, env)

/-- The function `buildInfoMailConfig`. -/
def buildInfoMailConfig {σ : Type} : BuildFn σ :=
  fun cdef d env =>
    (none, { d with InfoMail := some (buildMailConfigFromDefinition cdef.InfoMail) }, env)

/-- The build steps of `buildFromDefinition`, in order. -/
def buildSteps {σ : Type} (deps : Deps σ) (C : Context σ) (b : builder)
    (baseConfig : Option (DAG σ)) : List (buildStepEntry σ) :=
  [ { BuildFn := fun cdef d env =>
        ((buildSchedule deps cdef.Schedule d).1.map Failure.error,
          (buildSchedule deps cdef.Schedule d).2, env)
      Headline := true },
    { BuildFn := buildEnvVariables deps C b baseConfig, Headline := false },
    { BuildFn := buildLogdir deps, Headline := false },
    { BuildFn := buildParameters deps b, Headline := false },
    { BuildFn := fun cdef d env =>
        ((buildStepsFromDefinition deps b env cdef.Steps d).1,
          (buildStepsFromDefinition deps b env cdef.Steps d).2, env)
      Headline := false },
    { BuildFn := fun cdef d env =>
        ((buildHandlers deps C b env cdef.HandlerOn d).1,
          (buildHandlers deps C b env cdef.HandlerOn d).2, env)
      Headline := false },
    { BuildFn := buildConfig, Headline := false },
    { BuildFn := buildSmtpConfigFromDefinition, Headline := false },
    { BuildFn := buildErrorMailConfig, Headline := false },
    { BuildFn := buildInfoMailConfig, Headline := false } ]

/-- The loop of `buildFromDefinition` over the build steps. -/
def runBuildSteps {σ : Type} (headOnly : Bool) :
    List (buildStepEntry σ) → configDefinition → DAG σ → Env → Option Failure × DAG σ × Env
  | [], _, d, env => (none, d, env)
  | bs :: rest, cdef, d, env =>
    if (headOnly && bs.Headline) || !headOnly then
      match bs.BuildFn cdef d env with
      | (some f, d1, env1) => (some f, d1, env1)
      | (none, d1, env1) => runBuildSteps headOnly rest cdef d1 env1
    else runBuildSteps headOnly rest cdef d env

/-- The part of `buildFromDefinition` before the loop: the DAG after `Init` with
the fields copied from the definition. -/
def headline {σ : Type} (C : Context σ) (cdef : configDefinition) : DAG σ :=
  let d := C.dagInit (DAG.zero σ)
  let d := { d with Name := cdef.Name, Group := cdef.Group, Description := cdef.Description }
  let d :=
    match cdef.MailOn with
    | some m => { d with MailOn := some { Failure := m.Failure, Success := m.Success } }
    | none => d
  { d with
    Delay := secondsDuration cdef.DelaySec
    RestartWait := secondsDuration cdef.RestartWaitSec
    Tags := parseTags C.unicode cdef.Tags }

/-- The method `builder.buildFromDefinition`: the error it returns (if any), the
DAG it returns and the environment after the call. -/
def buildFromDefinition {σ : Type} (deps : Deps σ) (C : Context σ) (b : builder)
    (cdef : configDefinition) (baseConfig : Option (DAG σ)) (env : Env) :
    Option Failure × DAG σ × Env :=
  runBuildSteps b.headOnly (buildSteps deps C b baseConfig) cdef (headline C cdef) env

/-! ### Vocabulary for the statements about handlers -/

/-- A block of `buildHandlers`: the constant name, the handler of the definition
and the assignment to the field of `d.HandlerOn`. -/
structure HandlerBlock (σ : Type) where
  name : String
  hdef : Option stepDef
  assign : DAG σ → Option Step → DAG σ

/-- The four blocks of `buildHandlers`, in the order of the source. -/
def handlerBlocks {σ : Type} (C : Context σ) (hdef : handlerOnDef) : List (HandlerBlock σ) :=
  [ { name := C.OnExit, hdef := hdef.Exit
      assign := fun d s => { d with HandlerOn := { d.HandlerOn with Exit := s } } },
    { name := C.OnSuccess, hdef := hdef.Success
      assign := fun d s => { d with HandlerOn := { d.HandlerOn with Success := s } } },
    { name := C.OnFailure, hdef := hdef.Failure
      assign := fun d s => { d with HandlerOn := { d.HandlerOn with Failure := s } } },
    { name := C.OnCancel, hdef := hdef.Cancel
      assign := fun d s => { d with HandlerOn := { d.HandlerOn with Cancel := s } } } ]

/-- Blocks run in order up to the first failure. -/
def runHandlerBlocks {σ : Type} (deps : Deps σ) (b : builder) (env : Env) :
    List (HandlerBlock σ) → DAG σ → Option Failure × DAG σ
  | [], d => (none, d)
  | blk :: rest, d =>
    match buildHandler deps b env blk.name blk.hdef blk.assign d with
    | (some f, d1) => (some f, d1)
    | (none, d1) => runHandlerBlocks deps b env rest d1

/-- A handler definition that `buildStep` takes once it has a name: the command
is given, the stop signal, if any, is a signal, and the executor is well formed. -/
def ValidHandlerDef {σ : Type} (deps : Deps σ) (sdef : stepDef) : Prop :=
  sdef.Command ≠ "" ∧ (∀ s, sdef.SignalOnStop = some s → ∃ n, SignalNum deps s = .ok n) ∧
    WellFormedExecutor sdef.Executor

/-! ## The controller (`internal/controller/controller.go`)

The controller talks to the agent of a DAG over its socket, to the history
database and to the file system.  Socket, database, status codec and loader are
packages of their own; what they answer is a parameter, `Backend`.  Every
method returns, next to its result, the list of the calls it has made to them,
in order; the file system is a state passed through. -/

/-- Modelled from the spec: `scheduler.SchedulerStatus` is not under `src/`; the
spec gives the run status as one of None, Running, Error, Cancel, Success. -/
inductive SchedulerStatus where
  | None : SchedulerStatus
  | Running : SchedulerStatus
  | Error : SchedulerStatus
  | Cancel : SchedulerStatus
  | Success : SchedulerStatus
  deriving DecidableEq

/-- Modelled from the spec: `models.Status` is not under `src/`; of the fields the
spec lists for a run snapshot, those the controller reads or that identify it. -/
structure Status where
  RequestId : String
  Name : String
  Status : SchedulerStatus
  StatusText : String
  Pid : Int
  Params : String
  deriving DecidableEq

/-- Modelled from the spec: `models.Status.CorrectRunningStatus` is not under
`src/`; the spec has it rewrite a status that is Running to Error. -/
def Status.CorrectRunningStatus (st : Dagu.Status) : Dagu.Status :=
  if st.Status = SchedulerStatus.Running then { st with Status := SchedulerStatus.Error } else st

/-- A record of the history: the file and the status read from it
(`models.StatusFile`, as the controller uses it). -/
structure StatusFile where
  File : String
  Status : Status
  deriving DecidableEq

/-- A Go `error` value as the controller tells them apart: the sentinels
`sock.ErrTimeout`, `database.ErrNoStatusDataToday` and `database.ErrNoStatusData`,
an error that wraps `sock.ErrTimeout`, and any other error with its message. -/
inductive GoError where
  | ErrTimeout : GoError
  | wrapsTimeout (msg : String) : GoError
  | ErrNoStatusDataToday : GoError
  | ErrNoStatusData : GoError
  | message (msg : String) : GoError
  deriving DecidableEq

/-- The test `errors.Is(err, sock.ErrTimeout)`. -/
def GoError.isTimeout : GoError → Bool
  | .ErrTimeout => true
  | .wrapsTimeout _ => true
  | _ => false

/-- A call the controller makes to the socket or to the history database. -/
inductive Call where
  | request (addr method path : String) : Call
  | readStatusToday (location : String) : Call
  | findByRequestId (location requestId : String) : Call
  | readStatusHist (location : String) (n : Int) : Call
  | writerOpen (file : String) : Call
  | writerWrite (file : String) (status : Status) : Call
  | writerClose (file : String) : Call
  | moveData (oldPath newPath : String) : Call
  deriving DecidableEq

/-- The call reads the history. -/
def Call.readsHistory : Call → Bool
  | .readStatusToday _ => true
  | .findByRequestId _ _ => true
  | .readStatusHist _ _ => true
  | _ => false

/-- The call writes a status to the history. -/
def Call.writesHistory : Call → Bool
  | .writerWrite _ _ => true
  | _ => false

/-- What the packages around the controller answer.

* `sockAddr`: `DAG.SockAddr`; `request`: `sock.Client.Request`;
* `statusFromJson`: `models.StatusFromJson`, the pair it returns;
* `newStatus`, `pidNotRunning`: `models.NewStatus` and `models.PidNotRunning`;
* `readStatusToday`, `findByRequestId`, `readStatusHist`: the read methods of
  the history database;
* `writerOpen`, `writerWrite`: the errors of `database.Writer.Open` and `Write`
  on the file given, `none` for nil;
* `loadData`: the error of `dag.Loader.LoadData`;
* `writeFileError`: the error `os.WriteFile` meets at a path, if any;
* `renameError`: the error `os.Rename` meets between two paths, if any;
* `moveData`: the error of `database.MoveData`, `none` for nil. -/
structure Backend (σ ν : Type) where
  sockAddr : DAG σ → String
  request : String → String → String → Except GoError String
  statusFromJson : String → Option Status × Option GoError
  newStatus : DAG σ → List ν → SchedulerStatus → Int → Option Int → Option Int → Status
  pidNotRunning : Int
  readStatusToday : String → Except GoError Status
  findByRequestId : String → String → Except GoError StatusFile
  readStatusHist : String → Int → List StatusFile
  writerOpen : String → Option GoError
  writerWrite : String → Status → Option GoError
  loadData : String → Option GoError
  writeFileError : String → Option GoError
  renameError : String → String → Option GoError
  moveData : String → String → Option GoError

/-- The function `defaultStatus`. -/
def defaultStatus {σ ν : Type} (B : Backend σ ν) (d : DAG σ) : Status :=
  B.newStatus d [] SchedulerStatus.None B.pidNotRunning none none

/-- The method `DAGController.GetStatus`: the pair it returns and its calls. -/
def GetStatus {σ ν : Type} (B : Backend σ ν) (d : DAG σ) :
    (Option Status × Option GoError) × List Call :=
  match B.request (B.sockAddr d) "GET" "/status" with
  | .error err =>
    if err.isTimeout then ((none, some err), [.request (B.sockAddr d) "GET" "/status"])
    else ((some (defaultStatus B d), none), [.request (B.sockAddr d) "GET" "/status"])
  | .ok ret => (B.statusFromJson ret, [.request (B.sockAddr d) "GET" "/status"])

/-- The method `DAGController.GetLastStatus`: the pair it returns and its calls. -/
def GetLastStatus {σ ν : Type} (B : Backend σ ν) (d : DAG σ) :
    (Option Status × Option GoError) × List Call :=
  match B.request (B.sockAddr d) "GET" "/status" with
  | .ok ret => (B.statusFromJson ret, [.request (B.sockAddr d) "GET" "/status"])
  | .error err =>
    if !err.isTimeout then
      match B.readStatusToday d.Location with
      | .error rerr =>
        ((some (defaultStatus B d),
          if rerr ≠ GoError.ErrNoStatusDataToday ∧ rerr ≠ GoError.ErrNoStatusData
          then some rerr else none),
          [.request (B.sockAddr d) "GET" "/status", .readStatusToday d.Location])
      | .ok status =>
        ((some status.CorrectRunningStatus, none),
          [.request (B.sockAddr d) "GET" "/status", .readStatusToday d.Location])
    else ((none, some err), [.request (B.sockAddr d) "GET" "/status"])

/-- The method `DAGController.GetStatusByRequestId`. -/
def GetStatusByRequestId {σ ν : Type} (B : Backend σ ν) (d : DAG σ) (requestId : String) :
    (Option Status × Option GoError) × List Call :=
  match B.findByRequestId d.Location requestId with
  | .error err => ((none, some err), [.findByRequestId d.Location requestId])
  | .ok ret =>
    match (GetStatus B d).1.1 with
    | some status =>
      if status.RequestId ≠ requestId then
        ((some ret.Status.CorrectRunningStatus, none),
          .findByRequestId d.Location requestId :: (GetStatus B d).2)
      else ((some ret.Status, none), .findByRequestId d.Location requestId :: (GetStatus B d).2)
    | none => ((some ret.Status, none), .findByRequestId d.Location requestId :: (GetStatus B d).2)

/-- The method `DAGController.GetRecentStatuses`. -/
def GetRecentStatuses {σ ν : Type} (B : Backend σ ν) (d : DAG σ) (n : Int) :
    List StatusFile × List Call :=
  (B.readStatusHist d.Location n, [.readStatusHist d.Location n])

/-- The second half of `UpdateStatus`, from `database.New()` on; the deferred
`w.Close()` runs after the write. -/
def updateFound {σ ν : Type} (B : Backend σ ν) (d : DAG σ) (status : Status) :
    Option GoError × List Call :=
  match B.findByRequestId d.Location status.RequestId with
  | .error err => (some err, [.findByRequestId d.Location status.RequestId])
  | .ok toUpdate =>
    match B.writerOpen toUpdate.File with
    | some err =>
      (some err, [.findByRequestId d.Location status.RequestId, .writerOpen toUpdate.File])
    | none =>
      (B.writerWrite toUpdate.File status,
        [.findByRequestId d.Location status.RequestId, .writerOpen toUpdate.File,
          .writerWrite toUpdate.File status, .writerClose toUpdate.File])

/-- The method `DAGController.UpdateStatus`: the error it returns and its calls. -/
def UpdateStatus {σ ν : Type} (B : Backend σ ν) (d : DAG σ) (status : Status) :
    Option GoError × List Call :=
  match B.request (B.sockAddr d) "GET" "/status" with
  | .error err =>
    if err.isTimeout then (some err, [.request (B.sockAddr d) "GET" "/status"])
    else
      ((updateFound B d status).1,
        .request (B.sockAddr d) "GET" "/status" :: (updateFound B d status).2)
  | .ok res =>
    match (B.statusFromJson res).1 with
    | some ss =>
      if ss.RequestId = status.RequestId ∧ ss.Status = SchedulerStatus.Running then
        (some (.message "the DAG is running"), [.request (B.sockAddr d) "GET" "/status"])
      else
        ((updateFound B d status).1,
          .request (B.sockAddr d) "GET" "/status" :: (updateFound B d status).2)
    | none =>
      ((updateFound B d status).1,
        .request (B.sockAddr d) "GET" "/status" :: (updateFound B d status).2)

/-! ### Files -/

/-- The file system: the content of the file at each path, if there is one. -/
abbrev FileSystem := String → Option String

/-- The file system with `data` as the content of the file at `path`. -/
def FileSystem.write (fs : FileSystem) (path data : String) : FileSystem :=
  fun p => if p = path then some data else fs p

/-- Modelled from the spec: `utils.FileExists` is not under `src/`; it is taken to
tell whether there is a file at the path. -/
def FileExists (fs : FileSystem) (file : String) : Bool :=
  (fs file).isSome

/-- The function `os.WriteFile`: it fails with the error it meets at the path, or
makes `data` the content of the file. -/
def osWriteFile {σ ν : Type} (B : Backend σ ν) (fs : FileSystem) (name data : String) :
    Option GoError × FileSystem :=
  match B.writeFileError name with
  | some err => (some err, fs)
  | none => (none, fs.write name data)

/-- The function `filepath.Ext` (with `/` as separator): the suffix of the last
element of the path from its last dot on, empty without a dot. -/
def filepathExt (path : String) : String :=
  if '.' ∈ path.data.reverse.takeWhile (fun c => c ≠ '/') then
    String.mk ('.' ::
      ((path.data.reverse.takeWhile (fun c => c ≠ '/')).takeWhile (fun c => c ≠ '.')).reverse)
  else ""

/-- The function `validateLocation`: the error it returns, `none` for nil. -/
def validateLocation (dagLocation : String) : Option GoError :=
  if filepathExt dagLocation ≠ ".yaml" then
    some (.message "the config file must be a yaml file with .yaml extension")
  else none

/-- The constant `_DAGTemplate`. -/
def _DAGTemplate : String :=
  "steps:\n  - name: step1\n    command: echo hello\n"

/-- The function `CreateDAG`: the error it returns and the file system after it. -/
def CreateDAG {σ ν : Type} (B : Backend σ ν) (file : String) (fs : FileSystem) :
    Option GoError × FileSystem :=
  match validateLocation file with
  | some err => (some err, fs)
  | none =>
    if FileExists fs file then
      (some (.message ("the config file " ++ file ++ " already exists")), fs)
    else osWriteFile B fs file _DAGTemplate

/-- The method `DAGController.UpdateDAGSpec`: the error it returns and the file
system after it. -/
def UpdateDAGSpec {σ ν : Type} (B : Backend σ ν) (d : DAG σ) (value : String)
    (fs : FileSystem) : Option GoError × FileSystem :=
  match B.loadData value with
  | some err => (some err, fs)
  | none =>
    if !FileExists fs d.Location then
      (some (.message ("the config file " ++ d.Location ++ " does not exist")), fs)
    else osWriteFile B fs d.Location value

/-! ### Moving a DAG -/

/-- The file system after the file at `oldpath` has become the file at `newpath`. -/
def FileSystem.rename (fs : FileSystem) (oldpath newpath : String) : FileSystem :=
  fun p => if p = newpath then fs oldpath else if p = oldpath then none else fs p

/-- The function `os.Rename`: it fails when there is no file at `oldpath` and with
the error it meets between the two paths, and leaves the file system as it is
then; otherwise it moves the file. -/
def osRename {σ ν : Type} (B : Backend σ ν) (fs : FileSystem) (oldpath newpath : String) :
    Option GoError × FileSystem :=
  match fs oldpath with
  | none =>
    (some (.message ("rename " ++ oldpath ++ " " ++ newpath ++ ": no such file or directory")),
      fs)
  | some _ =>
    match B.renameError oldpath newpath with
    | some err => (some err, fs)
    | none => (none, fs.rename oldpath newpath)

/-- The function `MoveDAG`: the error it returns, the file system after it and
its calls to the database. -/
def MoveDAG {σ ν : Type} (B : Backend σ ν) (oldDAGPath newDAGPath : String)
    (fs : FileSystem) : (Option GoError × FileSystem) × List Call :=
  match validateLocation newDAGPath with
  | some err => ((some err, fs), [])
  | none =>
    match (osRename B fs oldDAGPath newDAGPath).1 with
    | some err => ((some err, (osRename B fs oldDAGPath newDAGPath).2), [])
    | none =>
      ((B.moveData oldDAGPath newDAGPath, (osRename B fs oldDAGPath newDAGPath).2),
        [.moveData oldDAGPath newDAGPath])

/-! ### Child processes (`Start`, `Retry`, `Restart`, `internal/utils/utils_unix.go`) -/

/-- The fields of `syscall.SysProcAttr` that `utils_unix.go` sets. -/
structure SysProcAttr where
  Setpgid : Bool
  Pgid : Int
  deriving DecidableEq

/-- The function `utils.SysProcAttrForSetpgid` of `utils_unix.go`. -/
def SysProcAttrForSetpgid : SysProcAttr :=
  { Setpgid := true, Pgid := 0 }

/-- The fields of `exec.Cmd` the controller sets; `Args` holds the command name
followed by the arguments, as `exec.Command` fills it. -/
structure Cmd where
  Args : List String
  Dir : String
  Env : List String
  SysProcAttr : Option SysProcAttr
  deriving DecidableEq

/-- The function `exec.Command`. -/
def execCommand (name : String) (arg : List String) : Cmd :=
  { Args := name :: arg, Dir := "", Env := [], SysProcAttr := none }

/-- What `os/exec` answers: the errors of `Cmd.Start` and of `Cmd.Wait`, `none`
for nil. -/
structure Exec where
  start : Cmd → Option GoError
  wait : Cmd → Option GoError

/-- The method `DAGController.Start`: the error it returns and the commands it
has called `Start` on; `environ` is what `os.Environ()` returns. -/
def Start {σ : Type} (X : Exec) (d : DAG σ) (binPath workDir params : String)
    (environ : List String) : Option GoError × List Cmd :=
  let args := ["start"]
  let args := if params ≠ "" then args ++ ["--params=\"" ++ params ++ "\""] else args
  let args := args ++ [d.Location]
  let cmd : Cmd :=
    { execCommand binPath args with
      SysProcAttr := some SysProcAttrForSetpgid, Dir := workDir, Env := environ }
  match X.start cmd with
  | some err => (some err, [cmd])
  | none => (X.wait cmd, [cmd])

/-- The method `DAGController.Retry`: the error it returns and the commands it
has called `Start` on.  The command is started in a goroutine that also writes
the result `err`, while the caller returns after half a second: `written` tells
whether the goroutine has written `err` by then. -/
def Retry {σ : Type} (X : Exec) (d : DAG σ) (binPath workDir reqId : String)
    (environ : List String) (written : Bool) : Option GoError × List Cmd :=
  let args := ["retry"]
  let args := args ++ ["--req=" ++ reqId]
  let args := args ++ [d.Location]
  let cmd : Cmd :=
    { execCommand binPath args with
      SysProcAttr := some SysProcAttrForSetpgid, Dir := workDir, Env := environ }
  (if written then X.start cmd else none, [cmd])

/-- The method `DAGController.Restart`: the error it returns and the commands it
has called `Start` on. -/
def Restart {σ : Type} (X : Exec) (d : DAG σ) (bin workDir : String)
    (environ : List String) : Option GoError × List Cmd :=
  let args := ["restart", d.Location]
  let cmd : Cmd :=
    { execCommand bin args with
      SysProcAttr := some SysProcAttrForSetpgid, Dir := workDir, Env := environ }
  match X.start cmd with
  | some err => (some err, [cmd])
  | none => (X.wait cmd, [cmd])

/-- A system call made by the utilities: `kill(pid, sig)`. -/
inductive Syscall where
  | kill (pid sig : Int) : Syscall
  deriving DecidableEq

/-- The function `utils.Kill` of `utils_unix.go`: the error it returns and the
system calls it makes.  `sysKill` is the error `syscall.Kill` returns; `-pid` is
the negation of Go on `int`, 64 bits wide. -/
def Kill (sysKill : Int → Int → Option GoError) (pid sig : Int) :
    Option GoError × List Syscall :=
  (sysKill (wrapInt64 (-pid)) sig, [.kill (wrapInt64 (-pid)) sig])

/-! ### The tick of the runner -/

/-- The constant `time.Minute`, in nanoseconds. -/
def timeMinute : Int := 60 * 1000000000

/-- The method `time.Time.Truncate` for a positive `d`, on times counted in
nanoseconds since the zero time: `t` rounded down to a multiple of `d`. -/
def timeTruncate (t d : Int) : Int :=
  t - t % d

/-- Modelled from the spec: `runner.go` is not under `src/` (only its test is);
the spec gives `nextTick(now) = truncate(now, 1 minute) + 1 minute`. -/
def nextTick (now : Int) : Int :=
  timeTruncate now timeMinute + timeMinute

/-! ### The "new" action of the web UI (`internal/admin/handlers/list.go`) -/

/-- The function `strings.HasSuffix`. -/
def stringsHasSuffix (s suffix : String) : Bool :=
  suffix.data.isSuffixOf s.data

/-- The function `strings.TrimSuffix`. -/
def stringsTrimSuffix (s suffix : String) : String :=
  if stringsHasSuffix s suffix then
    String.mk (s.data.take (s.data.length - suffix.data.length))
  else s

/-- The function `nameWithExt`. -/
def nameWithExt (name : String) : String :=
  stringsTrimSuffix name ".yaml" ++ ".yaml"

/-- The case `"new"` of `HandlePostList` up to the call of `CreateDAG`: the
error of `CreateDAG` and the file system after it.  `filepathJoin` is
`filepath.Join`, `DAGsDir` the directory of the handler configuration. -/
def HandlePostListNew {σ ν : Type} (B : Backend σ ν) (filepathJoin : String → String → String)
    (DAGsDir value : String) (fs : FileSystem) : Option GoError × FileSystem :=
  CreateDAG B (nameWithExt (filepathJoin DAGsDir value)) fs

/-! ### Vocabulary for the statements about the controller -/

/-- The socket keeps `UpdateStatus` from touching the history: the request times
out, or it is answered with a status of the same request id that is Running. -/
def SocketBlocks {σ ν : Type} (B : Backend σ ν) (d : DAG σ) (status : Status) : Prop :=
  (∃ err, B.request (B.sockAddr d) "GET" "/status" = .error err ∧ err.isTimeout = true) ∨
  (∃ res ss, B.request (B.sockAddr d) "GET" "/status" = .ok res ∧
    (B.statusFromJson res).1 = some ss ∧ ss.RequestId = status.RequestId ∧
    ss.Status = SchedulerStatus.Running)

/-! ## Concrete instances

The statements below hold for every `Deps`.  To evaluate them on concrete
inputs, here is one instance: small executable stand-ins for the functions of
the other packages, each agreeing with the real function on the inputs it is
used on. -/

/-- The words of a text separated by blanks, `cur` being the word under way. -/
def wordsFrom : List Char → List Char → List String
  | [], cur => if cur = [] then [] else [String.mk cur]
  | c :: cs, cur =>
    if c = ' ' then
      if cur = [] then wordsFrom cs [] else String.mk cur :: wordsFrom cs []
    else wordsFrom cs (cur ++ [c])

/-- The blank-separated words of a string. -/
def words (s : String) : List String := wordsFrom s.data []

/-- A stand-in for the cron parser: it accepts the strings of exactly five fields. -/
def fiveFields (s : String) : Except String Unit :=
  if (words s).length = 5 then .ok () else .error "expected exactly 5 fields"

/-- The predicate `isShellSpecialVar` of package `os`. -/
def isShellSpecialVar (c : Char) : Bool :=
  c = '*' ∨ c = '#' ∨ c = '$' ∨ c = '@' ∨ c = '!' ∨ c = '?' ∨ c = '-' ∨ ('0' ≤ c ∧ c ≤ '9')

/-- The predicate `isAlphaNum` of package `os`. -/
def isAlphaNum (c : Char) : Bool :=
  c = '_' ∨ ('0' ≤ c ∧ c ≤ '9') ∨ ('a' ≤ c ∧ c ≤ 'z') ∨ ('A' ≤ c ∧ c ≤ 'Z')

/-- The function `getShellName` of package `os`, on the text after a `$`: the
name referred to and the number of characters it takes. -/
def getShellName (s : List Char) : List Char × Nat :=
  match s with
  | [] => ([], 0)
  | '{' :: rest =>
    match rest with
    | c :: '}' :: _ =>
      if isShellSpecialVar c then ([c], 3)
      else (rest.takeWhile (fun x => x ≠ '}'), (rest.takeWhile (fun x => x ≠ '}')).length + 2)
    | _ =>
      if '}' ∈ rest then
        if (rest.takeWhile (fun x => x ≠ '}')) = [] then ([], 2)
        else (rest.takeWhile (fun x => x ≠ '}'), (rest.takeWhile (fun x => x ≠ '}')).length + 2)
      else ([], 1)
  | c :: _ =>
    if isShellSpecialVar c then ([c], 1)
    else (s.takeWhile isAlphaNum, (s.takeWhile isAlphaNum).length)

/-- The function `os.Expand` with `os.Getenv` as mapping, on at most `fuel` characters. -/
def osExpandFrom (env : Env) : Nat → List Char → List Char
  | 0, s => s
  | _, [] => []
  | fuel + 1, c :: rest =>
    if c = '$' ∧ rest ≠ [] then
      let nw := getShellName rest
      let out :=
        if nw.1 = [] ∧ 0 < nw.2 then []
        else if nw.1 = [] then ['$']
        else (osGetenv env (String.mk nw.1)).data
      out ++ osExpandFrom env fuel (rest.drop nw.2)
    else c :: osExpandFrom env fuel rest

/-- A model of `os.ExpandEnv`: `$name` and `${name}` are replaced by the value of
`name` in the environment, by nothing when `name` is unset. -/
def osExpandEnv (env : Env) (s : String) : String :=
  String.mk (osExpandFrom env s.data.length s.data)

/-- A stand-in for `unix.SignalNum`: the numbers of a few signals, `0` for other names. -/
def signalTable (name : String) : Int :=
  if name = "SIGHUP" then 1
  else if name = "SIGINT" then 2
  else if name = "SIGKILL" then 9
  else if name = "SIGTERM" then 15
  else 0

/-- The instance: five-field cron expressions, blank-separated words, variable
expansion without command substitution. -/
def sampleDeps : Deps Unit :=
  { cronParse := fiveFields
    shellwordsParse := fun s => .ok (words s)
    expandEnv := osExpandEnv
    parseCommand := fun _ s => .ok s
    parseVariable := fun env s => .ok (osExpandEnv env s)
    splitCommand := fun s _ => ((words s).headD "", (words s).tail)
    unixSignalNum := signalTable }

/-- The empty environment. -/
def emptyEnv : Env := fun _ => none

/-- The tables of `unicode` on ASCII: the six ASCII white-space characters, and
the letters `A`..`Z` mapped to `a`..`z`. -/
def asciiTables : UnicodeTables :=
  { isSpace := fun c => c = ' ' ∨ c = '\t' ∨ c = '\n' ∨ c = '\r' ∨ c = '\x0b' ∨ c = '\x0c'
    toLower := fun c => if 65 ≤ c.toNat ∧ c.toNat ≤ 90 then Char.ofNat (c.toNat + 32) else c }

/-- A status with the given request id and run status. -/
def Status.sample (requestId : String) (st : SchedulerStatus) : Dagu.Status :=
  { RequestId := requestId, Name := "test", Status := st, StatusText := "", Pid := 0,
    Params := "" }

/-- A backend where no agent listens (the connection is refused), the history
is empty and every write goes through. -/
def quietBackend : Backend Unit Unit :=
  { sockAddr := fun d => "/tmp/@dagu-" ++ d.Name ++ ".sock"
    request := fun _ _ _ => .error (.message "connection refused")
    statusFromJson := fun _ => (none, some (.message "unexpected end of JSON input"))
    newStatus := fun d _ st pid _ _ =>
      { RequestId := "", Name := d.Name, Status := st, StatusText := "", Pid := pid,
        Params := "" }
    pidNotRunning := -1
    readStatusToday := fun _ => .error .ErrNoStatusDataToday
    findByRequestId := fun _ _ => .error (.message "request id not found")
    readStatusHist := fun _ _ => []
    writerOpen := fun _ => none
    writerWrite := fun _ _ => none
    loadData := fun _ => none
    writeFileError := fun _ => none
    renameError := fun _ _ => none
    moveData := fun _ _ => none }

/-- The file system without any file. -/
def emptyFS : FileSystem := fun _ => none

/-- A backend where nobody listens and the history holds one record, of the run
`r1`, left Running by an agent that crashed. -/
def crashedRunBackend : Backend Unit Unit :=
  { quietBackend with
    readStatusToday := fun _ => .ok (Status.sample "r1" .Running)
    findByRequestId := fun _ r =>
      if r = "r1" then .ok { File := "test.r1.dat", Status := Status.sample "r1" .Running }
      else .error (.message "request id not found")
    readStatusHist := fun _ _ =>
      [{ File := "test.r1.dat", Status := Status.sample "r1" .Running }] }

/-- The same backend with a history file that cannot be opened for writing. -/
def lockedHistoryBackend : Backend Unit Unit :=
  { crashedRunBackend with writerOpen := fun _ => some (.message "permission denied") }

/-- A context for the builder: `Init` leaves the zero DAG as it is (nil and
empty slices are not told apart here), `range` visits a map in the order of
insertion, and the handler names are those of package `constants`. -/
def sampleContext : Context Unit :=
  { dagInit := fun d => d
    rangeOrder := fun m => m
    unicode := asciiTables
    OnExit := "onExit"
    OnSuccess := "onSuccess"
    OnFailure := "onFailure"
    OnCancel := "onCancel" }

/-- The definition decoded from an empty document. -/
def configDefinition.zero : configDefinition :=
  { Name := "", Group := "", Description := "", Schedule := .null, LogDir := "", Env := .null,
    HandlerOn := { Failure := none, Success := none, Cancel := none, Exit := none },
    Steps := [], Smtp := { Host := "", Port := "", Username := "", Password := "" },
    MailOn := none, ErrorMail := { From := "", To := "", Prefix := "" },
    InfoMail := { From := "", To := "", Prefix := "" }, DelaySec := 0, RestartWaitSec := 0,
    HistRetentionDays := none, Preconditions := [], MaxActiveRuns := 0, Params := "",
    MaxCleanUpTimeSec := none, Tags := "" }

/-! # Theorems -/

/-! ## `parseSchedule` -/

theorem parseScheduleLoop_accepted {σ : Type} (deps : Deps σ) (values : List String) :
    ∀ ret : List (Schedule σ), (∀ s ∈ values, Accepted deps s) →
      ∃ l, parseScheduleLoop deps values ret = (some (ret ++ l), none) ∧
        l.map (fun s => s.Expression) = values := by
  induction values with
  | nil => intro ret _; exact ⟨[], by simp [parseScheduleLoop]⟩
  | cons v rest ih =>
    intro ret h
    obtain ⟨p, hp⟩ := h v (by simp)
    obtain ⟨l, hl, hexpr⟩ := ih (ret ++ [{ Expression := v, Parsed := p }])
      (fun s hs => h s (by simp [hs]))
    refine ⟨{ Expression := v, Parsed := p } :: l, ?_, by simp [hexpr]⟩
    simp [parseScheduleLoop, hp, hl]

theorem parseSchedule_accepted {σ : Type} (deps : Deps σ) (values : List String)
    (h : ∀ s ∈ values, Accepted deps s) :
    ∃ l, parseSchedule deps values = (some l, none) ∧
      l.map (fun s => s.Expression) = values := by
  obtain ⟨l, hl, hexpr⟩ := parseScheduleLoop_accepted deps values [] h
  exact ⟨l, by simpa [parseSchedule] using hl, hexpr⟩

theorem parseScheduleLoop_rejected {σ : Type} (deps : Deps σ) (values : List String) :
    ∀ ret : List (Schedule σ), (∃ s ∈ values, ¬ Accepted deps s) →
      ∃ e, parseScheduleLoop deps values ret = (none, some ("invalid schedule: " ++ e)) := by
  induction values with
  | nil => intro ret h; simp at h
  | cons v rest ih =>
    intro ret h
    cases hv : deps.cronParse v with
    | error e => exact ⟨e, by simp [parseScheduleLoop, hv]⟩
    | ok p =>
      obtain ⟨s, hs, hrej⟩ := h
      have hs1 : s ∈ rest := by
        rcases List.mem_cons.mp hs with rfl | h1
        · exact absurd ⟨p, hv⟩ hrej
        · exact h1
      obtain ⟨e, he⟩ := ih (ret ++ [{ Expression := v, Parsed := p }]) ⟨s, hs1, hrej⟩
      exact ⟨e, by simp [parseScheduleLoop, hv, he]⟩

theorem parseSchedule_rejected {σ : Type} (deps : Deps σ) (values : List String)
    (h : ∃ s ∈ values, ¬ Accepted deps s) :
    ∃ e, parseSchedule deps values = (none, some ("invalid schedule: " ++ e)) := by
  simpa [parseSchedule] using parseScheduleLoop_rejected deps values [] h

/-- The cron parser either accepts every expression of a list or rejects one. -/
theorem accepted_all_or_rejected {σ : Type} (deps : Deps σ) (values : List String) :
    (∀ s ∈ values, Accepted deps s) ∨ (∃ s ∈ values, ¬ Accepted deps s) := by
  by_cases h : ∀ s ∈ values, Accepted deps s
  · exact Or.inl h
  · right
    push_neg at h
    exact h

/-! ## `buildSchedule` on the lists the type switch collects -/

theorem buildSchedule_accepted {σ : Type} (deps : Deps σ) (v : YamlValue) (d : DAG σ)
    (acc : ScheduleLists) (hc : classifySchedule v = .ok acc)
    (h1 : ∀ s ∈ acc.starts, Accepted deps s) (h2 : ∀ s ∈ acc.stops, Accepted deps s)
    (h3 : ∀ s ∈ acc.restarts, Accepted deps s) :
    ∃ l1 l2 l3, buildSchedule deps v d =
        (none, { d with Schedule := some l1, StopSchedule := some l2, RestartSchedule := some l3 }) ∧
      l1.map (fun s => s.Expression) = acc.starts ∧
      l2.map (fun s => s.Expression) = acc.stops ∧
      l3.map (fun s => s.Expression) = acc.restarts := by
  obtain ⟨l1, e1, x1⟩ := parseSchedule_accepted deps acc.starts h1
  obtain ⟨l2, e2, x2⟩ := parseSchedule_accepted deps acc.stops h2
  obtain ⟨l3, e3, x3⟩ := parseSchedule_accepted deps acc.restarts h3
  exact ⟨l1, l2, l3, by simp [buildSchedule, hc, e1, e2, e3], x1, x2, x3⟩

theorem buildSchedule_rejected {σ : Type} (deps : Deps σ) (v : YamlValue) (d : DAG σ)
    (acc : ScheduleLists) (hc : classifySchedule v = .ok acc)
    (h : ∃ s ∈ acc.starts ++ acc.stops ++ acc.restarts, ¬ Accepted deps s) :
    ∃ e, (buildSchedule deps v d).1 = some ("invalid schedule: " ++ e) := by
  rcases accepted_all_or_rejected deps acc.starts with a1 | r1
  · obtain ⟨l1, e1, -⟩ := parseSchedule_accepted deps acc.starts a1
    rcases accepted_all_or_rejected deps acc.stops with a2 | r2
    · obtain ⟨l2, e2, -⟩ := parseSchedule_accepted deps acc.stops a2
      have r3 : ∃ s ∈ acc.restarts, ¬ Accepted deps s := by
        obtain ⟨s, hs, hrej⟩ := h
        simp only [List.mem_append] at hs
        rcases hs with (hs | hs) | hs
        · exact absurd (a1 s hs) hrej
        · exact absurd (a2 s hs) hrej
        · exact ⟨s, hs, hrej⟩
      obtain ⟨e, he⟩ := parseSchedule_rejected deps acc.restarts r3
      exact ⟨e, by simp [buildSchedule, hc, e1, e2, he]⟩
    · obtain ⟨e, he⟩ := parseSchedule_rejected deps acc.stops r2
      exact ⟨e, by simp [buildSchedule, hc, e1, he]⟩
  · obtain ⟨e, he⟩ := parseSchedule_rejected deps acc.starts r1
    exact ⟨e, by simp [buildSchedule, hc, he]⟩

/-! ## The type switch on well-typed values -/

theorem collectStarts_strings (xs : List YamlValue) :
    ∀ (ss starts : List String), allStrings xs = some ss →
      collectStarts xs starts = .ok (starts ++ ss) := by
  induction xs with
  | nil => intro ss starts h; simp [allStrings] at h; simp [collectStarts, ← h]
  | cons x rest ih =>
    intro ss starts h
    cases x <;> simp [allStrings] at h
    rename_i s
    cases hr : allStrings rest with
    | none => simp [hr] at h
    | some rs =>
      simp [hr] at h
      simp [collectStarts, ih rs (starts ++ [s]) hr, ← h]

theorem collectStarts_not_strings (xs : List YamlValue) :
    ∀ starts : List String, allStrings xs = none →
      collectStarts xs starts = .error "schedule must be a string or an array of strings" := by
  induction xs with
  | nil => intro starts h; simp [allStrings] at h
  | cons x rest ih =>
    intro starts h
    cases x <;> simp [collectStarts]
    rename_i s
    cases hr : allStrings rest with
    | none => exact ih _ hr
    | some rs => simp [allStrings, hr] at h

/-- The lists after the strings `ss` have been appended under the key `kk`. -/
theorem appendByKey_eq (kk s : String) (acc : ScheduleLists) :
    appendByKey kk s acc =
      { starts := acc.starts ++ (if kk = "start" then [s] else []),
        stops := acc.stops ++ (if kk = "stop" then [s] else []),
        restarts := acc.restarts ++ (if kk = "restart" then [s] else []) } := by
  unfold appendByKey scheduleStart scheduleStop scheduleRestart
  by_cases h1 : kk = "start"
  · subst h1; simp
  · by_cases h2 : kk = "stop"
    · subst h2; simp
    · by_cases h3 : kk = "restart"
      · subst h3; simp
      · simp [h1, h2, h3]

theorem collectUnderKey_strings (kk : String) (xs : List YamlValue) :
    ∀ (ss : List String) (acc : ScheduleLists), allStrings xs = some ss →
      collectUnderKey kk xs acc = .ok
        { starts := acc.starts ++ (if kk = "start" then ss else []),
          stops := acc.stops ++ (if kk = "stop" then ss else []),
          restarts := acc.restarts ++ (if kk = "restart" then ss else []) } := by
  induction xs with
  | nil => intro ss acc h; simp [allStrings] at h; subst h; simp [collectUnderKey]
  | cons x rest ih =>
    intro ss acc h
    cases x <;> simp [allStrings] at h
    rename_i s
    cases hr : allStrings rest with
    | none => simp [hr] at h
    | some rs =>
      simp [hr] at h
      subst h
      rw [collectUnderKey, ih rs _ hr, appendByKey_eq]
      by_cases h1 : kk = "start" <;> by_cases h2 : kk = "stop" <;>
        by_cases h3 : kk = "restart" <;> simp [h1, h2, h3]

theorem collectUnderKey_not_strings (kk : String) (xs : List YamlValue) :
    ∀ acc : ScheduleLists, allStrings xs = none →
      collectUnderKey kk xs acc = .error "schedule must be a string or an array of strings" := by
  induction xs with
  | nil => intro acc h; simp [allStrings] at h
  | cons x rest ih =>
    intro acc h
    cases x <;> simp [collectUnderKey]
    rename_i s
    cases hr : allStrings rest with
    | none => exact ih _ hr
    | some rs => simp [allStrings, hr] at h

theorem scheduleEntry_well_typed (kk : String) (v : YamlValue) (ss : List String)
    (acc : ScheduleLists) (hk : IsScheduleKey (.str kk)) (hv : scheduleStrings v = some ss) :
    scheduleEntry (.str kk) v acc = .ok
      { starts := acc.starts ++ (if kk = "start" then ss else []),
        stops := acc.stops ++ (if kk = "stop" then ss else []),
        restarts := acc.restarts ++ (if kk = "restart" then ss else []) } := by
  have hk1 : kk = scheduleStart ∨ kk = scheduleStop ∨ kk = scheduleRestart := by
    simpa [IsScheduleKey, scheduleStart, scheduleStop, scheduleRestart] using hk
  cases v <;> simp [scheduleStrings] at hv
  · subst hv
    simp only [scheduleEntry, hk1, if_true, appendByKey_eq]
  · simp only [scheduleEntry, hk1, if_true]
    exact collectUnderKey_strings kk _ ss acc hv

theorem scheduleEntries_well_typed (m : List (YamlValue × YamlValue)) :
    ∀ acc : ScheduleLists,
      (∀ kv ∈ m, IsScheduleKey kv.1 ∧ (scheduleStrings kv.2).isSome) →
      scheduleEntries m acc = .ok
        { starts := acc.starts ++ givenUnder "start" m,
          stops := acc.stops ++ givenUnder "stop" m,
          restarts := acc.restarts ++ givenUnder "restart" m } := by
  induction m with
  | nil => intro acc _; simp [scheduleEntries, givenUnder]
  | cons kv rest ih =>
    intro acc h
    obtain ⟨k, v⟩ := kv
    obtain ⟨hk, hv⟩ := h (k, v) (by simp)
    obtain ⟨ss, hss⟩ := Option.isSome_iff_exists.mp hv
    have hrest := fun a => ih a (fun kv hkv => h kv (by simp [hkv]))
    have hk0 := hk
    rcases hk with hk | hk | hk <;> simp only at hk <;> subst hk <;>
      simp [scheduleEntries, scheduleEntry_well_typed _ v ss acc hk0 hss, hrest, givenUnder, hss]

theorem classifySchedule_well_typed (v : YamlValue) (h : WellTypedSchedule v) :
    ∃ acc, classifySchedule v = .ok acc ∧
      ∀ s, s ∈ acc.starts ++ acc.stops ++ acc.restarts ↔ s ∈ givenExprs v := by
  cases v <;> simp [WellTypedSchedule] at h
  · exact ⟨_, rfl, by simp [givenExprs]⟩
  · rename_i xs
    obtain ⟨ss, hss⟩ := Option.isSome_iff_exists.mp h
    exact ⟨{ starts := ss, stops := [], restarts := [] },
      by simp [classifySchedule, collectStarts_strings xs ss [] hss], by simp [givenExprs, hss]⟩
  · rename_i m
    refine ⟨ScheduleLists.mk (givenUnder "start" m) (givenUnder "stop" m)
      (givenUnder "restart" m), ?_, ?_⟩
    · simp only [classifySchedule]
      simpa using scheduleEntries_well_typed m { starts := [], stops := [], restarts := [] }
        (fun kv hkv => h kv.1 kv.2 hkv)
    · simp [givenExprs]


/-! ## What is written under a key of a map with distinct keys -/

theorem allStrings_map_str (ss : List String) :
    allStrings (ss.map YamlValue.str) = some ss := by
  induction ss with
  | nil => rfl
  | cons s rest ih => simp [allStrings, ih]

theorem givenUnder_absent (key : String) (m : List (YamlValue × YamlValue))
    (h : ∀ v, (YamlValue.str key, v) ∉ m) : givenUnder key m = [] := by
  induction m with
  | nil => rfl
  | cons kv rest ih =>
    obtain ⟨k, x⟩ := kv
    have hrest : ∀ v, (YamlValue.str key, v) ∉ rest := fun v hv => h v (by simp [hv])
    cases k <;> simp only [givenUnder, ih hrest]
    rename_i k1
    by_cases hk : k1 = key
    · subst hk
      exact absurd (List.mem_cons_self _ _) (h x)
    · simp [hk]

theorem givenUnder_present (key : String) (m : List (YamlValue × YamlValue)) (v : YamlValue)
    (hnodup : (m.map Prod.fst).Nodup) (h : (YamlValue.str key, v) ∈ m) :
    givenUnder key m = (scheduleStrings v).getD [] := by
  induction m with
  | nil => simp at h
  | cons kv rest ih =>
    obtain ⟨k, x⟩ := kv
    simp only [List.map_cons, List.nodup_cons] at hnodup
    obtain ⟨hnot, hrest⟩ := hnodup
    rcases List.mem_cons.mp h with heq | hin
    · have hk : k = YamlValue.str key := (Prod.mk.inj heq).1.symm
      have hx : x = v := (Prod.mk.inj heq).2.symm
      subst hk hx
      have habs : ∀ w, (YamlValue.str key, w) ∉ rest := fun w hw =>
        hnot (List.mem_map.mpr ⟨(YamlValue.str key, w), hw, rfl⟩)
      simp [givenUnder, givenUnder_absent key rest habs]
    · have hne : k ≠ YamlValue.str key := fun hk =>
        hnot (List.mem_map.mpr ⟨(YamlValue.str key, v), hin, hk.symm⟩)
      cases k <;> simp only [givenUnder, ih hrest hin]
      rename_i k1
      have hk1 : k1 ≠ key := fun e => hne (by rw [e])
      simp [hk1]

theorem givenUnder_subset (key : String) (m : List (YamlValue × YamlValue)) (s : String)
    (h : s ∈ givenUnder key m) :
    ∃ kv ∈ m, ∃ ss, scheduleStrings kv.2 = some ss ∧ s ∈ ss := by
  induction m with
  | nil => simp [givenUnder] at h
  | cons kv rest ih =>
    obtain ⟨k, x⟩ := kv
    have step : s ∈ givenUnder key rest →
        ∃ kv ∈ (k, x) :: rest, ∃ ss, scheduleStrings kv.2 = some ss ∧ s ∈ ss := fun hs => by
      obtain ⟨kv, hkv, ss, hss, hmem⟩ := ih hs
      exact ⟨kv, by simp [hkv], ss, hss, hmem⟩
    cases k <;> simp only [givenUnder] at h <;> try exact step h
    rename_i k1
    by_cases hk : k1 = key
    · simp only [hk, if_true, List.mem_append] at h
      rcases h with h | h
      · cases hx : scheduleStrings x with
        | none => simp [hx] at h
        | some ss => exact ⟨_, List.mem_cons_self _ _, ss, hx, by simpa [hx] using h⟩
      · exact step h
    · simp only [hk, if_false] at h
      exact step h

/-! ## C1 – C5: `buildSchedule` -/

/-- C1: for a schedule map whose keys are among `start`, `stop`, `restart` and
whose values are strings or lists of strings, all accepted by the cron parser,
`buildSchedule` succeeds; the expressions of `d.Schedule`, `d.StopSchedule` and
`d.RestartSchedule` are the strings given under `start`, `stop` and `restart`,
in order, and the list of an absent key is empty. -/
theorem buildSchedule_map_expressions {σ : Type} (deps : Deps σ) (d : DAG σ)
    (m : List (YamlValue × YamlValue))
    (hnodup : (m.map Prod.fst).Nodup)
    (hshape : ∀ kv ∈ m, IsScheduleKey kv.1 ∧ (scheduleStrings kv.2).isSome)
    (hcron : ∀ kv ∈ m, ∀ ss, scheduleStrings kv.2 = some ss → ∀ s ∈ ss, Accepted deps s) :
    ∃ d1, buildSchedule deps (.map m) d = (none, d1) ∧
      (∀ v, (YamlValue.str "start", v) ∈ m → expressions d1.Schedule = scheduleStrings v) ∧
      (∀ v, (YamlValue.str "stop", v) ∈ m → expressions d1.StopSchedule = scheduleStrings v) ∧
      (∀ v, (YamlValue.str "restart", v) ∈ m →
        expressions d1.RestartSchedule = scheduleStrings v) ∧
      ((∀ v, (YamlValue.str "start", v) ∉ m) → d1.Schedule = some []) ∧
      ((∀ v, (YamlValue.str "stop", v) ∉ m) → d1.StopSchedule = some []) ∧
      ((∀ v, (YamlValue.str "restart", v) ∉ m) → d1.RestartSchedule = some []) := by
  have hc : classifySchedule (.map m) = .ok (ScheduleLists.mk (givenUnder "start" m)
      (givenUnder "stop" m) (givenUnder "restart" m)) := by
    simp only [classifySchedule]
    simpa using scheduleEntries_well_typed m { starts := [], stops := [], restarts := [] } hshape
  have hacc : ∀ key, ∀ s ∈ givenUnder key m, Accepted deps s := fun key s hs => by
    obtain ⟨kv, hkv, ss, hss, hmem⟩ := givenUnder_subset key m s hs
    exact hcron kv hkv ss hss s hmem
  obtain ⟨l1, l2, l3, hb, x1, x2, x3⟩ := buildSchedule_accepted deps (.map m) d _ hc
    (hacc "start") (hacc "stop") (hacc "restart")
  simp only at x1 x2 x3
  have present : ∀ key v, (YamlValue.str key, v) ∈ m →
      some (givenUnder key m) = scheduleStrings v := fun key v hv => by
    obtain ⟨ss, hss⟩ := Option.isSome_iff_exists.mp (hshape _ hv).2
    simp only at hss
    rw [givenUnder_present key m v hnodup hv, hss]
    rfl
  refine ⟨_, hb, ?_, ?_, ?_, ?_, ?_, ?_⟩
  · intro v hv; simp only [expressions, Option.map_some', x1]; exact present _ v hv
  · intro v hv; simp only [expressions, Option.map_some', x2]; exact present _ v hv
  · intro v hv; simp only [expressions, Option.map_some', x3]; exact present _ v hv
  · intro h; rw [givenUnder_absent _ m h] at x1; simpa using x1
  · intro h; rw [givenUnder_absent _ m h] at x2; simpa using x2
  · intro h; rw [givenUnder_absent _ m h] at x3; simpa using x3

/-- C2: for a schedule given as a string, or as a list of strings, all accepted
by the cron parser, `buildSchedule` succeeds, `d.Schedule` has one entry per
string with that string as expression, in order, and `d.StopSchedule` and
`d.RestartSchedule` are empty. -/
theorem buildSchedule_string_or_list {σ : Type} (deps : Deps σ) (d : DAG σ) :
    (∀ s, Accepted deps s →
      ∃ d1, buildSchedule deps (.str s) d = (none, d1) ∧
        expressions d1.Schedule = some [s] ∧
        (∀ l, d1.Schedule = some l → l.length = 1) ∧
        d1.StopSchedule = some [] ∧ d1.RestartSchedule = some []) ∧
    (∀ ss : List String, (∀ s ∈ ss, Accepted deps s) →
      ∃ d1, buildSchedule deps (.list (ss.map YamlValue.str)) d = (none, d1) ∧
        expressions d1.Schedule = some ss ∧
        (∀ l, d1.Schedule = some l → l.length = ss.length) ∧
        d1.StopSchedule = some [] ∧ d1.RestartSchedule = some []) := by
  constructor
  · intro s hs
    obtain ⟨l1, l2, l3, hb, x1, x2, x3⟩ := buildSchedule_accepted deps (.str s) d
      { starts := [s], stops := [], restarts := [] } rfl (by simpa using hs) (by simp) (by simp)
    simp only [List.map_eq_nil_iff] at x2 x3
    subst x2 x3
    refine ⟨_, hb, by simp [expressions, x1], ?_, rfl, rfl⟩
    intro l hl
    simp only [Option.some.injEq] at hl
    subst hl
    simpa using congrArg List.length x1
  · intro ss hss
    have hc : classifySchedule (.list (ss.map YamlValue.str)) =
        .ok { starts := ss, stops := [], restarts := [] } := by
      simp [classifySchedule, collectStarts_strings _ ss [] (allStrings_map_str ss)]
    obtain ⟨l1, l2, l3, hb, x1, x2, x3⟩ := buildSchedule_accepted deps _ d _ hc
      hss (by simp) (by simp)
    simp only [List.map_eq_nil_iff] at x2 x3
    subst x2 x3
    refine ⟨_, hb, by simp [expressions, x1], ?_, rfl, rfl⟩
    intro l hl
    simp only [Option.some.injEq] at hl
    subst hl
    simpa using congrArg List.length x1

/-- C1 on the schedule `start: "0 8 * * *"`, `stop: ["0 20 * * *", "0 22 * * *"]`. -/
theorem buildSchedule_map_expressions_witness :
    ∃ d1, buildSchedule sampleDeps
        (.map [(.str "start", .str "0 8 * * *"),
          (.str "stop", .list [.str "0 20 * * *", .str "0 22 * * *"])]) (DAG.zero Unit)
        = (none, d1) ∧
      expressions d1.Schedule = some ["0 8 * * *"] ∧
      expressions d1.StopSchedule = some ["0 20 * * *", "0 22 * * *"] ∧
      d1.RestartSchedule = some [] := by
  obtain ⟨d1, hb, h1, h2, -, -, -, h6⟩ := buildSchedule_map_expressions sampleDeps (DAG.zero Unit)
    [(.str "start", .str "0 8 * * *"),
      (.str "stop", .list [.str "0 20 * * *", .str "0 22 * * *"])]
    (by simp)
    (by simp [IsScheduleKey, scheduleStrings, allStrings])
    (by
      intro kv hkv ss hss s hs
      simp only [List.mem_cons, List.mem_singleton, List.not_mem_nil, or_false] at hkv
      rcases hkv with rfl | rfl <;> simp [scheduleStrings, allStrings] at hss <;> subst hss <;>
        simp at hs
      · subst hs; exact ⟨(), by rfl⟩
      · rcases hs with rfl | rfl <;> exact ⟨(), by rfl⟩)
  exact ⟨d1, hb, h1 (.str "0 8 * * *") (by simp),
    h2 (.list [.str "0 20 * * *", .str "0 22 * * *"]) (by simp), h6 (by simp)⟩

/-- C2 on the schedules `"0 1 * * *"` and `["0 1 * * *", "0 18 * * *"]`. -/
theorem buildSchedule_string_or_list_witness :
    (∃ d1, buildSchedule sampleDeps (.str "0 1 * * *") (DAG.zero Unit) = (none, d1) ∧
      expressions d1.Schedule = some ["0 1 * * *"]) ∧
    (∃ d1, buildSchedule sampleDeps (.list [.str "0 1 * * *", .str "0 18 * * *"])
        (DAG.zero Unit) = (none, d1) ∧
      expressions d1.Schedule = some ["0 1 * * *", "0 18 * * *"]) := by
  constructor
  · obtain ⟨d1, hb, h1, -⟩ := (buildSchedule_string_or_list sampleDeps (DAG.zero Unit)).1
      "0 1 * * *" ⟨(), by rfl⟩
    exact ⟨d1, hb, h1⟩
  · obtain ⟨d1, hb, h1, -⟩ := (buildSchedule_string_or_list sampleDeps (DAG.zero Unit)).2
      ["0 1 * * *", "0 18 * * *"] (by
        intro s hs
        simp at hs
        rcases hs with rfl | rfl <;> exact ⟨(), by rfl⟩)
    exact ⟨d1, hb, h1⟩

/-- C3: on a well-typed schedule, `buildSchedule` returns an error exactly when
the cron parser rejects one of the given expressions; the message then starts
with `invalid schedule: `, and `parseSchedule` returns a nil list for a list
holding a rejected expression. -/
theorem buildSchedule_error_iff_rejected {σ : Type} (deps : Deps σ) (d : DAG σ) (v : YamlValue)
    (h : WellTypedSchedule v) :
    ((∃ err, (buildSchedule deps v d).1 = some err) ↔
      ∃ s ∈ givenExprs v, ¬ Accepted deps s) ∧
    (∀ err, (buildSchedule deps v d).1 = some err → ∃ e, err = "invalid schedule: " ++ e) ∧
    (∀ values : List String, (∃ s ∈ values, ¬ Accepted deps s) →
      (parseSchedule deps values).1 = none ∧
      ∃ e, (parseSchedule deps values).2 = some ("invalid schedule: " ++ e)) := by
  obtain ⟨acc, hc, hmem⟩ := classifySchedule_well_typed v h
  have key : (∃ s ∈ givenExprs v, ¬ Accepted deps s) ∨
      (buildSchedule deps v d).1 = none ∧ ∀ s ∈ givenExprs v, Accepted deps s := by
    rcases accepted_all_or_rejected deps (acc.starts ++ acc.stops ++ acc.restarts) with a | r
    · right
      obtain ⟨l1, l2, l3, hb, -⟩ := buildSchedule_accepted deps v d acc hc
        (fun s hs => a s (by simp [hs])) (fun s hs => a s (by simp [hs]))
        (fun s hs => a s (by simp [hs]))
      exact ⟨by rw [hb], fun s hs => a s ((hmem s).mpr hs)⟩
    · left
      obtain ⟨s, hs, hrej⟩ := r
      exact ⟨s, (hmem s).mp hs, hrej⟩
  have rej : (∃ s ∈ givenExprs v, ¬ Accepted deps s) →
      ∃ e, (buildSchedule deps v d).1 = some ("invalid schedule: " ++ e) := fun hr => by
    obtain ⟨s, hs, hrej⟩ := hr
    exact buildSchedule_rejected deps v d acc hc ⟨s, (hmem s).mpr hs, hrej⟩
  refine ⟨⟨?_, ?_⟩, ?_, ?_⟩
  · rintro ⟨err, herr⟩
    rcases key with k | ⟨k, -⟩
    · exact k
    · rw [k] at herr; exact absurd herr (by simp)
  · intro hr
    obtain ⟨e, he⟩ := rej hr
    exact ⟨_, he⟩
  · intro err herr
    rcases key with k | ⟨k, -⟩
    · obtain ⟨e, he⟩ := rej k
      rw [he] at herr
      exact ⟨e, (Option.some.inj herr).symm⟩
    · rw [k] at herr; exact absurd herr (by simp)
  · intro values hv
    obtain ⟨e, he⟩ := parseSchedule_rejected deps values hv
    exact ⟨by rw [he], e, by rw [he]⟩

/-- C3 on the schedule `stop: "* * * * * * *"`, which has seven fields. -/
theorem buildSchedule_error_iff_rejected_witness :
    ∃ e, (buildSchedule sampleDeps (.map [(.str "stop", .str "* * * * * * *")])
      (DAG.zero Unit)).1 = some ("invalid schedule: " ++ e) := by
  have h := buildSchedule_error_iff_rejected sampleDeps (DAG.zero Unit)
    (.map [(.str "stop", .str "* * * * * * *")])
    (by simp [WellTypedSchedule, IsScheduleKey, scheduleStrings])
  obtain ⟨err, herr⟩ := h.1.mpr ⟨"* * * * * * *", by simp [givenExprs, givenUnder, scheduleStrings],
    by rintro ⟨p, hp⟩; exact absurd hp (by simp [sampleDeps, fiveFields]; decide)⟩
  obtain ⟨e, he⟩ := h.2.1 err herr
  exact ⟨e, by rw [herr, he]⟩

/-! ### Entries the map loop rejects -/

theorem scheduleEntry_ok_shape (k v : YamlValue) (acc acc1 : ScheduleLists)
    (h : scheduleEntry k v acc = .ok acc1) :
    IsScheduleKey k ∧ (scheduleStrings v).isSome := by
  cases k with
  | str kk => ?_
  | _ => simp [scheduleEntry] at h
  simp only [scheduleEntry] at h
  by_cases hk : kk = scheduleStart ∨ kk = scheduleStop ∨ kk = scheduleRestart
  · simp only [hk, if_true] at h
    refine ⟨by simpa [IsScheduleKey, scheduleStart, scheduleStop, scheduleRestart] using hk, ?_⟩
    cases v with
    | str s => simp [scheduleStrings]
    | list vs =>
      cases hs : allStrings vs with
      | none =>
        simp only [] at h
        rw [collectUnderKey_not_strings kk vs acc hs] at h
        exact absurd h (by simp)
      | some ss => simp [scheduleStrings, hs]
    | _ => simp at h
  · simp only [hk, if_false] at h
    exact absurd h (by simp)

theorem scheduleEntries_bad_entry (m : List (YamlValue × YamlValue)) :
    ∀ acc : ScheduleLists,
      (∃ kv ∈ m, ¬ (IsScheduleKey kv.1 ∧ (scheduleStrings kv.2).isSome)) →
      ∃ err, scheduleEntries m acc = .error err := by
  induction m with
  | nil => intro acc h; simp at h
  | cons kv rest ih =>
    intro acc h
    obtain ⟨k, v⟩ := kv
    cases he : scheduleEntry k v acc with
    | error e => exact ⟨e, by simp [scheduleEntries, he]⟩
    | ok acc1 =>
      have hshape := scheduleEntry_ok_shape k v acc acc1 he
      obtain ⟨kv1, hkv1, hbad⟩ := h
      have hin : kv1 ∈ rest := by
        rcases List.mem_cons.mp hkv1 with rfl | h1
        · exact absurd hshape hbad
        · exact h1
      obtain ⟨err, herr⟩ := ih acc1 ⟨kv1, hin, hbad⟩
      exact ⟨err, by simp [scheduleEntries, he, herr]⟩

theorem buildSchedule_classify_error {σ : Type} (deps : Deps σ) (d : DAG σ) (v : YamlValue)
    (err : String) (h : classifySchedule v = .error err) :
    buildSchedule deps v d = (some err, d) := by
  simp [buildSchedule, h]

/-- C4: a schedule map with a string key other than `start`, `stop`, `restart`
is rejected; when that key is the only one the message is
`schedule key must be start or stop`, whatever the value; a map with the single
key `restart` and an accepted expression is built into `d.RestartSchedule`. -/
theorem buildSchedule_unknown_key {σ : Type} (deps : Deps σ) (d : DAG σ) :
    (∀ (m : List (YamlValue × YamlValue)) (k : String) (v : YamlValue),
      (YamlValue.str k, v) ∈ m → k ≠ "start" → k ≠ "stop" → k ≠ "restart" →
      ∃ err, buildSchedule deps (.map m) d = (some err, d)) ∧
    (∀ (k : String) (v : YamlValue), k ≠ "start" → k ≠ "stop" → k ≠ "restart" →
      buildSchedule deps (.map [(.str k, v)]) d =
        (some "schedule key must be start or stop", d)) ∧
    (∀ s, Accepted deps s →
      ∃ l, buildSchedule deps (.map [(.str "restart", .str s)]) d =
          (none, { d with Schedule := some [], StopSchedule := some [],
                          RestartSchedule := some l }) ∧
        l.map (fun x => x.Expression) = [s]) := by
  refine ⟨?_, ?_, ?_⟩
  · intro m k v hmem h1 h2 h3
    obtain ⟨err, herr⟩ := scheduleEntries_bad_entry m { starts := [], stops := [], restarts := [] }
      ⟨(.str k, v), hmem, by simp [IsScheduleKey, h1, h2, h3]⟩
    exact ⟨err, buildSchedule_classify_error deps d _ err (by simpa [classifySchedule] using herr)⟩
  · intro k v h1 h2 h3
    apply buildSchedule_classify_error
    simp [classifySchedule, scheduleEntries, scheduleEntry, scheduleStart, scheduleStop,
      scheduleRestart, h1, h2, h3]
  · intro s hs
    obtain ⟨l1, l2, l3, hb, x1, x2, x3⟩ := buildSchedule_accepted deps
      (.map [(.str "restart", .str s)]) d { starts := [], stops := [], restarts := [s] }
      (by simp [classifySchedule, scheduleEntries, scheduleEntry, scheduleStart, scheduleStop,
        scheduleRestart, appendByKey])
      (by simp) (by simp) (by simpa using hs)
    simp only [List.map_eq_nil_iff] at x1 x2
    subst x1 x2
    exact ⟨l3, hb, x3⟩

/-- C4 on the schedules `invalid: "* * * * * * *"` and `restart: "0 12 * * *"`. -/
theorem buildSchedule_unknown_key_witness :
    buildSchedule sampleDeps (.map [(.str "invalid", .str "* * * * * * *")]) (DAG.zero Unit) =
      (some "schedule key must be start or stop", DAG.zero Unit) ∧
    ∃ l, (buildSchedule sampleDeps (.map [(.str "restart", .str "0 12 * * *")])
      (DAG.zero Unit)).2.RestartSchedule = some l ∧ l.map (fun x => x.Expression) = ["0 12 * * *"] := by
  refine ⟨(buildSchedule_unknown_key sampleDeps (DAG.zero Unit)).2.1 "invalid" _
    (by decide) (by decide) (by decide), ?_⟩
  obtain ⟨l, hb, hl⟩ := (buildSchedule_unknown_key sampleDeps (DAG.zero Unit)).2.2
    "0 12 * * *" ⟨(), by rfl⟩
  exact ⟨l, by rw [hb], hl⟩

theorem allStrings_non_string (xs : List YamlValue) (x : YamlValue) (hx : x ∈ xs)
    (hns : ∀ s, x ≠ .str s) : allStrings xs = none := by
  induction xs with
  | nil => simp at hx
  | cons y rest ih =>
    cases y with
    | str s =>
      have hin : x ∈ rest := by
        rcases List.mem_cons.mp hx with h | h
        · exact absurd h (hns s)
        · exact h
      simp [allStrings, ih hin]
    | _ => simp [allStrings]

theorem classifySchedule_invalid_shape (v : YamlValue) (h : ¬ ValidScheduleShape v) :
    ∃ err, classifySchedule v = .error err := by
  cases v with
  | null => exact absurd (Or.inl rfl) h
  | str s => exact absurd (Or.inr trivial) h
  | int n => exact ⟨_, rfl⟩
  | bool b => exact ⟨_, rfl⟩
  | float x => exact ⟨_, rfl⟩
  | list xs =>
    cases hs : allStrings xs with
    | none =>
      exact ⟨"schedule must be a string or an array of strings",
        by simp [classifySchedule, collectStarts_not_strings xs [] hs]⟩
    | some ss => exact absurd (Or.inr (by simp [WellTypedSchedule, hs])) h
  | map m =>
    have hbad : ∃ kv ∈ m, ¬ (IsScheduleKey kv.1 ∧ (scheduleStrings kv.2).isSome) := by
      by_contra hno
      push_neg at hno
      exact h (Or.inr (fun kv hkv => hno kv hkv))
    obtain ⟨err, herr⟩ := scheduleEntries_bad_entry m _ hbad
    exact ⟨err, by simpa [classifySchedule] using herr⟩

/-- C5: a schedule value that is not absent, a string, a list of strings, or a
map from `start`, `stop`, `restart` to strings or lists of strings is rejected
with an error and the DAG is left as it was: so are a number or boolean, a list
(top-level or under a key) with a non-string element, a map value that is
neither a string nor a list, and a map with a non-string key. -/
theorem buildSchedule_invalid_shape {σ : Type} (deps : Deps σ) (d : DAG σ) :
    (∀ v, ¬ ValidScheduleShape v → ∃ err, buildSchedule deps v d = (some err, d)) ∧
    (∀ n, ∃ err, buildSchedule deps (.int n) d = (some err, d)) ∧
    (∀ b, ∃ err, buildSchedule deps (.bool b) d = (some err, d)) ∧
    (∀ x, ∃ err, buildSchedule deps (.float x) d = (some err, d)) ∧
    (∀ xs x, x ∈ xs → (∀ s, x ≠ .str s) →
      ∃ err, buildSchedule deps (.list xs) d = (some err, d)) ∧
    (∀ m k xs x, (k, YamlValue.list xs) ∈ m → x ∈ xs → (∀ s, x ≠ .str s) →
      ∃ err, buildSchedule deps (.map m) d = (some err, d)) ∧
    (∀ m k v, (k, v) ∈ m → (∀ s, v ≠ .str s) → (∀ xs, v ≠ .list xs) →
      ∃ err, buildSchedule deps (.map m) d = (some err, d)) ∧
    (∀ m k v, (k, v) ∈ m → (∀ s, k ≠ .str s) →
      ∃ err, buildSchedule deps (.map m) d = (some err, d)) := by
  have gen : ∀ v, ¬ ValidScheduleShape v → ∃ err, buildSchedule deps v d = (some err, d) :=
    fun v hv => by
      obtain ⟨err, herr⟩ := classifySchedule_invalid_shape v hv
      exact ⟨err, buildSchedule_classify_error deps d v err herr⟩
  have inMap : ∀ (m : List (YamlValue × YamlValue)) (kv : YamlValue × YamlValue), kv ∈ m →
      ¬ (IsScheduleKey kv.1 ∧ (scheduleStrings kv.2).isSome) →
      ∃ err, buildSchedule deps (.map m) d = (some err, d) := fun m kv hkv hbad => by
    apply gen
    rintro (h | h)
    · exact absurd h (by simp)
    · exact hbad (h kv hkv)
  refine ⟨gen, ?_, ?_, ?_, ?_, ?_, ?_, ?_⟩
  · intro n; exact gen _ (by simp [ValidScheduleShape, WellTypedSchedule])
  · intro b; exact gen _ (by simp [ValidScheduleShape, WellTypedSchedule])
  · intro x; exact gen _ (by simp [ValidScheduleShape, WellTypedSchedule])
  · intro xs x hx hns
    exact gen _ (by simp [ValidScheduleShape, WellTypedSchedule, allStrings_non_string xs x hx hns])
  · intro m k xs x hmem hx hns
    exact inMap m _ hmem (by simp [scheduleStrings, allStrings_non_string xs x hx hns])
  · intro m k v hmem h1 h2
    refine inMap m _ hmem ?_
    cases v with
    | str s => exact absurd rfl (h1 s)
    | list xs => exact absurd rfl (h2 xs)
    | _ => simp [scheduleStrings]
  · intro m k v hmem hk
    refine inMap m _ hmem ?_
    rintro ⟨h | h | h, -⟩ <;> exact hk _ h

/-- C5 on the schedules `5` and `start: ["0 1 * * *", 7]`. -/
theorem buildSchedule_invalid_shape_witness :
    buildSchedule sampleDeps (.int 5) (DAG.zero Unit) =
      (some "invalid schedule type: int", DAG.zero Unit) ∧
    ∃ err, buildSchedule sampleDeps
      (.map [(.str "start", .list [.str "0 1 * * *", .int 7])]) (DAG.zero Unit) =
        (some err, DAG.zero Unit) := by
  refine ⟨rfl, ?_⟩
  exact (buildSchedule_invalid_shape sampleDeps (DAG.zero Unit)).2.2.2.2.2.1
    [(.str "start", .list [.str "0 1 * * *", .int 7])] (.str "start")
    [.str "0 1 * * *", .int 7] (.int 7) (by simp) (by simp) (by simp)

/-! ## C6 – C8: `buildStep` -/

theorem buildStepsLoop_fails {σ : Type} (deps : Deps σ) (b : builder) (env : Env)
    (vars : List String) (steps : List stepDef) :
    ∀ ret : List Step, (∃ sdef ∈ steps, ∃ f, buildStep deps b env vars sdef = .error f) →
      ∃ f, buildStepsLoop deps b env vars steps ret = .error f := by
  induction steps with
  | nil => intro ret h; simp at h
  | cons sd rest ih =>
    intro ret h
    cases hb : buildStep deps b env vars sd with
    | error f => exact ⟨f, by simp [buildStepsLoop, hb]⟩
    | ok step =>
      obtain ⟨sd1, hmem, f, hf⟩ := h
      have hin : sd1 ∈ rest := by
        rcases List.mem_cons.mp hmem with rfl | h1
        · rw [hb] at hf; exact absurd hf (by simp)
        · exact h1
      obtain ⟨f1, hf1⟩ := ih (ret ++ [step]) ⟨sd1, hin, f, hf⟩
      exact ⟨f1, by simp [buildStepsLoop, hb, hf1]⟩

/-- C6: `buildStep` fails with `step name must be specified` on an empty name,
with `step command must be specified` on a non-empty name and an empty command
(a script does not help); `assertStepDef` accepts exactly the definitions with
both; and a step on which `buildStep` fails makes `buildStepsFromDefinition`
fail and leave the DAG, `d.Steps` included, as it was. -/
theorem buildStep_name_and_command {σ : Type} (deps : Deps σ) (b : builder) (env : Env)
    (vars : List String) (sdef : stepDef) :
    (sdef.Name = "" →
      buildStep deps b env vars sdef = .error (.error "step name must be specified")) ∧
    (sdef.Name ≠ "" → sdef.Command = "" →
      buildStep deps b env vars sdef = .error (.error "step command must be specified")) ∧
    (assertStepDef sdef = none ↔ sdef.Name ≠ "" ∧ sdef.Command ≠ "") ∧
    (∀ (steps : List stepDef) (d : DAG σ), sdef ∈ steps →
      (∃ f, buildStep deps b env d.Env sdef = .error f) →
      ∃ f, buildStepsFromDefinition deps b env steps d = (some f, d)) := by
  refine ⟨?_, ?_, ?_, ?_⟩
  · intro hn
    simp [buildStep, assertStepDef, hn]
  · intro hn hc
    simp [buildStep, assertStepDef, hn, hc]
  · unfold assertStepDef
    by_cases hn : sdef.Name = "" <;> by_cases hc : sdef.Command = "" <;> simp [hn, hc]
  · intro steps d hmem hf
    obtain ⟨f, hloop⟩ := buildStepsLoop_fails deps b env d.Env steps [] ⟨sdef, hmem, hf⟩
    exact ⟨f, by simp [buildStepsFromDefinition, hloop]⟩

/-- C6 on the steps `[{name: "a", command: "echo 1"}, {command: "echo 1"}]`. -/
theorem buildStep_name_and_command_witness :
    buildStep sampleDeps builder.zero emptyEnv [] (stepDef.simple "" "echo 1") =
      .error (.error "step name must be specified") ∧
    buildStep sampleDeps builder.zero emptyEnv [] (stepDef.simple "step 1" "") =
      .error (.error "step command must be specified") ∧
    ∃ f, buildStepsFromDefinition sampleDeps builder.zero emptyEnv
      [stepDef.simple "a" "echo 1", stepDef.simple "" "echo 1"] (DAG.zero Unit) =
        (some f, DAG.zero Unit) :=
  ⟨(buildStep_name_and_command sampleDeps builder.zero emptyEnv []
      (stepDef.simple "" "echo 1")).1 rfl,
    (buildStep_name_and_command sampleDeps builder.zero emptyEnv []
      (stepDef.simple "step 1" "")).2.1 (by decide) rfl,
    (buildStep_name_and_command sampleDeps builder.zero emptyEnv []
      (stepDef.simple "" "echo 1")).2.2.2 _ (DAG.zero Unit) (by simp)
      ⟨_, (buildStep_name_and_command sampleDeps builder.zero emptyEnv (DAG.zero Unit).Env
        (stepDef.simple "" "echo 1")).1 rfl⟩⟩

theorem setConfig_some (ty : String) (cfg : GoMap YamlValue) (k : String) (v : YamlValue) :
    setConfig { Type_ := ty, Config := some cfg } k v =
      .ok { Type_ := ty, Config := some (GoMap.set cfg k v) } := rfl

theorem executorEntries_well_formed (m : List (YamlValue × YamlValue)) :
    ∀ (ty : String) (cfg : GoMap YamlValue),
      (∀ kv ∈ m, (∃ k, kv.1 = .str k) ∧ (kv.1 = .str "type" → ∃ t, kv.2 = .str t)) →
      ∃ ty1 cfg1, executorEntries m { Type_ := ty, Config := some cfg } =
        .ok { Type_ := ty1, Config := some cfg1 } := by
  induction m with
  | nil => intro ty cfg _; exact ⟨ty, cfg, rfl⟩
  | cons kv rest ih =>
    intro ty cfg h
    obtain ⟨k, v⟩ := kv
    obtain ⟨⟨ks, hks⟩, hty⟩ := h (k, v) (by simp)
    simp only at hks hty
    subst hks
    have hrest := fun ty1 cfg1 => ih ty1 cfg1 (fun kv hkv => h kv (by simp [hkv]))
    by_cases hk : ks = "type"
    · obtain ⟨t, ht⟩ := hty (by rw [hk])
      subst ht
      obtain ⟨ty1, cfg1, h1⟩ := hrest t cfg
      exact ⟨ty1, cfg1, by simp [executorEntries, eqString, hk, assertString, h1]⟩
    · obtain ⟨ty1, cfg1, h1⟩ := hrest ty (GoMap.set cfg ks v)
      exact ⟨ty1, cfg1, by simp [executorEntries, eqString, hk, assertString, setConfig_some, h1]⟩

theorem buildExecutor_well_formed (v : YamlValue) (h : WellFormedExecutor v) :
    ∃ ec, buildExecutor v = .ok ec := by
  cases v with
  | null => exact ⟨_, rfl⟩
  | str s => exact ⟨_, rfl⟩
  | map m =>
    obtain ⟨ty1, cfg1, h1⟩ := executorEntries_well_formed m "" [] h
    exact ⟨_, by simpa [buildExecutor] using h1⟩
  | _ => simp [WellFormedExecutor] at h

/-- What `buildStep` returns once the name, the command and the executor have passed. -/
theorem buildStep_of_executor {σ : Type} (deps : Deps σ) (b : builder) (env : Env)
    (vars : List String) (sdef : stepDef) (ec : ExecutorConfig)
    (hn : sdef.Name ≠ "") (hc : sdef.Command ≠ "") (hex : buildExecutor sdef.Executor = .ok ec) :
    (sdef.SignalOnStop = none →
      ∃ step, buildStep deps b env vars sdef = .ok step ∧ step.SignalOnStop = "" ∧
        step.ExecutorConfig = ec) ∧
    (∀ s n, sdef.SignalOnStop = some s → SignalNum deps s = .ok n →
      ∃ step, buildStep deps b env vars sdef = .ok step ∧ step.SignalOnStop = s ∧
        step.ExecutorConfig = ec) ∧
    (∀ s e, sdef.SignalOnStop = some s → SignalNum deps s = .error e →
      buildStep deps b env vars sdef = .error (.error e)) := by
  refine ⟨?_, ?_, ?_⟩
  · intro hs
    exact ⟨_, by simp [buildStep, assertStepDef, hn, hc, hex, hs]; rfl, rfl, rfl⟩
  · intro s n hs hsig
    exact ⟨_, by simp [buildStep, assertStepDef, hn, hc, hex, hs, hsig]; rfl, rfl, rfl⟩
  · intro s e hs hsig
    simp [buildStep, assertStepDef, hn, hc, hex, hs, hsig]

/-- Counterexample to C7 as stated: on the step `name: "1"`, `command: "true"`,
`executor: 5`, `signalOnStop: "2000"`, `SignalNum("2000")` fails with
`invalid signal: 2000`, yet `buildStep` returns another error,
`invalid executor config`, because the executor is checked first. -/
theorem buildStep_signal_error_masked :
    SignalNum sampleDeps "2000" = .error "invalid signal: 2000" ∧
    buildStep sampleDeps builder.zero emptyEnv []
      { stepDef.simple "1" "true" with Executor := .int 5, SignalOnStop := some "2000" } =
        .error (.error "invalid executor config") :=
  ⟨rfl, rfl⟩

/-- C7, amended: for a step definition with non-empty name and command and a
`signalOnStop` value `s`, `buildStep` succeeds only if `SignalNum(s)` succeeds,
and then `step.SignalOnStop` is `s`; if `SignalNum(s)` fails and the executor is
one that `buildStep` takes (absent, a string, or a map with string keys and a
string under `type`), `buildStep` returns that error and no step, and if it
succeeds on such an executor so does `buildStep`.  When `signalOnStop` is
absent, the `SignalOnStop` of the step built is the empty string. -/
theorem buildStep_signalOnStop {σ : Type} (deps : Deps σ) (b : builder) (env : Env)
    (vars : List String) (sdef : stepDef) (hn : sdef.Name ≠ "") (hc : sdef.Command ≠ "") :
    (∀ s, sdef.SignalOnStop = some s →
      (∀ step, buildStep deps b env vars sdef = .ok step →
        (∃ n, SignalNum deps s = .ok n) ∧ step.SignalOnStop = s) ∧
      (∀ e, SignalNum deps s = .error e → WellFormedExecutor sdef.Executor →
        buildStep deps b env vars sdef = .error (.error e)) ∧
      (∀ n, SignalNum deps s = .ok n → WellFormedExecutor sdef.Executor →
        ∃ step, buildStep deps b env vars sdef = .ok step ∧ step.SignalOnStop = s) ∧
      (deps.unixSignalNum s = 0 → SignalNum deps s = .error ("invalid signal: " ++ s))) ∧
    (sdef.SignalOnStop = none →
      (∀ step, buildStep deps b env vars sdef = .ok step → step.SignalOnStop = "") ∧
      (WellFormedExecutor sdef.Executor →
        ∃ step, buildStep deps b env vars sdef = .ok step ∧ step.SignalOnStop = "")) := by
  have noexec : ∀ f, buildExecutor sdef.Executor = .error f →
      buildStep deps b env vars sdef = .error f := fun f hf => by
    simp [buildStep, assertStepDef, hn, hc, hf]
  constructor
  · intro s hs
    refine ⟨?_, ?_, ?_, ?_⟩
    · intro step hstep
      cases hex : buildExecutor sdef.Executor with
      | error f => rw [noexec f hex] at hstep; exact absurd hstep (by simp)
      | ok ec =>
        obtain ⟨-, hok, herr⟩ := buildStep_of_executor deps b env vars sdef ec hn hc hex
        cases hsig : SignalNum deps s with
        | error e => rw [herr s e hs hsig] at hstep; exact absurd hstep (by simp)
        | ok n =>
          obtain ⟨step1, h1, h2, -⟩ := hok s n hs hsig
          rw [h1] at hstep
          have : step1 = step := by simpa using hstep
          exact ⟨⟨n, rfl⟩, this ▸ h2⟩
    · intro e hsig hwf
      obtain ⟨ec, hex⟩ := buildExecutor_well_formed _ hwf
      exact (buildStep_of_executor deps b env vars sdef ec hn hc hex).2.2 s e hs hsig
    · intro n hsig hwf
      obtain ⟨ec, hex⟩ := buildExecutor_well_formed _ hwf
      obtain ⟨step, h1, h2, -⟩ :=
        (buildStep_of_executor deps b env vars sdef ec hn hc hex).2.1 s n hs hsig
      exact ⟨step, h1, h2⟩
    · intro h0
      simp [SignalNum, h0]
  · intro hs
    constructor
    · intro step hstep
      cases hex : buildExecutor sdef.Executor with
      | error f => rw [noexec f hex] at hstep; exact absurd hstep (by simp)
      | ok ec =>
        obtain ⟨step1, h1, h2, -⟩ :=
          (buildStep_of_executor deps b env vars sdef ec hn hc hex).1 hs
        rw [h1] at hstep
        have : step1 = step := by simpa using hstep
        exact this ▸ h2
    · intro hwf
      obtain ⟨ec, hex⟩ := buildExecutor_well_formed _ hwf
      obtain ⟨step, h1, h2, -⟩ := (buildStep_of_executor deps b env vars sdef ec hn hc hex).1 hs
      exact ⟨step, h1, h2⟩

/-- C7, amended, on the steps of the test: `signalOnStop: "SIGINT"` is kept
verbatim and `signalOnStop: "2000"` is refused with the error of `SignalNum`. -/
theorem buildStep_signalOnStop_witness :
    (∃ step, buildStep sampleDeps builder.zero emptyEnv []
        { stepDef.simple "1" "true" with SignalOnStop := some "SIGINT" } = .ok step ∧
      step.SignalOnStop = "SIGINT") ∧
    buildStep sampleDeps builder.zero emptyEnv []
        { stepDef.simple "1" "true" with SignalOnStop := some "2000" } =
      .error (.error "invalid signal: 2000") :=
  ⟨(buildStep_signalOnStop sampleDeps builder.zero emptyEnv []
      { stepDef.simple "1" "true" with SignalOnStop := some "SIGINT" }
      (by decide) (by decide)).1 "SIGINT" rfl |>.2.2.1 2 rfl trivial,
    (buildStep_signalOnStop sampleDeps builder.zero emptyEnv []
      { stepDef.simple "1" "true" with SignalOnStop := some "2000" }
      (by decide) (by decide)).1 "2000" rfl |>.2.1 "invalid signal: 2000" rfl trivial⟩

theorem GoMap.get_set {α : Type} (m : GoMap α) (k k1 : String) (v : α) :
    GoMap.get (GoMap.set m k v) k1 = if k = k1 then some v else GoMap.get m k1 := by
  induction m with
  | nil => simp [GoMap.set, GoMap.get]
  | cons kv rest ih =>
    obtain ⟨k0, v0⟩ := kv
    by_cases h0 : k0 = k
    · subst h0
      by_cases h1 : k0 = k1 <;> simp [GoMap.set, GoMap.get, h1]
    · by_cases h1 : k0 = k1
      · subst h1
        simp [GoMap.set, GoMap.get, h0, Ne.symm h0]
      · simp [GoMap.set, GoMap.get, h0, h1, ih]

/-- The executor map loop on a map with distinct string keys: the type is the
string under `type` (unchanged without that key) and the configuration gets
exactly the other entries. -/
theorem executorEntries_distinct (m : List (YamlValue × YamlValue)) :
    ∀ (ty : String) (cfg : GoMap YamlValue),
      (m.map Prod.fst).Nodup →
      (∀ kv ∈ m, (∃ k, kv.1 = .str k) ∧ (kv.1 = .str "type" → ∃ t, kv.2 = .str t)) →
      ∃ ty1 cfg1, executorEntries m { Type_ := ty, Config := some cfg } =
          .ok { Type_ := ty1, Config := some cfg1 } ∧
        (∀ t, (YamlValue.str "type", YamlValue.str t) ∈ m → ty1 = t) ∧
        ((∀ v, (YamlValue.str "type", v) ∉ m) → ty1 = ty) ∧
        (∀ k v, GoMap.get cfg1 k = some v ↔
          ((YamlValue.str k, v) ∈ m ∧ k ≠ "type") ∨
          (GoMap.get cfg k = some v ∧ (k = "type" ∨ ∀ w, (YamlValue.str k, w) ∉ m))) := by
  induction m with
  | nil =>
    intro ty cfg _ _
    exact ⟨ty, cfg, rfl, by simp, by simp, by simp⟩
  | cons kv rest ih =>
    intro ty cfg hnodup h
    obtain ⟨k, v⟩ := kv
    obtain ⟨⟨ks, hks⟩, hty⟩ := h (k, v) (by simp)
    simp only at hks hty
    subst hks
    simp only [List.map_cons, List.nodup_cons] at hnodup
    obtain ⟨hnot, hnd⟩ := hnodup
    have hfresh : ∀ w, (YamlValue.str ks, w) ∉ rest := fun w hw =>
      hnot (List.mem_map.mpr ⟨(YamlValue.str ks, w), hw, rfl⟩)
    have hrest := fun ty1 cfg1 => ih ty1 cfg1 hnd (fun kv hkv => h kv (by simp [hkv]))
    by_cases hk : ks = "type"
    · subst hk
      obtain ⟨t, ht⟩ := hty rfl
      subst ht
      obtain ⟨ty1, cfg1, h1, -, h3, h4⟩ := hrest t cfg
      have hty1 : ty1 = t := h3 hfresh
      refine ⟨ty1, cfg1, by simp [executorEntries, eqString, assertString, h1], ?_, ?_, ?_⟩
      · intro t1 hmem
        rcases List.mem_cons.mp hmem with heq | hin
        · have : t1 = t := by simpa using heq
          rw [hty1, this]
        · exact absurd hin (hfresh _)
      · intro habs
        exact absurd (List.mem_cons_self _ _) (habs (.str t))
      · intro k1 v1
        rw [h4 k1 v1]
        constructor
        · rintro (⟨hin, hne⟩ | ⟨hget, hor⟩)
          · exact Or.inl ⟨by simp [hin], hne⟩
          · refine Or.inr ⟨hget, ?_⟩
            rcases hor with hor | hor
            · exact Or.inl hor
            · by_cases hk1 : k1 = "type"
              · exact Or.inl hk1
              · right
                intro w hw
                rcases List.mem_cons.mp hw with heq | hin
                · exact hk1 (by simpa using (Prod.mk.inj heq).1)
                · exact hor w hin
        · rintro (⟨hin, hne⟩ | ⟨hget, hor⟩)
          · rcases List.mem_cons.mp hin with heq | hin1
            · exact absurd (by simpa using (Prod.mk.inj heq).1) hne
            · exact Or.inl ⟨hin1, hne⟩
          · refine Or.inr ⟨hget, ?_⟩
            rcases hor with hor | hor
            · exact Or.inl hor
            · exact Or.inr (fun w hw => hor w (by simp [hw]))
    · obtain ⟨ty1, cfg1, h1, h2, h3, h4⟩ := hrest ty (GoMap.set cfg ks v)
      refine ⟨ty1, cfg1,
        by simp [executorEntries, eqString, hk, assertString, setConfig_some, h1], ?_, ?_, ?_⟩
      · intro t1 hmem
        rcases List.mem_cons.mp hmem with heq | hin
        · exact absurd (by simpa using (Prod.mk.inj heq).1) (Ne.symm hk)
        · exact h2 t1 hin
      · intro habs
        exact h3 (fun w hw => habs w (by simp [hw]))
      · intro k1 v1
        rw [h4 k1 v1, GoMap.get_set]
        by_cases hkk : ks = k1
        · subst hkk
          simp only [if_true, Option.some.injEq]
          constructor
          · rintro (⟨hin, -⟩ | ⟨hv, -⟩)
            · exact absurd hin (hfresh _)
            · subst hv; exact Or.inl ⟨List.mem_cons_self _ _, hk⟩
          · rintro (⟨hin, -⟩ | ⟨-, hor⟩)
            · rcases List.mem_cons.mp hin with heq | hin1
              · refine Or.inr ⟨by simpa using ((Prod.mk.inj heq).2).symm, Or.inr hfresh⟩
              · exact absurd hin1 (hfresh _)
            · rcases hor with hor | hor
              · exact absurd hor hk
              · exact absurd (List.mem_cons_self _ _) (hor v)
        · simp only [hkk, if_false]
          constructor
          · rintro (⟨hin, hne⟩ | ⟨hget, hor⟩)
            · exact Or.inl ⟨by simp [hin], hne⟩
            · refine Or.inr ⟨hget, ?_⟩
              rcases hor with hor | hor
              · exact Or.inl hor
              · right
                intro w hw
                rcases List.mem_cons.mp hw with heq | hin
                · exact hkk (by simpa using ((Prod.mk.inj heq).1).symm)
                · exact hor w hin
          · rintro (⟨hin, hne⟩ | ⟨hget, hor⟩)
            · rcases List.mem_cons.mp hin with heq | hin1
              · exact absurd (by simpa using ((Prod.mk.inj heq).1).symm) hkk
              · exact Or.inl ⟨hin1, hne⟩
            · refine Or.inr ⟨hget, ?_⟩
              rcases hor with hor | hor
              · exact Or.inl hor
              · exact Or.inr (fun w hw => hor w (by simp [hw]))

/-- In a map with distinct keys a key has one value. -/
theorem value_unique_of_nodup_keys (m : List (YamlValue × YamlValue))
    (hnodup : (m.map Prod.fst).Nodup) (k v w : YamlValue)
    (hv : (k, v) ∈ m) (hw : (k, w) ∈ m) : v = w := by
  induction m with
  | nil => simp at hv
  | cons kv rest ih =>
    simp only [List.map_cons, List.nodup_cons] at hnodup
    obtain ⟨hnot, hnd⟩ := hnodup
    have key_in : ∀ x, (k, x) ∈ rest → k ∈ rest.map Prod.fst := fun x hx =>
      List.mem_map.mpr ⟨(k, x), hx, rfl⟩
    rcases List.mem_cons.mp hv with h1 | h1 <;> rcases List.mem_cons.mp hw with h2 | h2
    · rw [← h1] at h2
      exact ((Prod.mk.inj h2).2).symm
    · rw [← h1] at hnot
      exact absurd (key_in w h2) hnot
    · rw [← h2] at hnot
      exact absurd (key_in v h1) hnot
    · exact ih hnd h1 h2

/-- C8: for a valid step definition, a string executor `e` gives `Type = e` and an
empty `Config`; a map with (distinct) string keys and a string under `type`
gives that string as `Type` and as `Config` exactly the other entries, never
the key `type`; an absent executor gives an empty `Type` and an empty, non-nil
`Config`; an executor of any other type makes `buildStep` fail with
`invalid executor config`. -/
theorem buildStep_executor {σ : Type} (deps : Deps σ) (b : builder) (env : Env)
    (vars : List String) (sdef : stepDef) (hv : ValidStepDef deps sdef) :
    (∀ e, sdef.Executor = .str e →
      ∃ step, buildStep deps b env vars sdef = .ok step ∧
        step.ExecutorConfig.Type_ = e ∧ step.ExecutorConfig.Config = some []) ∧
    (∀ (m : List (YamlValue × YamlValue)) (t : String), sdef.Executor = .map m →
      (m.map Prod.fst).Nodup → (∀ kv ∈ m, ∃ k, kv.1 = YamlValue.str k) →
      (YamlValue.str "type", YamlValue.str t) ∈ m →
      ∃ step cfg, buildStep deps b env vars sdef = .ok step ∧
        step.ExecutorConfig.Type_ = t ∧ step.ExecutorConfig.Config = some cfg ∧
        (∀ k v, GoMap.get cfg k = some v ↔ (YamlValue.str k, v) ∈ m ∧ k ≠ "type") ∧
        GoMap.get cfg "type" = none) ∧
    (sdef.Executor = .null →
      ∃ step, buildStep deps b env vars sdef = .ok step ∧
        step.ExecutorConfig.Type_ = "" ∧ step.ExecutorConfig.Config = some []) ∧
    (sdef.Executor ≠ .null → (∀ e, sdef.Executor ≠ .str e) → (∀ m, sdef.Executor ≠ .map m) →
      buildStep deps b env vars sdef = .error (.error "invalid executor config")) := by
  obtain ⟨hn, hc, hsig⟩ := hv
  have built : ∀ ec, buildExecutor sdef.Executor = .ok ec →
      ∃ step, buildStep deps b env vars sdef = .ok step ∧ step.ExecutorConfig = ec := by
    intro ec hex
    obtain ⟨h1, h2, -⟩ := buildStep_of_executor deps b env vars sdef ec hn hc hex
    cases hs : sdef.SignalOnStop with
    | none =>
      obtain ⟨step, hb, -, he⟩ := h1 hs
      exact ⟨step, hb, he⟩
    | some s =>
      obtain ⟨n, hnum⟩ := hsig s hs
      obtain ⟨step, hb, -, he⟩ := h2 s n hs hnum
      exact ⟨step, hb, he⟩
  refine ⟨?_, ?_, ?_, ?_⟩
  · intro e he
    obtain ⟨step, hb, hec⟩ := built { Type_ := e, Config := some [] } (by rw [he]; rfl)
    exact ⟨step, hb, by rw [hec], by rw [hec]⟩
  · intro m t he hnodup hkeys hty
    have hwf : ∀ kv ∈ m, (∃ k, kv.1 = YamlValue.str k) ∧
        (kv.1 = YamlValue.str "type" → ∃ t, kv.2 = YamlValue.str t) := by
      intro kv hkv
      refine ⟨hkeys kv hkv, fun hk => ⟨t, ?_⟩⟩
      obtain ⟨k, v⟩ := kv
      simp only at hk
      subst hk
      exact value_unique_of_nodup_keys m hnodup _ v (.str t) hkv hty
    obtain ⟨ty1, cfg1, h1, h2, -, h4⟩ := executorEntries_distinct m "" [] hnodup hwf
    obtain ⟨step, hb, hec⟩ := built { Type_ := ty1, Config := some cfg1 }
      (by rw [he]; simpa [buildExecutor] using h1)
    have hcfg : ∀ k v, GoMap.get cfg1 k = some v ↔ (YamlValue.str k, v) ∈ m ∧ k ≠ "type" := by
      intro k v
      rw [h4 k v]
      simp [GoMap.get]
    refine ⟨step, cfg1, hb, by rw [hec]; exact h2 t hty, by rw [hec], hcfg, ?_⟩
    cases hg : GoMap.get cfg1 "type" with
    | none => rfl
    | some v => exact absurd rfl ((hcfg "type" v).mp hg).2
  · intro he
    obtain ⟨step, hb, hec⟩ := built { Type_ := "", Config := some [] } (by rw [he]; rfl)
    exact ⟨step, hb, by rw [hec], by rw [hec]⟩
  · intro h1 h2 h3
    have hex : buildExecutor sdef.Executor = .error (.error "invalid executor config") := by
      cases he : sdef.Executor with
      | null => exact absurd he h1
      | str e => exact absurd he (h2 e)
      | map m => exact absurd he (h3 m)
      | _ => rfl
    simp [buildStep, assertStepDef, hn, hc, hex]

/-- C8 on the steps of the test: `executor: http`, and
`executor: {type: http, config: some option}`. -/
theorem buildStep_executor_witness :
    (∃ step, buildStep sampleDeps builder.zero emptyEnv []
        { stepDef.simple "S1" "echo 1" with Executor := .str "http" } = .ok step ∧
      step.ExecutorConfig.Type_ = "http" ∧ step.ExecutorConfig.Config = some []) ∧
    (∃ step cfg, buildStep sampleDeps builder.zero emptyEnv []
        { stepDef.simple "S1" "echo 1" with
          Executor := .map [(.str "type", .str "http"), (.str "config", .str "some option")] }
          = .ok step ∧
      step.ExecutorConfig.Type_ = "http" ∧ step.ExecutorConfig.Config = some cfg ∧
      GoMap.get cfg "config" = some (.str "some option") ∧ GoMap.get cfg "type" = none) := by
  constructor
  · exact (buildStep_executor sampleDeps builder.zero emptyEnv []
      { stepDef.simple "S1" "echo 1" with Executor := .str "http" }
      ⟨by decide, by decide, by simp [stepDef.simple]⟩).1 "http" rfl
  · obtain ⟨step, cfg, hb, h1, h2, h3, h4⟩ := (buildStep_executor sampleDeps builder.zero
      emptyEnv []
      { stepDef.simple "S1" "echo 1" with
        Executor := .map [(.str "type", .str "http"), (.str "config", .str "some option")] }
      ⟨by decide, by decide, by simp [stepDef.simple]⟩).2.1
      [(.str "type", .str "http"), (.str "config", .str "some option")] "http" rfl
      (by simp) (by simp) (by simp)
    exact ⟨step, cfg, hb, h1, h2, (h3 "config" (.str "some option")).mpr (by simp), h4⟩


/-! ## C9: `loadVariables` on a list of single-entry maps -/

theorem loadList_single_entries (entries : List (String × String)) :
    ∀ vals : List (String × String),
      loadList (entries.map (fun kv => YamlValue.map [(.str kv.1, .str kv.2)])) vals =
        .ok (vals ++ entries) := by
  induction entries with
  | nil => intro vals; simp [loadList]
  | cons kv rest ih =>
    intro vals
    simp [loadList, loadFn, ih]

theorem evalVariables_refines {σ : Type} (deps : Deps σ) (vals : List (String × String)) :
    ∀ (vars : GoMap String) (env : Env),
      (∀ e env1, evalInOrder deps.parseVariable vals env = (.error e, env1) →
        evalVariables deps false vals vars env = (.error e, env1)) ∧
      (∀ ps env1, evalInOrder deps.parseVariable vals env = (.ok ps, env1) →
        evalVariables deps false vals vars env =
          (.ok (ps.foldl (fun m kv => GoMap.set m kv.1 kv.2) vars), env1)) := by
  induction vals with
  | nil =>
    intro vars env
    constructor
    · intro e env1 h; simp [evalInOrder] at h
    · intro ps env1 h
      simp only [evalInOrder, Prod.mk.injEq, Except.ok.injEq] at h
      obtain ⟨h1, h2⟩ := h
      subst h1 h2
      rfl
  | cons kv rest ih =>
    intro vars env
    obtain ⟨k, v⟩ := kv
    cases hp : deps.parseVariable env v with
    | error e0 =>
      constructor
      · intro e env1 h
        simp only [evalInOrder, hp] at h
        simp only [evalVariables, hp]
        exact h
      · intro ps env1 h
        simp [evalInOrder, hp] at h
    | ok p =>
      cases hs : osSetenv env k p with
      | error e0 =>
        constructor
        · intro e env1 h
          simp only [evalInOrder, hp, hs] at h
          simp only [evalVariables, hp, hs]
          exact h
        · intro ps env1 h
          simp [evalInOrder, hp, hs] at h
      | ok env0 =>
        obtain ⟨ih1, ih2⟩ := ih (GoMap.set vars k p) env0
        cases hr : evalInOrder deps.parseVariable rest env0 with
        | mk r env2 =>
          cases r with
          | error e0 =>
            constructor
            · intro e env1 h
              simp only [evalInOrder, hp, hs, hr, Prod.mk.injEq, Except.error.injEq] at h
              obtain ⟨h1, h2⟩ := h
              subst h1 h2
              simp [evalVariables, hp, hs, ih1 e0 env2 hr]
            · intro ps env1 h
              simp [evalInOrder, hp, hs, hr] at h
          | ok ps0 =>
            constructor
            · intro e env1 h
              simp [evalInOrder, hp, hs, hr] at h
            · intro ps env1 h
              simp only [evalInOrder, hp, hs, hr, Prod.mk.injEq, Except.ok.injEq] at h
              obtain ⟨h1, h2⟩ := h
              subst h1 h2
              simp [evalVariables, hp, hs, ih2 ps0 env2 hr]

theorem get_foldl_set (ps : List (String × String)) :
    ∀ (vars : GoMap String) (k : String),
      GoMap.get (ps.foldl (fun m kv => GoMap.set m kv.1 kv.2) vars) k =
        match lastBinding ps k with
        | some v => some v
        | none => GoMap.get vars k := by
  induction ps with
  | nil => intro vars k; simp [lastBinding]
  | cons kv rest ih =>
    intro vars k
    obtain ⟨k1, v1⟩ := kv
    simp only [List.foldl_cons, ih, lastBinding]
    cases hl : lastBinding rest k with
    | some v => rfl
    | none =>
      simp only [GoMap.get_set]
      by_cases hk : k1 = k <;> simp [hk]

theorem evalInOrder_env (parseVariable : Env → String → Except String String)
    (vals : List (String × String)) :
    ∀ (env : Env) (ps : List (String × String)) (env1 : Env),
      evalInOrder parseVariable vals env = (.ok ps, env1) →
      ps.map Prod.fst = vals.map Prod.fst ∧
      ∀ k, env1 k = match lastBinding ps k with
        | some v => some v
        | none => env k := by
  induction vals with
  | nil =>
    intro env ps env1 h
    simp only [evalInOrder, Prod.mk.injEq, Except.ok.injEq] at h
    obtain ⟨h1, h2⟩ := h
    subst h1 h2
    simp [lastBinding]
  | cons kv rest ih =>
    intro env ps env1 h
    obtain ⟨k0, v0⟩ := kv
    cases hp : parseVariable env v0 with
    | error e0 => simp [evalInOrder, hp] at h
    | ok p =>
      cases hs : osSetenv env k0 p with
      | error e0 => simp [evalInOrder, hp, hs] at h
      | ok env0 =>
        cases hr : evalInOrder parseVariable rest env0 with
        | mk r env2 =>
          cases r with
          | error e0 => simp [evalInOrder, hp, hs, hr] at h
          | ok ps0 =>
            simp only [evalInOrder, hp, hs, hr, Prod.mk.injEq, Except.ok.injEq] at h
            obtain ⟨h1, h2⟩ := h
            subst h1 h2
            obtain ⟨ihk, ihe⟩ := ih env0 ps0 env2 hr
            have henv0 : env0 = env.bind k0 p := by
              unfold osSetenv at hs
              split at hs
              · exact absurd hs (by simp)
              · exact (Except.ok.inj hs).symm
            refine ⟨by simp [ihk], fun k => ?_⟩
            rw [ihe k]
            simp only [lastBinding]
            cases hl : lastBinding ps0 k with
            | some v => rfl
            | none =>
              simp only [henv0, Env.bind]
              by_cases hk : k0 = k
              · simp [hk]
              · simp [hk, Ne.symm hk]

/-- C9: for `env` given as the list of single-entry maps `[k1: v1, ..., kn: vn]`
and setenv enabled, `loadVariables` takes the entries in list order (after the
defaults); it is the evaluation in order, where the value of an entry is
evaluated in the environment as updated by the entries before it: it fails
where that evaluation fails, and otherwise the map it returns and the process
environment bind every key to the evaluation of its last occurrence. -/
theorem loadVariables_list_order {σ : Type} (deps : Deps σ) (b : builder)
    (hset : b.noSetenv = false) (defaults entries : List (String × String)) (env : Env) :
    collectVariables (envList entries) defaults = .ok (defaults ++ entries) ∧
    (∀ e env1, evalInOrder deps.parseVariable (defaults ++ entries) env = (.error e, env1) →
      loadVariables deps b (envList entries) defaults env = (.error e, env1)) ∧
    (∀ ps env1, evalInOrder deps.parseVariable (defaults ++ entries) env = (.ok ps, env1) →
      ∃ vars, loadVariables deps b (envList entries) defaults env = (.ok vars, env1) ∧
        ps.map Prod.fst = (defaults ++ entries).map Prod.fst ∧
        (∀ k, GoMap.get vars k = lastBinding ps k) ∧
        (∀ k p, lastBinding ps k = some p → env1 k = some p ∧ osGetenv env1 k = p)) := by
  have hcol : collectVariables (envList entries) defaults = .ok (defaults ++ entries) := by
    simp only [collectVariables, envList]
    exact loadList_single_entries entries defaults
  obtain ⟨href1, href2⟩ := evalVariables_refines deps (defaults ++ entries) [] env
  refine ⟨hcol, ?_, ?_⟩
  · intro e env1 h
    simp only [loadVariables, hcol, hset]
    exact href1 e env1 h
  · intro ps env1 h
    obtain ⟨hkeys, henv⟩ := evalInOrder_env deps.parseVariable (defaults ++ entries) env ps env1 h
    refine ⟨_, by simp only [loadVariables, hcol, hset]; exact href2 ps env1 h, hkeys, ?_, ?_⟩
    · intro k
      rw [get_foldl_set]
      cases lastBinding ps k <;> simp [GoMap.get]
    · intro k p hk
      have h1 : env1 k = some p := by rw [henv k, hk]
      exact ⟨h1, by simp [osGetenv, h1]⟩

/-- C9 on the list of the test, `FOO: BAR`, `FOO: ${FOO}:BAZ`, `FOO: ${FOO}:BAR`,
`FOO: ${FOO}:FOO`: the map returned and the environment bind `FOO` to
`BAR:BAZ:BAR:FOO`. -/
theorem loadVariables_list_order_witness :
    ∃ vars env1, loadVariables sampleDeps builder.zero
        (envList [("FOO", "BAR"), ("FOO", "${FOO}:BAZ"), ("FOO", "${FOO}:BAR"),
          ("FOO", "${FOO}:FOO")]) [] emptyEnv = (.ok vars, env1) ∧
      GoMap.get vars "FOO" = some "BAR:BAZ:BAR:FOO" ∧
      osGetenv env1 "FOO" = "BAR:BAZ:BAR:FOO" := by
  obtain ⟨vars, hload, -, hget, henv⟩ := (loadVariables_list_order sampleDeps builder.zero rfl []
    [("FOO", "BAR"), ("FOO", "${FOO}:BAZ"), ("FOO", "${FOO}:BAR"), ("FOO", "${FOO}:FOO")]
    emptyEnv).2.2
    [("FOO", "BAR"), ("FOO", "BAR:BAZ"), ("FOO", "BAR:BAZ:BAR"), ("FOO", "BAR:BAZ:BAR:FOO")]
    (evalInOrder sampleDeps.parseVariable
      [("FOO", "BAR"), ("FOO", "${FOO}:BAZ"), ("FOO", "${FOO}:BAR"), ("FOO", "${FOO}:FOO")]
      emptyEnv).2 (by rfl)
  exact ⟨vars, _, hload, by rw [hget]; rfl, (henv "FOO" "BAR:BAZ:BAR:FOO" (by rfl)).2⟩

/-! ## C10: `parseParameters` -/

theorem digitChar_ne (m : Nat) (hm : m < 10) :
    Nat.digitChar m ≠ '=' ∧ Nat.digitChar m ≠ '\x00' := by
  interval_cases m <;> decide

theorem toDigitsCore_chars (fuel : Nat) :
    ∀ (n : Nat) (ds : List Char), (∀ c ∈ ds, c ≠ '=' ∧ c ≠ '\x00') →
      ∀ c ∈ Nat.toDigitsCore 10 fuel n ds, c ≠ '=' ∧ c ≠ '\x00' := by
  induction fuel with
  | zero => intro n ds h; simpa [Nat.toDigitsCore] using h
  | succ f ih =>
    intro n ds h
    have hcons : ∀ c ∈ Nat.digitChar (n % 10) :: ds, c ≠ '=' ∧ c ≠ '\x00' := by
      intro c hc
      rcases List.mem_cons.mp hc with rfl | hc
      · exact digitChar_ne _ (Nat.mod_lt _ (by decide))
      · exact h c hc
    simp only [Nat.toDigitsCore]
    split
    · exact hcons
    · exact ih _ _ hcons

theorem toDigitsCore_ne_nil (fuel : Nat) :
    ∀ (n : Nat) (ds : List Char), ds ≠ [] → Nat.toDigitsCore 10 fuel n ds ≠ [] := by
  induction fuel with
  | zero => intro n ds h; simpa [Nat.toDigitsCore] using h
  | succ f ih =>
    intro n ds _
    simp only [Nat.toDigitsCore]
    split
    · simp
    · exact ih _ _ (by simp)

/-- The decimal string of a number is a name `os.Setenv` takes. -/
theorem repr_valid (n : Nat) :
    (Nat.repr n).data ≠ [] ∧ '=' ∉ (Nat.repr n).data ∧ '\x00' ∉ (Nat.repr n).data := by
  have hdata : (Nat.repr n).data = Nat.toDigitsCore 10 (n + 1) n [] := rfl
  rw [hdata]
  refine ⟨?_, ?_, ?_⟩
  · simp only [Nat.toDigitsCore]
    split
    · simp
    · exact toDigitsCore_ne_nil _ _ _ (by simp)
  · intro h
    exact (toDigitsCore_chars (n + 1) n [] (by simp) _ h).1 rfl
  · intro h
    exact (toDigitsCore_chars (n + 1) n [] (by simp) _ h).2 rfl

theorem osSetenv_repr (env : Env) (n : Nat) (v : String) (hv : '\x00' ∉ v.data) :
    osSetenv env (Nat.repr n) v = .ok (env.bind (Nat.repr n) v) := by
  obtain ⟨h1, h2, h3⟩ := repr_valid n
  simp [osSetenv, h1, h2, h3, hv]

theorem osSetenv_ok (env env1 : Env) (k v : String) (h : osSetenv env k v = .ok env1) :
    env1 = env.bind k v ∧ '\x00' ∉ v.data := by
  unfold osSetenv at h
  split at h
  · exact absurd h (by simp)
  · rename_i hc
    push_neg at hc
    exact ⟨(Except.ok.inj h).symm, hc.2.2.2⟩

theorem splitAtEq_key_no_eq (v : String) : '=' ∉ (splitAtEq v).1.data := by
  intro h
  simp only [splitAtEq] at h
  have := List.mem_takeWhile_imp h
  simp at this

theorem splitAtEq_value_sub (v : String) (c : Char) (h : c ∈ (splitAtEq v).2.data) :
    c ∈ v.data := by
  simp only [splitAtEq] at h
  exact (List.dropWhile_sublist _).subset ((List.drop_sublist _ _).subset h)

/-- A turn of the loop that does not fail, setenv enabled: what it appends and exports. -/
theorem parameterStep_ok {σ : Type} (deps : Deps σ) (b : builder) (hset : b.noSetenv = false)
    (eval : Bool) (i : Nat) (t : String) (ret envs r es : List String) (env env1 : Env)
    (h : parameterStep deps b eval i t ret envs env = (.ok (r, es), env1)) :
    ∃ v, evalToken deps eval env t = .ok v ∧ r = ret ++ [v] ∧
      es = envs ++ [v].filter hasEq ∧
      env1 (Nat.repr (i + 1)) = some v ∧
      (hasEq v = true → ValidKey (splitAtEq v).1 → (splitAtEq v).1 ≠ Nat.repr (i + 1) →
        env1 (splitAtEq v).1 = some (splitAtEq v).2) := by
  unfold parameterStep at h
  cases hv : evalToken deps eval env t with
  | error e => simp [hv] at h
  | ok v =>
    simp only [hv, hset] at h
    by_cases heq : '=' ∈ v.data
    · simp only [heq, if_true] at h
      cases hs : osSetenv (setenvIgnoringError env (splitAtEq v).1 (splitAtEq v).2)
          (Nat.repr (i + 1)) v with
      | error e => simp [hs] at h
      | ok env2 =>
        simp only [hs, Prod.mk.injEq, Except.ok.injEq, Bool.false_eq_true, if_false] at h
        obtain ⟨⟨h1, h2⟩, h3⟩ := h
        subst h1 h2 h3
        obtain ⟨hb, hnul⟩ := osSetenv_ok _ _ _ _ hs
        refine ⟨v, rfl, rfl, by simp [hasEq, heq], by simp [hb, Env.bind], ?_⟩
        intro _ hkey hne
        have hval : '\x00' ∉ (splitAtEq v).2.data := fun hc => hnul (splitAtEq_value_sub v _ hc)
        have hmid : setenvIgnoringError env (splitAtEq v).1 (splitAtEq v).2 =
            env.bind (splitAtEq v).1 (splitAtEq v).2 := by
          simp [setenvIgnoringError, osSetenv, hkey.1, hkey.2, splitAtEq_key_no_eq v, hval]
        rw [hb, hmid]
        simp [Env.bind, hne]
    · simp only [heq, if_false] at h
      cases hs : osSetenv env (Nat.repr (i + 1)) v with
      | error e => simp [hs] at h
      | ok env2 =>
        simp only [hs, Prod.mk.injEq, Except.ok.injEq, Bool.false_eq_true, if_false] at h
        obtain ⟨⟨h1, h2⟩, h3⟩ := h
        subst h1 h2 h3
        obtain ⟨hb, -⟩ := osSetenv_ok _ _ _ _ hs
        refine ⟨v, rfl, rfl, by simp [hasEq, heq], by simp [hb, Env.bind], ?_⟩
        intro hh
        simp [hasEq, heq] at hh

theorem parseParametersLoop_snoc {σ : Type} (deps : Deps σ) (b : builder) (eval : Bool)
    (xs : List String) (t : String) :
    ∀ (i : Nat) (ret envs : List String) (env : Env),
      parseParametersLoop deps b eval i (xs ++ [t]) ret envs env =
        match parseParametersLoop deps b eval i xs ret envs env with
        | (.error e, env1) => (.error e, env1)
        | (.ok (r, es), env1) => parameterStep deps b eval (i + xs.length) t r es env1 := by
  induction xs with
  | nil =>
    intro i ret envs env
    simp only [List.nil_append, parseParametersLoop, List.length_nil, Nat.add_zero]
    rcases hstep : parameterStep deps b eval i t ret envs env with ⟨r, env1⟩
    cases r with
    | error e => rfl
    | ok p => rfl
  | cons x rest ih =>
    intro i ret envs env
    simp only [List.cons_append, parseParametersLoop, List.length_cons]
    rcases hstep : parameterStep deps b eval i x ret envs env with ⟨r, env1⟩
    cases r with
    | error e => rfl
    | ok p =>
      obtain ⟨r1, es1⟩ := p
      show parseParametersLoop deps b eval (i + 1) (rest ++ [t]) r1 es1 env1 = _
      rw [ih, show i + 1 + rest.length = i + (rest.length + 1) by omega]

/-- The loop of `parseParameters` when it does not fail, setenv enabled: one
evaluated value per token, `envs` the values with `=`, and the exports in force
right after each token. -/
theorem parseParametersLoop_exports {σ : Type} (deps : Deps σ) (b : builder)
    (hset : b.noSetenv = false) (eval : Bool) (env : Env) (tokens : List String) :
    ∀ (params envs : List String) (env1 : Env),
      parseParametersLoop deps b eval 0 tokens [] [] env = (.ok (params, envs), env1) →
      params.length = tokens.length ∧ envs = params.filter hasEq ∧
      ∀ i v, params[i]? = some v →
        ∃ t envsI envI, tokens[i]? = some t ∧
          evalToken deps eval
            (parseParametersLoop deps b eval 0 (tokens.take i) [] [] env).2 t = .ok v ∧
          parseParametersLoop deps b eval 0 (tokens.take (i + 1)) [] [] env =
            (.ok (params.take (i + 1), envsI), envI) ∧
          envI (Nat.repr (i + 1)) = some v ∧
          (hasEq v = true → ValidKey (splitAtEq v).1 → (splitAtEq v).1 ≠ Nat.repr (i + 1) →
            envI (splitAtEq v).1 = some (splitAtEq v).2) := by
  induction tokens using List.reverseRecOn with
  | nil =>
    intro params envs env1 h
    simp only [parseParametersLoop, Prod.mk.injEq, Except.ok.injEq] at h
    obtain ⟨⟨h1, h2⟩, h3⟩ := h
    subst h1 h2 h3
    exact ⟨rfl, rfl, fun i v hv => by simp at hv⟩
  | append_singleton xs t ih =>
    intro params envs env1 h
    have hwhole := h
    rw [parseParametersLoop_snoc] at h
    rcases hxs : parseParametersLoop deps b eval 0 xs [] [] env with ⟨res, e0⟩
    rw [hxs] at h
    cases res with
    | error e => simp at h
    | ok p =>
      obtain ⟨r, es⟩ := p
      simp only [Nat.zero_add] at h
      obtain ⟨hlen, hfil, hidx⟩ := ih r es e0 hxs
      obtain ⟨v1, hev, hr, hes, hrepr, hkv⟩ :=
        parameterStep_ok deps b hset eval xs.length t r es params envs e0 env1 h
      subst hr hes
      refine ⟨by simp [hlen], by simp [hfil, List.filter_append], ?_⟩
      intro i v hv
      rcases Nat.lt_trichotomy i r.length with hlt | heq | hgt
      · rw [List.getElem?_append_left hlt] at hv
        obtain ⟨t1, envsI, envI, ht1, hev1, hrun, h1, h2⟩ := hidx i v hv
        refine ⟨t1, envsI, envI, ?_, ?_, ?_, h1, h2⟩
        · rw [List.getElem?_append_left (by omega)]; exact ht1
        · rw [List.take_append_of_le_length (by omega)]; exact hev1
        · rw [List.take_append_of_le_length (by omega),
            List.take_append_of_le_length (by omega)]
          exact hrun
      · subst heq
        have hvv : v1 = v := by simpa using hv
        subst hvv
        refine ⟨t, es ++ [v1].filter hasEq, env1, ?_, ?_, ?_, ?_, ?_⟩
        · simp [hlen]
        · rw [hlen, List.take_left' rfl, hxs]; exact hev
        · rw [hlen, List.take_of_length_le (by simp), List.take_of_length_le (by simp [hlen])]
          exact hwhole
        · rw [hlen]; exact hrepr
        · rw [hlen]; exact hkv
      · rw [List.getElem?_eq_none (by simp; omega)] at hv
        exact absurd hv (by simp)

/-- The loop of `parseParameters` returns without error when every token
evaluates, whatever the environment, to a value without NUL byte. -/
theorem parseParametersLoop_total {σ : Type} (deps : Deps σ) (b : builder) (eval : Bool)
    (tokens : List String) :
    ∀ (i : Nat) (ret envs : List String) (env : Env),
      (∀ e, ∀ t ∈ tokens, ∃ v, evalToken deps eval e t = .ok v ∧ '\x00' ∉ v.data) →
      ∃ params es env1,
        parseParametersLoop deps b eval i tokens ret envs env = (.ok (params, es), env1) := by
  induction tokens with
  | nil => intro i ret envs env _; exact ⟨ret, envs, env, rfl⟩
  | cons t rest ih =>
    intro i ret envs env h
    obtain ⟨v, hv, hnul⟩ := h env t (by simp)
    have hrest : ∀ e, ∀ t ∈ rest, ∃ v, evalToken deps eval e t = .ok v ∧ '\x00' ∉ v.data :=
      fun e t1 ht1 => h e t1 (by simp [ht1])
    by_cases hno : b.noSetenv = true
    · obtain ⟨params, es, env1, hrun⟩ := ih (i + 1) (ret ++ [v]) envs env hrest
      exact ⟨params, es, env1, by simp [parseParametersLoop, parameterStep, hv, hno, hrun]⟩
    · obtain ⟨params, es, env1, hrun⟩ := ih (i + 1) (ret ++ [v])
        (if '=' ∈ v.data then envs ++ [v] else envs)
        ((if '=' ∈ v.data then setenvIgnoringError env (splitAtEq v).1 (splitAtEq v).2
          else env).bind (Nat.repr (i + 1)) v) hrest
      exact ⟨params, es, env1, by
        simp [parseParametersLoop, parameterStep, hv, hno, osSetenv_repr _ _ _ hnul, hrun]⟩

/-- Counterexample to C10 as stated: the parameter string `1=abc` is the single
token `1=abc`, which contains `=`; the text before the `=` is `1` and the text
after it `abc`, yet right after the token is processed the variable `1` holds
`1=abc`, because the positional export `$1` is made after the `K=V` export. -/
theorem parseParameters_positional_overrides :
    sampleDeps.shellwordsParse "1=abc" = .ok ["1=abc"] ∧
    (parseParameters sampleDeps builder.zero "1=abc" true emptyEnv).1 =
      .ok (["1=abc"], ["1=abc"]) ∧
    splitAtEq "1=abc" = ("1", "abc") ∧
    (parseParameters sampleDeps builder.zero "1=abc" true emptyEnv).2 "1" = some "1=abc" ∧
    (parseParameters sampleDeps builder.zero "1=abc" true emptyEnv).2 "1" ≠ some "abc" :=
  ⟨rfl, rfl, by decide, by decide, by decide⟩

/-- C10, amended: when the shell-word parser splits the parameter string into
the tokens `t0..tn-1` and setenv is enabled, `parseParameters` returns without
error if every token evaluates to a value without NUL byte; whenever it returns
without error, `params` has length `n` and holds the evaluated tokens in order,
`envs` is the in-order sublist of the `params` that contain `=`, and right after
token `i` (value `v`) is processed the variable named by the decimal string of
`i+1` equals `v` and, if `v` contains `=` and the text before the first `=` is
a non-empty name without NUL byte other than the decimal string of `i+1`, the
variable of that name equals the text after the first `=`. -/
theorem parseParameters_exports {σ : Type} (deps : Deps σ) (b : builder)
    (hset : b.noSetenv = false) (value : String) (eval : Bool) (tokens : List String)
    (env : Env) (hparse : deps.shellwordsParse value = .ok tokens) :
    ((∀ e, ∀ t ∈ tokens, ∃ v, evalToken deps eval e t = .ok v ∧ '\x00' ∉ v.data) →
      ∃ params envs env1,
        parseParameters deps b value eval env = (.ok (params, envs), env1)) ∧
    (∀ (params envs : List String) (env1 : Env),
      parseParameters deps b value eval env = (.ok (params, envs), env1) →
      params.length = tokens.length ∧ envs = params.filter hasEq ∧
      ∀ i v, params[i]? = some v →
        ∃ t envsI envI, tokens[i]? = some t ∧
          evalToken deps eval
            (parseParametersLoop deps b eval 0 (tokens.take i) [] [] env).2 t = .ok v ∧
          parseParametersLoop deps b eval 0 (tokens.take (i + 1)) [] [] env =
            (.ok (params.take (i + 1), envsI), envI) ∧
          envI (Nat.repr (i + 1)) = some v ∧
          (hasEq v = true → v ∈ envs ∧
            (ValidKey (splitAtEq v).1 → (splitAtEq v).1 ≠ Nat.repr (i + 1) →
              envI (splitAtEq v).1 = some (splitAtEq v).2))) := by
  have hrun : parseParameters deps b value eval env =
      parseParametersLoop deps b eval 0 tokens [] [] env := by
    simp [parseParameters, hparse]
  constructor
  · intro hev
    rw [hrun]
    exact parseParametersLoop_total deps b eval tokens 0 [] [] env hev
  · intro params envs env1 h
    rw [hrun] at h
    obtain ⟨hlen, hfil, hidx⟩ := parseParametersLoop_exports deps b hset eval env tokens
      params envs env1 h
    refine ⟨hlen, hfil, ?_⟩
    intro i v hv
    obtain ⟨t, envsI, envI, ht, hev, hpre, h1, h2⟩ := hidx i v hv
    refine ⟨t, envsI, envI, ht, hev, hpre, h1, fun heq => ⟨?_, h2 heq⟩⟩
    rw [hfil]
    exact List.mem_filter.mpr ⟨List.getElem?_mem hv, heq⟩

/-- C10, amended, on the parameter string `first P1=foo X=bar`: three params,
`envs` the two with `=`, and `X` bound to `bar` right after the third token. -/
theorem parseParameters_exports_witness :
    ∃ params envs env1,
      parseParameters sampleDeps builder.zero "first P1=foo X=bar" true emptyEnv =
        (.ok (params, envs), env1) ∧
      params.length = 3 ∧ envs = params.filter hasEq ∧ params[2]? = some "X=bar" ∧
      env1 "3" = some "X=bar" ∧ env1 "X" = some "bar" := by
  have h := parseParameters_exports sampleDeps builder.zero rfl "first P1=foo X=bar" true
    ["first", "P1=foo", "X=bar"] emptyEnv rfl
  obtain ⟨params, envs, env1, hrun⟩ := h.1 (by
    intro e t ht
    simp only [List.mem_cons, List.mem_singleton, List.not_mem_nil, or_false] at ht
    rcases ht with rfl | rfl | rfl
    · exact ⟨"first", rfl, by decide⟩
    · exact ⟨"P1=foo", rfl, by decide⟩
    · exact ⟨"X=bar", rfl, by decide⟩)
  obtain ⟨hlen, hfil, -⟩ := h.2 params envs env1 hrun
  have hval : (parseParameters sampleDeps builder.zero "first P1=foo X=bar" true emptyEnv).1 =
      .ok (["first", "P1=foo", "X=bar"], ["P1=foo", "X=bar"]) := rfl
  rw [hrun] at hval
  have hp : params = ["first", "P1=foo", "X=bar"] := by
    simp only [Except.ok.injEq, Prod.mk.injEq] at hval
    exact hval.1
  have henv : env1 =
      (parseParameters sampleDeps builder.zero "first P1=foo X=bar" true emptyEnv).2 := by
    rw [hrun]
  refine ⟨params, envs, env1, hrun, hlen, hfil, by rw [hp]; rfl, ?_, ?_⟩
  · rw [henv]; decide
  · rw [henv]; decide


/-! ## C11: the environment each parameter is evaluated in -/

theorem lastBinding_append (xs ys : List (String × String)) (k : String) :
    lastBinding (xs ++ ys) k =
      match lastBinding ys k with
      | some x => some x
      | none => lastBinding xs k := by
  induction xs with
  | nil =>
    simp only [List.nil_append, lastBinding]
    cases lastBinding ys k <;> rfl
  | cons kv rest ih =>
    obtain ⟨k1, v1⟩ := kv
    show lastBinding ((k1, v1) :: (rest ++ ys)) k = _
    simp only [lastBinding, ih]
    cases lastBinding ys k with
    | some x => rfl
    | none => rfl

theorem Env.bindAll_nil (env : Env) : env.bindAll [] = env := rfl

theorem Env.bindAll_append (env : Env) (xs ys : List (String × String)) :
    (env.bindAll xs).bindAll ys = env.bindAll (xs ++ ys) := by
  funext k
  simp only [Env.bindAll, lastBinding_append]
  cases lastBinding ys k <;> rfl

theorem Env.bind_eq_bindAll (env : Env) (k v : String) :
    env.bind k v = env.bindAll [(k, v)] := by
  funext x
  simp only [Env.bind, Env.bindAll, lastBinding]
  by_cases h : x = k
  · simp [h]
  · simp [h, Ne.symm h]

theorem setenvIgnoringError_eq (env : Env) (v : String) :
    setenvIgnoringError env (splitAtEq v).1 (splitAtEq v).2 =
      env.bindAll (if (splitAtEq v).1.data ≠ [] ∧ '\x00' ∉ (splitAtEq v).1.data ∧
          '\x00' ∉ (splitAtEq v).2.data
        then [((splitAtEq v).1, (splitAtEq v).2)] else []) := by
  by_cases h : (splitAtEq v).1.data ≠ [] ∧ '\x00' ∉ (splitAtEq v).1.data ∧
      '\x00' ∉ (splitAtEq v).2.data
  · rw [if_pos h, ← Env.bind_eq_bindAll]
    simp [setenvIgnoringError, osSetenv, h.1, h.2.1, h.2.2, splitAtEq_key_no_eq v]
  · rw [if_neg h, Env.bindAll_nil]
    have hbad : (splitAtEq v).1.data = [] ∨ '=' ∈ (splitAtEq v).1.data ∨
        '\x00' ∈ (splitAtEq v).1.data ∨ '\x00' ∈ (splitAtEq v).2.data := by
      by_contra hno
      push_neg at hno
      exact h ⟨hno.1, hno.2.2.1, hno.2.2.2⟩
    simp [setenvIgnoringError, osSetenv, hbad]

/-- A turn of the loop that does not fail, setenv enabled: the environment after
it is the one before with the exports of the token applied. -/
theorem parameterStep_env {σ : Type} (deps : Deps σ) (b : builder) (hset : b.noSetenv = false)
    (eval : Bool) (i : Nat) (t : String) (ret envs r es : List String) (env env1 : Env)
    (h : parameterStep deps b eval i t ret envs env = (.ok (r, es), env1)) :
    ∃ v, evalToken deps eval env t = .ok v ∧ r = ret ++ [v] ∧ '\x00' ∉ v.data ∧
      env1 = env.bindAll (exportsOfToken i v) := by
  unfold parameterStep at h
  cases hv : evalToken deps eval env t with
  | error e => simp [hv] at h
  | ok v =>
    simp only [hv, hset] at h
    by_cases heq : '=' ∈ v.data
    · simp only [heq, if_true] at h
      cases hs : osSetenv (setenvIgnoringError env (splitAtEq v).1 (splitAtEq v).2)
          (Nat.repr (i + 1)) v with
      | error e => simp [hs] at h
      | ok env2 =>
        simp only [hs, Prod.mk.injEq, Except.ok.injEq, Bool.false_eq_true, if_false] at h
        obtain ⟨⟨h1, -⟩, h3⟩ := h
        subst h1 h3
        obtain ⟨hb, hnul⟩ := osSetenv_ok _ _ _ _ hs
        refine ⟨v, rfl, rfl, hnul, ?_⟩
        rw [hb, setenvIgnoringError_eq, Env.bind_eq_bindAll, Env.bindAll_append]
        simp [exportsOfToken, hasEq, heq]
    · simp only [heq, if_false] at h
      cases hs : osSetenv env (Nat.repr (i + 1)) v with
      | error e => simp [hs] at h
      | ok env2 =>
        simp only [hs, Prod.mk.injEq, Except.ok.injEq, Bool.false_eq_true, if_false] at h
        obtain ⟨⟨h1, -⟩, h3⟩ := h
        subst h1 h3
        obtain ⟨hb, hnul⟩ := osSetenv_ok _ _ _ _ hs
        refine ⟨v, rfl, rfl, hnul, ?_⟩
        rw [hb, Env.bind_eq_bindAll]
        simp [exportsOfToken, hasEq, heq]

/-- The loop when it does not fail, setenv enabled: the environment after it is
the one before with the exports of all its tokens applied in order. -/
theorem parseParametersLoop_env {σ : Type} (deps : Deps σ) (b : builder)
    (hset : b.noSetenv = false) (eval : Bool) (tokens : List String) :
    ∀ (i : Nat) (ret envs r es : List String) (env env1 : Env),
      parseParametersLoop deps b eval i tokens ret envs env = (.ok (r, es), env1) →
      ∃ vs, r = ret ++ vs ∧ vs.length = tokens.length ∧ (∀ v ∈ vs, '\x00' ∉ v.data) ∧
        env1 = env.bindAll (exportsFrom i vs) := by
  induction tokens with
  | nil =>
    intro i ret envs r es env env1 h
    simp only [parseParametersLoop, Prod.mk.injEq, Except.ok.injEq] at h
    obtain ⟨⟨h1, -⟩, h3⟩ := h
    subst h1 h3
    exact ⟨[], by simp, rfl, by simp, rfl⟩
  | cons t rest ih =>
    intro i ret envs r es env env1 h
    simp only [parseParametersLoop] at h
    rcases hstep : parameterStep deps b eval i t ret envs env with ⟨res, e0⟩
    rw [hstep] at h
    cases res with
    | error e => simp at h
    | ok p =>
      obtain ⟨r0, es0⟩ := p
      simp only at h
      obtain ⟨v, -, hr0, hnul, he0⟩ :=
        parameterStep_env deps b hset eval i t ret envs r0 es0 env e0 hstep
      obtain ⟨vs, hr, hlen, hnuls, he⟩ := ih (i + 1) r0 es0 r es e0 env1 h
      refine ⟨v :: vs, by rw [hr, hr0]; simp, by simp [hlen], ?_, ?_⟩
      · intro x hx
        rcases List.mem_cons.mp hx with rfl | hx
        · exact hnul
        · exact hnuls x hx
      · rw [he, he0, Env.bindAll_append]
        rfl

theorem exportsFrom_append (xs ys : List String) :
    ∀ i : Nat, exportsFrom i (xs ++ ys) = exportsFrom i xs ++ exportsFrom (i + xs.length) ys := by
  induction xs with
  | nil => intro i; simp [exportsFrom]
  | cons x rest ih =>
    intro i
    show exportsFrom i (x :: (rest ++ ys)) = _
    simp only [exportsFrom, ih, List.length_cons, List.append_assoc]
    rw [show i + 1 + rest.length = i + (rest.length + 1) by omega]

theorem lastBinding_none_of_keys (bs : List (String × String)) (k : String)
    (h : ∀ kv ∈ bs, kv.1 ≠ k) : lastBinding bs k = none := by
  induction bs with
  | nil => rfl
  | cons kv rest ih =>
    obtain ⟨k1, v1⟩ := kv
    have h1 : k1 ≠ k := h (k1, v1) (by simp)
    simp [lastBinding, ih (fun kv hkv => h kv (by simp [hkv])), h1]

theorem exportsFrom_split (l : List String) (j : Nat) (w : String) (h : l[j]? = some w) :
    exportsFrom 0 l =
      exportsFrom 0 (l.take j) ++ (exportsOfToken j w ++ exportsFrom (j + 1) (l.drop (j + 1))) := by
  have hj : j < l.length := (List.getElem?_eq_some.mp h).1
  have hw : l[j] = w := (List.getElem?_eq_some.mp h).2
  have hl : l = l.take j ++ w :: l.drop (j + 1) := by
    rw [← hw, ← List.drop_eq_getElem_cons hj, List.take_append_drop]
  have hlen : (l.take j).length = j := by simp; omega
  conv_lhs => rw [hl]
  rw [exportsFrom_append, hlen]
  simp [exportsFrom]

/-- The positional variable of token `j` still holds its value after the later
tokens, unless one of them exports the same name. -/
theorem bindAll_positional (env : Env) (l : List String) (j : Nat) (w : String)
    (h : l[j]? = some w)
    (hlater : ∀ kv ∈ exportsFrom (j + 1) (l.drop (j + 1)), kv.1 ≠ Nat.repr (j + 1)) :
    env.bindAll (exportsFrom 0 l) (Nat.repr (j + 1)) = some w := by
  simp only [Env.bindAll, exportsFrom_split l j w h, lastBinding_append,
    lastBinding_none_of_keys _ _ hlater, exportsOfToken]
  simp [lastBinding]

/-- The variable `K` of a token `K=V` still holds `V` after the later tokens,
unless the positional export of the token itself or a later token exports `K`. -/
theorem bindAll_key_value (env : Env) (l : List String) (j : Nat) (w : String)
    (h : l[j]? = some w) (heq : hasEq w = true) (hkey : ValidKey (splitAtEq w).1)
    (hnul : '\x00' ∉ w.data) (hne : (splitAtEq w).1 ≠ Nat.repr (j + 1))
    (hlater : ∀ kv ∈ exportsFrom (j + 1) (l.drop (j + 1)), kv.1 ≠ (splitAtEq w).1) :
    env.bindAll (exportsFrom 0 l) (splitAtEq w).1 = some (splitAtEq w).2 := by
  have hval : '\x00' ∉ (splitAtEq w).2.data := fun hc => hnul (splitAtEq_value_sub w _ hc)
  obtain ⟨hk1, hk2⟩ := hkey
  simp only [Env.bindAll, exportsFrom_split l j w h, lastBinding_append,
    lastBinding_none_of_keys _ _ hlater, exportsOfToken]
  generalize (splitAtEq w).1 = K at *
  generalize (splitAtEq w).2 = V at *
  simp [lastBinding, heq, hk1, hk2, hval, hne.symm]

/-- Every prefix of a run of the loop that does not fail is a run that does not
fail, and it leaves the environment with the exports of its tokens applied. -/
theorem parseParametersLoop_prefix {σ : Type} (deps : Deps σ) (b : builder)
    (hset : b.noSetenv = false) (eval : Bool) (env : Env) (tokens params envs : List String)
    (env1 : Env)
    (h : parseParametersLoop deps b eval 0 tokens [] [] env = (.ok (params, envs), env1))
    (n : Nat) (hn : n ≤ tokens.length) :
    ∃ es, parseParametersLoop deps b eval 0 (tokens.take n) [] [] env =
      (.ok (params.take n, es), env.bindAll (exportsFrom 0 (params.take n))) ∧
      ∀ v ∈ params.take n, '\x00' ∉ v.data := by
  obtain ⟨hlen, -, hidx⟩ := parseParametersLoop_exports deps b hset eval env tokens
    params envs env1 h
  have hrun : ∃ es e, parseParametersLoop deps b eval 0 (tokens.take n) [] [] env =
      (.ok (params.take n, es), e) := by
    cases n with
    | zero => exact ⟨[], env, rfl⟩
    | succ m =>
      have hm : m < params.length := by omega
      obtain ⟨t, envsI, envI, -, -, hpre, -⟩ := hidx m params[m] (List.getElem?_eq_getElem hm)
      exact ⟨envsI, envI, hpre⟩
  obtain ⟨es, e, hpre⟩ := hrun
  obtain ⟨vs, hvs, -, hnul, he⟩ := parseParametersLoop_env deps b hset eval (tokens.take n)
    0 [] [] (params.take n) es env e hpre
  simp only [List.nil_append] at hvs
  subst hvs
  exact ⟨es, by rw [hpre, he], hnul⟩

/-- Counterexample to C11 as stated: in `x 1=abc $1` the third token refers to
`$1`; the first parameter evaluates to `x`, but the token receives `abc`,
because the `K=V` export of the second token has bound `1` anew. -/
theorem parseParameters_reference_overridden :
    sampleDeps.shellwordsParse "x 1=abc $1" = .ok ["x", "1=abc", "$1"] ∧
    (parseParameters sampleDeps builder.zero "x 1=abc $1" true emptyEnv).1 =
      .ok (["x", "1=abc", "abc"], ["1=abc"]) :=
  ⟨rfl, rfl⟩

/-- C11, amended: with evaluation and setenv enabled, `parseParameters` takes the
tokens strictly left to right (it returns without error when every token
evaluates to a value without NUL byte), and token `i` is expanded in the
environment obtained from the initial one by the positional and `K=V` exports
of tokens `0..i-1`, in that order.  So in that environment `$j` (`j ≤ i`) holds
the evaluated value of parameter `j`, and `K` of an earlier parameter `K=V`
holds `V`, unless a token in between has exported the same name again. -/
theorem parseParameters_left_to_right {σ : Type} (deps : Deps σ) (b : builder)
    (hset : b.noSetenv = false) (value : String) (tokens : List String) (env : Env)
    (hparse : deps.shellwordsParse value = .ok tokens) :
    ((∀ e, ∀ t ∈ tokens, ∃ v, deps.parseCommand e (deps.expandEnv e t) = .ok v ∧
        '\x00' ∉ v.data) →
      ∃ params envs env1,
        parseParameters deps b value true env = (.ok (params, envs), env1)) ∧
    (∀ (params envs : List String) (env1 : Env),
      parseParameters deps b value true env = (.ok (params, envs), env1) →
      ∀ i v, params[i]? = some v →
        ∃ t, tokens[i]? = some t ∧
          (parseParametersLoop deps b true 0 (tokens.take i) [] [] env).2 =
            env.bindAll (exportsFrom 0 (params.take i)) ∧
          deps.parseCommand (env.bindAll (exportsFrom 0 (params.take i)))
            (deps.expandEnv (env.bindAll (exportsFrom 0 (params.take i))) t) = .ok v ∧
          (∀ j w, j < i → params[j]? = some w →
            (∀ kv ∈ exportsFrom (j + 1) ((params.take i).drop (j + 1)),
              kv.1 ≠ Nat.repr (j + 1)) →
            env.bindAll (exportsFrom 0 (params.take i)) (Nat.repr (j + 1)) = some w) ∧
          (∀ j w, j < i → params[j]? = some w → hasEq w = true →
            ValidKey (splitAtEq w).1 → (splitAtEq w).1 ≠ Nat.repr (j + 1) →
            (∀ kv ∈ exportsFrom (j + 1) ((params.take i).drop (j + 1)),
              kv.1 ≠ (splitAtEq w).1) →
            env.bindAll (exportsFrom 0 (params.take i)) (splitAtEq w).1 =
              some (splitAtEq w).2)) := by
  have hrun : parseParameters deps b value true env =
      parseParametersLoop deps b true 0 tokens [] [] env := by
    simp [parseParameters, hparse]
  constructor
  · intro hev
    rw [hrun]
    exact parseParametersLoop_total deps b true tokens 0 [] [] env
      (fun e t ht => by simpa [evalToken] using hev e t ht)
  · intro params envs env1 h i v hv
    rw [hrun] at h
    obtain ⟨hlen, -, hidx⟩ := parseParametersLoop_exports deps b hset true env tokens
      params envs env1 h
    obtain ⟨t, -, -, ht, hev, -⟩ := hidx i v hv
    have hi : i < params.length := (List.getElem?_eq_some.mp hv).1
    obtain ⟨es, hpre, hnul⟩ := parseParametersLoop_prefix deps b hset true env tokens
      params envs env1 h i (by omega)
    have henv : (parseParametersLoop deps b true 0 (tokens.take i) [] [] env).2 =
        env.bindAll (exportsFrom 0 (params.take i)) := by rw [hpre]
    have htake : ∀ j w, j < i → params[j]? = some w → (params.take i)[j]? = some w :=
      fun j w hj hw => by rw [List.getElem?_take_of_lt hj]; exact hw
    refine ⟨t, ht, henv, ?_, ?_, ?_⟩
    · rw [henv] at hev
      simpa [evalToken] using hev
    · intro j w hj hw hlater
      exact bindAll_positional env _ j w (htake j w hj hw) hlater
    · intro j w hj hw heq hkey hne hlater
      exact bindAll_key_value env _ j w (htake j w hj hw) heq hkey
        (hnul w (List.getElem?_mem (htake j w hj hw))) hne hlater

/-- C11, amended, on the parameter strings of the test: `x $1` yields the
params `x`, `x`, and in `P1=foo Y=${P1}` the second token is expanded where
`P1` holds `foo`, so that `Y` is `foo`. -/
theorem parseParameters_left_to_right_witness :
    (parseParameters sampleDeps builder.zero "x $1" true emptyEnv).1 =
      .ok (["x", "x"], []) ∧
    (emptyEnv.bindAll (exportsFrom 0 (["x", "x"].take 1))) "1" = some "x" ∧
    (parseParameters sampleDeps builder.zero "P1=foo Y=${P1}" true emptyEnv).1 =
      .ok (["P1=foo", "Y=foo"], ["P1=foo", "Y=foo"]) ∧
    (emptyEnv.bindAll (exportsFrom 0 (["P1=foo", "Y=foo"].take 1))) "P1" = some "foo" ∧
    (parseParameters sampleDeps builder.zero "P1=foo Y=${P1}" true emptyEnv).2 "Y" =
      some "foo" := by
  have h1 := (parseParameters_left_to_right sampleDeps builder.zero rfl "x $1" ["x", "$1"]
    emptyEnv rfl).2 ["x", "x"] []
    (parseParameters sampleDeps builder.zero "x $1" true emptyEnv).2 (by rfl) 1 "x" (by rfl)
  obtain ⟨-, -, -, -, hpos, -⟩ := h1
  have h2 := (parseParameters_left_to_right sampleDeps builder.zero rfl "P1=foo Y=${P1}"
    ["P1=foo", "Y=${P1}"] emptyEnv rfl).2 ["P1=foo", "Y=foo"] ["P1=foo", "Y=foo"]
    (parseParameters sampleDeps builder.zero "P1=foo Y=${P1}" true emptyEnv).2 (by rfl)
    1 "Y=foo" (by rfl)
  obtain ⟨-, -, -, -, -, hkv⟩ := h2
  refine ⟨rfl, hpos 0 "x" (by decide) (by rfl) (by simp [exportsFrom]), rfl, ?_, by decide⟩
  exact hkv 0 "P1=foo" (by decide) (by rfl) (by decide) ⟨by decide, by decide⟩ (by decide)
    (by simp [exportsFrom])

/-! ## C12: `parseTags` -/

theorem parseTagsLoop_eq (U : UnicodeTables) (fields : List String) :
    ∀ ret : List String,
      parseTagsLoop U fields ret =
        ret ++ (fields.map (fun f => stringsToLower U (stringsTrimSpace U f))).filter
          (fun tag => tag ≠ "") := by
  induction fields with
  | nil => intro ret; simp [parseTagsLoop]
  | cons f rest ih =>
    intro ret
    by_cases h : stringsToLower U (stringsTrimSpace U f) = ""
    · simp [parseTagsLoop, h, ih]
    · simp [parseTagsLoop, h, ih]

theorem splitFrom_no_sep (sep : Char) (cs : List Char) :
    ∀ cur : List Char, sep ∉ cur → ∀ f ∈ splitFrom sep cs cur, sep ∉ f.data := by
  induction cs with
  | nil =>
    intro cur hcur f hf
    simp only [splitFrom, List.mem_singleton] at hf
    subst hf
    exact hcur
  | cons c rest ih =>
    intro cur hcur f hf
    by_cases hc : c = sep
    · simp only [splitFrom, hc, if_true, List.mem_cons] at hf
      rcases hf with rfl | hf
      · exact hcur
      · exact ih [] (by simp) f hf
    · simp only [splitFrom, hc, if_false] at hf
      refine ih (cur ++ [c]) ?_ f hf
      intro hmem
      rcases List.mem_append.mp hmem with h1 | h1
      · exact hcur h1
      · have h2 : sep = c := by simpa using h1
        exact hc h2.symm

/-- The characters `strings.TrimSpace` keeps are characters of the string. -/
theorem trimSpace_subset (U : UnicodeTables) (s : String) (c : Char)
    (h : c ∈ (stringsTrimSpace U s).data) : c ∈ s.data := by
  simp only [stringsTrimSpace, List.mem_reverse] at h
  exact (List.dropWhile_sublist _).subset
    (List.mem_reverse.mp ((List.dropWhile_sublist _).subset h))

theorem head_dropWhile (p : Char → Bool) (l : List Char) (c : Char)
    (h : (l.dropWhile p).head? = some c) : p c = false := by
  have := List.head?_dropWhile_not p l
  rw [h] at this
  exact this

/-- A trimmed string neither starts nor ends with white space. -/
theorem trimSpace_ends (U : UnicodeTables) (s : String) (c : Char) :
    ((stringsTrimSpace U s).data.head? = some c → U.isSpace c = false) ∧
    ((stringsTrimSpace U s).data.getLast? = some c → U.isSpace c = false) := by
  simp only [stringsTrimSpace]
  constructor
  · intro h
    have hpre : ((s.data.dropWhile U.isSpace).reverse.dropWhile U.isSpace).reverse <+:
        s.data.dropWhile U.isSpace := by
      have := List.reverse_prefix.mpr
        (List.dropWhile_suffix (l := (s.data.dropWhile U.isSpace).reverse) U.isSpace)
      simpa using this
    obtain ⟨tl, htl⟩ := hpre
    apply head_dropWhile U.isSpace s.data c
    rw [← htl]
    cases hcase : ((s.data.dropWhile U.isSpace).reverse.dropWhile U.isSpace).reverse with
    | nil => rw [hcase] at h; simp at h
    | cons a rest => rw [hcase] at h; simpa using h
  · intro h
    rw [List.getLast?_reverse] at h
    exact head_dropWhile U.isSpace _ c h

theorem parseTags_mem (U : UnicodeTables) (s tag : String) (h : tag ∈ parseTags U s) :
    tag ≠ "" ∧ ∃ f ∈ stringsSplitComma s, tag = stringsToLower U (stringsTrimSpace U f) := by
  simp only [parseTags, parseTagsLoop_eq, List.nil_append, List.mem_filter, List.mem_map,
    decide_eq_true_eq] at h
  obtain ⟨⟨f, hf, rfl⟩, hne⟩ := h
  exact ⟨hne, f, hf, rfl⟩

/-- C12: `parseTags(s)` is the list, in order, of the comma-separated fields of `s`
trimmed and lowercased, without the empty ones.  Hence (given that lowercasing
never yields a comma or white space from another character and is idempotent)
every tag is non-empty, has no comma, neither starts nor ends with white space
and is lowercase; `parseTags("")` is empty, and `Daily, Monthly` yields `daily`,
`monthly`. -/
theorem parseTags_fields (U : UnicodeTables) (s : String) :
    parseTags U s = tagsOfFields U s ∧
    ((∀ c, U.toLower c = ',' → c = ',') →
      (∀ c, U.isSpace (U.toLower c) = true → U.isSpace c = true) →
      (∀ c, U.toLower (U.toLower c) = U.toLower c) →
      ∀ tag ∈ parseTags U s,
        tag ≠ "" ∧ ',' ∉ tag.data ∧
        (∀ c, tag.data.head? = some c → U.isSpace c = false) ∧
        (∀ c, tag.data.getLast? = some c → U.isSpace c = false) ∧
        stringsToLower U tag = tag) ∧
    parseTags U "" = [] ∧
    parseTags asciiTables "Daily, Monthly" = ["daily", "monthly"] := by
  refine ⟨?_, ?_, ?_, by decide⟩
  · simp [parseTags, tagsOfFields, parseTagsLoop_eq]
  · intro hcomma hspace hidem tag htag
    obtain ⟨hne, f, hf, rfl⟩ := parseTags_mem U s tag htag
    have hfc : ',' ∉ f.data := splitFrom_no_sep ',' s.data [] (by simp) f hf
    refine ⟨hne, ?_, ?_, ?_, ?_⟩
    · intro hmem
      simp only [stringsToLower, List.mem_map] at hmem
      obtain ⟨c, hc, hlow⟩ := hmem
      have := hcomma c hlow
      subst this
      exact hfc (trimSpace_subset U f _ hc)
    · intro c hc
      simp only [stringsToLower, List.head?_map, Option.map_eq_some'] at hc
      obtain ⟨a, ha, rfl⟩ := hc
      have h1 := (trimSpace_ends U f a).1 ha
      cases hsp : U.isSpace (U.toLower a) with
      | false => rfl
      | true => rw [hspace a hsp] at h1; exact absurd h1 (by simp)
    · intro c hc
      simp only [stringsToLower, List.getLast?_map, Option.map_eq_some'] at hc
      obtain ⟨a, ha, rfl⟩ := hc
      have h1 := (trimSpace_ends U f a).2 ha
      cases hsp : U.isSpace (U.toLower a) with
      | false => rfl
      | true => rw [hspace a hsp] at h1; exact absurd h1 (by simp)
    · have hfun : U.toLower ∘ U.toLower = U.toLower := funext hidem
      simp [stringsToLower, hfun]
  · simp [parseTags, stringsSplitComma, splitFrom, parseTagsLoop, stringsToLower,
      stringsTrimSpace]

/-- On ASCII, lowercasing yields no comma and no white space from another
character, and it is idempotent. -/
theorem asciiTables_lower (c : Char) :
    (asciiTables.toLower c = ',' → c = ',') ∧
    (asciiTables.isSpace (asciiTables.toLower c) = true → asciiTables.isSpace c = true) ∧
    asciiTables.toLower (asciiTables.toLower c) = asciiTables.toLower c := by
  by_cases h : 65 ≤ c.toNat ∧ c.toNat ≤ 90
  · simp only [asciiTables, h, and_self, if_true]
    obtain ⟨h1, h2⟩ := h
    generalize c.toNat = n at h1 h2 ⊢
    interval_cases n <;> refine ⟨fun hc => absurd hc (by decide),
      fun hc => absurd hc (by decide), by decide⟩
  · simp [asciiTables, h]

/-- C12 on the tags of the test, `Daily, Monthly`. -/
theorem parseTags_fields_witness :
    parseTags asciiTables "Daily, Monthly" = ["daily", "monthly"] ∧
    ∀ tag ∈ parseTags asciiTables "Daily, Monthly",
      tag ≠ "" ∧ ',' ∉ tag.data ∧ stringsToLower asciiTables tag = tag := by
  have h := parseTags_fields asciiTables "Daily, Monthly"
  refine ⟨h.2.2.2, fun tag htag => ?_⟩
  obtain ⟨h1, h2, -, -, h5⟩ := h.2.1 (fun c => (asciiTables_lower c).1)
    (fun c => (asciiTables_lower c).2.1) (fun c => (asciiTables_lower c).2.2) tag htag
  exact ⟨h1, h2, h5⟩

/-! ## C13: `builder.expandEnv` -/

/-- The fields of the step `buildStep` returns that come from the definition as
they are, and the three that go through `expandEnv`. -/
theorem buildStep_fields {σ : Type} (deps : Deps σ) (b : builder) (env : Env)
    (vars : List String) (sdef : stepDef) (step : Step)
    (h : buildStep deps b env vars sdef = .ok step) :
    step.Stdout = b.expandEnv deps env sdef.Stdout ∧
    step.Stderr = b.expandEnv deps env sdef.Stderr ∧
    step.Dir = b.expandEnv deps env sdef.Dir ∧
    step.Name = sdef.Name ∧ step.Description = sdef.Description ∧
    step.CmdWithArgs = sdef.Command ∧ step.Script = sdef.Script ∧
    step.Output = sdef.Output := by
  unfold buildStep at h
  cases ha : assertStepDef sdef with
  | some err => simp [ha] at h
  | none =>
    cases hex : buildExecutor sdef.Executor with
    | error f => simp [ha, hex] at h
    | ok ec =>
      cases hs : sdef.SignalOnStop with
      | none =>
        simp only [ha, hex, hs, Except.ok.injEq] at h
        subst h
        exact ⟨rfl, rfl, rfl, rfl, rfl, rfl, rfl, rfl⟩
      | some sigDef =>
        cases hn : SignalNum deps sigDef with
        | error e => simp [ha, hex, hs, hn] at h
        | ok n =>
          simp only [ha, hex, hs, hn, Except.ok.injEq] at h
          subst h
          exact ⟨rfl, rfl, rfl, rfl, rfl, rfl, rfl, rfl⟩

/-- C13: `builder.expandEnv(v)` is `v` when `noEval` is set and `os.ExpandEnv(v)`
when it is not; `buildStep` builds a step for every valid definition with a
well-formed executor, and the step it builds has this function applied to
`stdout`, `stderr` and `dir`, the other texts of the definition being copied. -/
theorem builder_expandEnv_cases {σ : Type} (deps : Deps σ) (b : builder) (env : Env) :
    (∀ v, b.noEval = true → b.expandEnv deps env v = v) ∧
    (∀ v, b.noEval = false → b.expandEnv deps env v = deps.expandEnv env v) ∧
    (∀ (vars : List String) (sdef : stepDef), ValidStepDef deps sdef →
      WellFormedExecutor sdef.Executor →
      ∃ step, buildStep deps b env vars sdef = .ok step) ∧
    (∀ (vars : List String) (sdef : stepDef) (step : Step),
      buildStep deps b env vars sdef = .ok step →
      step.Stdout = b.expandEnv deps env sdef.Stdout ∧
      step.Stderr = b.expandEnv deps env sdef.Stderr ∧
      step.Dir = b.expandEnv deps env sdef.Dir ∧
      step.Output = sdef.Output ∧ step.Script = sdef.Script ∧
      step.CmdWithArgs = sdef.Command) := by
  refine ⟨?_, ?_, ?_, ?_⟩
  · intro v h; simp [builder.expandEnv, h]
  · intro v h; simp [builder.expandEnv, h]
  · intro vars sdef hv hwf
    obtain ⟨hn, hc, hsig⟩ := hv
    obtain ⟨ec, hex⟩ := buildExecutor_well_formed _ hwf
    obtain ⟨h1, h2, -⟩ := buildStep_of_executor deps b env vars sdef ec hn hc hex
    cases hs : sdef.SignalOnStop with
    | none =>
      obtain ⟨step, hb, -⟩ := h1 hs
      exact ⟨step, hb⟩
    | some s =>
      obtain ⟨n, hnum⟩ := hsig s hs
      obtain ⟨step, hb, -⟩ := h2 s n hs hnum
      exact ⟨step, hb⟩
  · intro vars sdef step h
    obtain ⟨h1, h2, h3, -, -, h6, h7, h8⟩ := buildStep_fields deps b env vars sdef step h
    exact ⟨h1, h2, h3, h8, h7, h6⟩

/-- C13 on the test: with `FOO` set to `BAR`, `expandEnv` turns `${FOO}` into
`BAR`, and leaves it as it is under `noEval`; a step with `stdout: ${FOO}` gets
`Stdout = BAR`. -/
theorem builder_expandEnv_cases_witness :
    builder.zero.expandEnv sampleDeps (emptyEnv.bind "FOO" "BAR") "${FOO}" = "BAR" ∧
    ({ builder.zero with noEval := true } : builder).expandEnv sampleDeps
      (emptyEnv.bind "FOO" "BAR") "${FOO}" = "${FOO}" ∧
    ∃ step, buildStep sampleDeps builder.zero (emptyEnv.bind "FOO" "BAR") []
        { stepDef.simple "S1" "echo 1" with Stdout := "${FOO}" } = .ok step ∧
      step.Stdout = "BAR" := by
  have h := builder_expandEnv_cases sampleDeps builder.zero (emptyEnv.bind "FOO" "BAR")
  have hn := builder_expandEnv_cases sampleDeps { builder.zero with noEval := true }
    (emptyEnv.bind "FOO" "BAR")
  refine ⟨by rw [h.2.1 _ rfl]; decide, hn.1 _ rfl, ?_⟩
  obtain ⟨step, hb⟩ := h.2.2.1 [] { stepDef.simple "S1" "echo 1" with Stdout := "${FOO}" }
    ⟨by decide, by decide, by simp [stepDef.simple]⟩ trivial
  refine ⟨step, hb, ?_⟩
  rw [(h.2.2.2 _ _ step hb).1, h.2.1 _ rfl]
  decide

/-! ## C14 – C16: `GetStatus` and `GetLastStatus` -/

/-- On a refused connection `GetLastStatus` does not always return the status
read from today's history with a nil error: a status read as Running comes back
as Error, and a read that fails with another error than the two sentinels comes
back as the default status together with that error. -/
theorem GetLastStatus_fallback_not_as_read :
    crashedRunBackend.request (crashedRunBackend.sockAddr (DAG.zero Unit)) "GET" "/status" =
      .error (.message "connection refused") ∧
    crashedRunBackend.readStatusToday (DAG.zero Unit).Location =
      .ok (Status.sample "r1" .Running) ∧
    (GetLastStatus crashedRunBackend (DAG.zero Unit)).1 =
      (some (Status.sample "r1" .Error), none) ∧
    Status.sample "r1" .Error ≠ Status.sample "r1" .Running ∧
    (GetLastStatus
      { quietBackend with readStatusToday := fun _ => .error (.message "permission denied") }
      (DAG.zero Unit)).1 =
      (some { RequestId := "", Name := "", Status := .None, StatusText := "", Pid := -1,
              Params := "" }, some (.message "permission denied")) :=
  ⟨rfl, rfl, rfl, by decide, rfl⟩

/-- C14: `GetLastStatus` tells the two socket failures apart.  On an error that is
`sock.ErrTimeout` it returns that error and a nil status and does not read the
history; on any other error it reads today's history at the location of the
DAG: when the read yields a status it returns that status with a nil error, a
status read as Running being returned with `CorrectRunningStatus` applied
(rewritten to Error) and any other status as read; when the read fails it
returns the default status of the DAG, with a nil error for the two sentinels
`ErrNoStatusDataToday` and `ErrNoStatusData` and with the read error otherwise;
on an answer it returns what the answer decodes to and does not read the
history. -/
theorem GetLastStatus_socket_failures {σ ν : Type} (B : Backend σ ν) (d : DAG σ) :
    (∀ err, B.request (B.sockAddr d) "GET" "/status" = .error err → err.isTimeout = true →
      GetLastStatus B d = ((none, some err), [.request (B.sockAddr d) "GET" "/status"]) ∧
      ∀ c ∈ (GetLastStatus B d).2, c.readsHistory = false) ∧
    (∀ err st, B.request (B.sockAddr d) "GET" "/status" = .error err →
      err.isTimeout = false → B.readStatusToday d.Location = .ok st →
      GetLastStatus B d = ((some st.CorrectRunningStatus, none),
        [.request (B.sockAddr d) "GET" "/status", .readStatusToday d.Location]) ∧
      (st.Status ≠ SchedulerStatus.Running → st.CorrectRunningStatus = st) ∧
      (st.Status = SchedulerStatus.Running →
        st.CorrectRunningStatus = { st with Status := SchedulerStatus.Error })) ∧
    (∀ err rerr, B.request (B.sockAddr d) "GET" "/status" = .error err →
      err.isTimeout = false → B.readStatusToday d.Location = .error rerr →
      GetLastStatus B d =
        ((some (defaultStatus B d),
          if rerr = GoError.ErrNoStatusDataToday ∨ rerr = GoError.ErrNoStatusData then none
          else some rerr),
          [.request (B.sockAddr d) "GET" "/status", .readStatusToday d.Location])) ∧
    (∀ ret, B.request (B.sockAddr d) "GET" "/status" = .ok ret →
      GetLastStatus B d = (B.statusFromJson ret, [.request (B.sockAddr d) "GET" "/status"]) ∧
      ∀ c ∈ (GetLastStatus B d).2, c.readsHistory = false) := by
  refine ⟨?_, ?_, ?_, ?_⟩
  · intro err hreq ht
    have h : GetLastStatus B d =
        ((none, some err), [.request (B.sockAddr d) "GET" "/status"]) := by
      simp [GetLastStatus, hreq, ht]
    exact ⟨h, by rw [h]; simp [Call.readsHistory]⟩
  · intro err st hreq ht hread
    refine ⟨by simp [GetLastStatus, hreq, ht, hread], fun hne => ?_, fun heq => ?_⟩
    · simp [Status.CorrectRunningStatus, hne]
    · simp [Status.CorrectRunningStatus, heq]
  · intro err rerr hreq ht hread
    by_cases h1 : rerr = GoError.ErrNoStatusDataToday
    · simp [GetLastStatus, hreq, ht, hread, h1]
    · by_cases h2 : rerr = GoError.ErrNoStatusData
      · simp [GetLastStatus, hreq, ht, hread, h2]
      · simp [GetLastStatus, hreq, ht, hread, h1, h2]
  · intro ret hreq
    have h : GetLastStatus B d =
        (B.statusFromJson ret, [.request (B.sockAddr d) "GET" "/status"]) := by
      simp [GetLastStatus, hreq]
    exact ⟨h, by rw [h]; simp [Call.readsHistory]⟩

/-- C14 on a socket that times out, and on a refused connection with a
successful run in today's history. -/
theorem GetLastStatus_socket_failures_witness :
    GetLastStatus { quietBackend with request := fun _ _ _ => .error .ErrTimeout }
        (DAG.zero Unit) =
      ((none, some .ErrTimeout), [.request "/tmp/@dagu-.sock" "GET" "/status"]) ∧
    GetLastStatus { quietBackend with
        readStatusToday := fun _ => .ok (Status.sample "r1" .Success) } (DAG.zero Unit) =
      ((some (Status.sample "r1" .Success), none),
        [.request "/tmp/@dagu-.sock" "GET" "/status", .readStatusToday ""]) ∧
    GetLastStatus quietBackend (DAG.zero Unit) =
      ((some (defaultStatus quietBackend (DAG.zero Unit)), none),
        [.request "/tmp/@dagu-.sock" "GET" "/status", .readStatusToday ""]) :=
  ⟨((GetLastStatus_socket_failures
      { quietBackend with request := fun _ _ _ => .error .ErrTimeout } (DAG.zero Unit)).1
      .ErrTimeout rfl rfl).1,
    ((GetLastStatus_socket_failures
      { quietBackend with readStatusToday := fun _ => .ok (Status.sample "r1" .Success) }
      (DAG.zero Unit)).2.1 (.message "connection refused") (Status.sample "r1" .Success)
      rfl rfl rfl).1,
    (GetLastStatus_socket_failures quietBackend (DAG.zero Unit)).2.2.1
      (.message "connection refused") .ErrNoStatusDataToday rfl rfl rfl⟩

/-- C15: `GetStatus` returns what the answer of the socket decodes to; on an error
that is not `sock.ErrTimeout` it returns the default status of the DAG (built by
`NewStatus` from no nodes, the status None and the pid `PidNotRunning`) with a
nil error, the history not being consulted; on `sock.ErrTimeout` it returns a nil
status and that error. -/
theorem GetStatus_cases {σ ν : Type} (B : Backend σ ν) (d : DAG σ) :
    (∀ ret, B.request (B.sockAddr d) "GET" "/status" = .ok ret →
      GetStatus B d = (B.statusFromJson ret, [.request (B.sockAddr d) "GET" "/status"])) ∧
    (∀ err, B.request (B.sockAddr d) "GET" "/status" = .error err → err.isTimeout = false →
      GetStatus B d =
        ((some (defaultStatus B d), none), [.request (B.sockAddr d) "GET" "/status"]) ∧
      ∀ c ∈ (GetStatus B d).2, c.readsHistory = false) ∧
    (∀ err, B.request (B.sockAddr d) "GET" "/status" = .error err → err.isTimeout = true →
      GetStatus B d = ((none, some err), [.request (B.sockAddr d) "GET" "/status"])) ∧
    defaultStatus B d = B.newStatus d [] SchedulerStatus.None B.pidNotRunning none none := by
  refine ⟨?_, ?_, ?_, rfl⟩
  · intro ret hreq
    simp [GetStatus, hreq]
  · intro err hreq ht
    have h : GetStatus B d =
        ((some (defaultStatus B d), none), [.request (B.sockAddr d) "GET" "/status"]) := by
      simp [GetStatus, hreq, ht]
    exact ⟨h, by rw [h]; simp [Call.readsHistory]⟩
  · intro err hreq ht
    simp [GetStatus, hreq, ht]

/-- C15 on a refused connection: the default status, with status None. -/
theorem GetStatus_cases_witness :
    (GetStatus quietBackend (DAG.zero Unit)).1 =
      (some { RequestId := "", Name := "", Status := .None, StatusText := "", Pid := -1,
              Params := "" }, none) := by
  rw [((GetStatus_cases quietBackend (DAG.zero Unit)).2.1 (.message "connection refused")
    rfl rfl).1]
  rfl

/-- C16: when the socket request fails with an error that is not a timeout and
today's history cannot be read, `GetLastStatus` returns the default status, not
nil, whose status is None (as far as `NewStatus` keeps the status it is given);
the error returned is nil exactly when the read error is `ErrNoStatusDataToday`
or `ErrNoStatusData`, and is the read error otherwise. -/
theorem GetLastStatus_read_failure {σ ν : Type} (B : Backend σ ν) (d : DAG σ)
    (err rerr : GoError) (hreq : B.request (B.sockAddr d) "GET" "/status" = .error err)
    (hnt : err.isTimeout = false) (hread : B.readStatusToday d.Location = .error rerr) :
    (GetLastStatus B d).1.1 = some (defaultStatus B d) ∧
    ((∀ d1 nodes st pid t1 t2, (B.newStatus d1 nodes st pid t1 t2).Status = st) →
      (defaultStatus B d).Status = SchedulerStatus.None) ∧
    ((GetLastStatus B d).1.2 = none ↔
      rerr = GoError.ErrNoStatusDataToday ∨ rerr = GoError.ErrNoStatusData) ∧
    (rerr ≠ GoError.ErrNoStatusDataToday → rerr ≠ GoError.ErrNoStatusData →
      (GetLastStatus B d).1.2 = some rerr) := by
  have h : GetLastStatus B d =
      ((some (defaultStatus B d),
        if rerr ≠ GoError.ErrNoStatusDataToday ∧ rerr ≠ GoError.ErrNoStatusData
        then some rerr else none),
        [.request (B.sockAddr d) "GET" "/status", .readStatusToday d.Location]) := by
    simp [GetLastStatus, hreq, hnt, hread]
  refine ⟨by rw [h], fun hnew => hnew _ _ _ _ _ _, ?_, ?_⟩
  · rw [h]
    by_cases h1 : rerr = GoError.ErrNoStatusDataToday
    · simp [h1]
    · by_cases h2 : rerr = GoError.ErrNoStatusData
      · simp [h2]
      · simp [h1, h2]
  · intro h1 h2
    rw [h]
    simp [h1, h2]

/-- C16 on an empty history (`ErrNoStatusDataToday`), and on a history that cannot
be read. -/
theorem GetLastStatus_read_failure_witness :
    ((GetLastStatus quietBackend (DAG.zero Unit)).1.1.map (fun st => st.Status) =
        some SchedulerStatus.None ∧
      (GetLastStatus quietBackend (DAG.zero Unit)).1.2 = none) ∧
    (GetLastStatus { quietBackend with
        readStatusToday := fun _ => .error (.message "permission denied") }
      (DAG.zero Unit)).1.2 = some (.message "permission denied") := by
  have h1 := GetLastStatus_read_failure quietBackend (DAG.zero Unit)
    (.message "connection refused") .ErrNoStatusDataToday rfl rfl rfl
  have h2 := GetLastStatus_read_failure
    { quietBackend with readStatusToday := fun _ => .error (.message "permission denied") }
    (DAG.zero Unit) (.message "connection refused") (.message "permission denied") rfl rfl rfl
  refine ⟨⟨?_, h1.2.2.1.mpr (Or.inl rfl)⟩, h2.2.2.2 (by decide) (by decide)⟩
  rw [h1.1]
  exact congrArg some (h1.2.1 (fun _ _ _ _ _ _ => rfl))

/-! ## C17: where the controller corrects a Running status -/

/-- C17, the code at a history that holds a status left Running with no agent
listening: `GetLastStatus` and `GetStatusByRequestId` return it corrected to
Error, `GetRecentStatuses` returns what the database hands over, as it is, so
the status comes back Running. -/
theorem GetRecentStatuses_uncorrected :
    (∀ (σ ν : Type) (B : Backend σ ν) (d : DAG σ) (n : Int),
      (GetRecentStatuses B d n).1 = B.readStatusHist d.Location n) ∧
    (GetLastStatus crashedRunBackend (DAG.zero Unit)).1 =
      (some (Status.sample "r1" .Error), none) ∧
    (GetStatusByRequestId crashedRunBackend (DAG.zero Unit) "r1").1 =
      (some (Status.sample "r1" .Error), none) ∧
    (GetRecentStatuses crashedRunBackend (DAG.zero Unit) 1).1 =
      [{ File := "test.r1.dat", Status := Status.sample "r1" .Running }] :=
  ⟨fun _ _ _ _ _ => rfl, rfl, rfl, rfl⟩

/-! ## C18: `UpdateStatus` -/

/-- Counterexample to C18 as stated: the connection is refused (no timeout, no
answer), the history has a record of the request, but its file cannot be
opened; this is none of the three cases listed, yet `UpdateStatus` returns the
error of `Open` and writes nothing. -/
theorem UpdateStatus_open_failure :
    lockedHistoryBackend.request (lockedHistoryBackend.sockAddr (DAG.zero Unit)) "GET" "/status" =
      .error (.message "connection refused") ∧
    lockedHistoryBackend.findByRequestId "" "r1" =
      .ok { File := "test.r1.dat", Status := Status.sample "r1" .Running } ∧
    UpdateStatus lockedHistoryBackend (DAG.zero Unit) (Status.sample "r1" .Success) =
      (some (.message "permission denied"),
        [.request "/tmp/@dagu-.sock" "GET" "/status", .findByRequestId "" "r1",
          .writerOpen "test.r1.dat"]) :=
  ⟨rfl, rfl, rfl⟩

theorem UpdateStatus_not_blocked {σ ν : Type} (B : Backend σ ν) (d : DAG σ) (status : Status)
    (h : ¬ SocketBlocks B d status) :
    UpdateStatus B d status =
      ((updateFound B d status).1,
        .request (B.sockAddr d) "GET" "/status" :: (updateFound B d status).2) := by
  unfold UpdateStatus
  cases hreq : B.request (B.sockAddr d) "GET" "/status" with
  | error err =>
    have ht : err.isTimeout = false := by
      cases hb : err.isTimeout with
      | false => rfl
      | true => exact absurd (Or.inl ⟨err, hreq, hb⟩) h
    simp [ht]
  | ok res =>
    cases hss : (B.statusFromJson res).1 with
    | none => simp only [hss]
    | some ss =>
      have hno : ¬ (ss.RequestId = status.RequestId ∧ ss.Status = SchedulerStatus.Running) :=
        fun hc => h (Or.inr ⟨res, ss, hreq, hss, hc.1, hc.2⟩)
      simp only [hss]
      exact if_neg hno

/-- C18, amended: `UpdateStatus(status)` writes nothing to the history and returns
an error when the socket answers with a status of the same request id that is
Running (`the DAG is running`), when the request fails with `sock.ErrTimeout`
(that error), when the history has no record of `status.RequestId` (the error of
`FindByRequestId`), and when the file of the record cannot be opened (the error
of `Open`).  In every other case the status is written to the file found for
`status.RequestId`, and the result is that of the write. -/
theorem UpdateStatus_cases {σ ν : Type} (B : Backend σ ν) (d : DAG σ) (status : Status) :
    (∀ res ss, B.request (B.sockAddr d) "GET" "/status" = .ok res →
      (B.statusFromJson res).1 = some ss → ss.RequestId = status.RequestId →
      ss.Status = SchedulerStatus.Running →
      UpdateStatus B d status =
        (some (.message "the DAG is running"), [.request (B.sockAddr d) "GET" "/status"])) ∧
    (∀ err, B.request (B.sockAddr d) "GET" "/status" = .error err → err.isTimeout = true →
      UpdateStatus B d status = (some err, [.request (B.sockAddr d) "GET" "/status"])) ∧
    (¬ SocketBlocks B d status →
      (∀ err, B.findByRequestId d.Location status.RequestId = .error err →
        UpdateStatus B d status =
          (some err, [.request (B.sockAddr d) "GET" "/status",
            .findByRequestId d.Location status.RequestId])) ∧
      (∀ toUpdate err, B.findByRequestId d.Location status.RequestId = .ok toUpdate →
        B.writerOpen toUpdate.File = some err →
        UpdateStatus B d status =
          (some err, [.request (B.sockAddr d) "GET" "/status",
            .findByRequestId d.Location status.RequestId, .writerOpen toUpdate.File])) ∧
      (∀ toUpdate, B.findByRequestId d.Location status.RequestId = .ok toUpdate →
        B.writerOpen toUpdate.File = none →
        UpdateStatus B d status =
          (B.writerWrite toUpdate.File status,
            [.request (B.sockAddr d) "GET" "/status",
              .findByRequestId d.Location status.RequestId, .writerOpen toUpdate.File,
              .writerWrite toUpdate.File status, .writerClose toUpdate.File]))) ∧
    ((∃ c ∈ (UpdateStatus B d status).2, c.writesHistory = true) →
      ¬ SocketBlocks B d status ∧
      ∃ toUpdate, B.findByRequestId d.Location status.RequestId = .ok toUpdate ∧
        B.writerOpen toUpdate.File = none) := by
  have blockedRun : ∀ res ss, B.request (B.sockAddr d) "GET" "/status" = .ok res →
      (B.statusFromJson res).1 = some ss → ss.RequestId = status.RequestId →
      ss.Status = SchedulerStatus.Running →
      UpdateStatus B d status =
        (some (.message "the DAG is running"), [.request (B.sockAddr d) "GET" "/status"]) := by
    intro res ss hreq hss h1 h2
    simp [UpdateStatus, hreq, hss, h1, h2]
  have blockedTimeout : ∀ err, B.request (B.sockAddr d) "GET" "/status" = .error err →
      err.isTimeout = true →
      UpdateStatus B d status = (some err, [.request (B.sockAddr d) "GET" "/status"]) := by
    intro err hreq ht
    simp [UpdateStatus, hreq, ht]
  refine ⟨blockedRun, blockedTimeout, ?_, ?_⟩
  · intro hnb
    rw [UpdateStatus_not_blocked B d status hnb]
    refine ⟨?_, ?_, ?_⟩
    · intro err hfind
      simp [updateFound, hfind]
    · intro toUpdate err hfind hopen
      simp [updateFound, hfind, hopen]
    · intro toUpdate hfind hopen
      simp [updateFound, hfind, hopen]
  · rintro ⟨c, hc, hw⟩
    by_cases hb : SocketBlocks B d status
    · exfalso
      rcases hb with ⟨err, hreq, ht⟩ | ⟨res, ss, hreq, hss, h1, h2⟩
      · rw [blockedTimeout err hreq ht] at hc
        simp only [List.mem_singleton] at hc
        subst hc
        simp [Call.writesHistory] at hw
      · rw [blockedRun res ss hreq hss h1 h2] at hc
        simp only [List.mem_singleton] at hc
        subst hc
        simp [Call.writesHistory] at hw
    · refine ⟨hb, ?_⟩
      rw [UpdateStatus_not_blocked B d status hb] at hc
      cases hfind : B.findByRequestId d.Location status.RequestId with
      | error err =>
        simp only [updateFound, hfind, List.mem_cons, List.mem_singleton, List.not_mem_nil,
          or_false] at hc
        rcases hc with rfl | rfl <;> simp [Call.writesHistory] at hw
      | ok toUpdate =>
        cases hopen : B.writerOpen toUpdate.File with
        | none => exact ⟨toUpdate, rfl, hopen⟩
        | some err =>
          simp only [updateFound, hfind, hopen, List.mem_cons, List.mem_singleton,
            List.not_mem_nil, or_false] at hc
          rcases hc with rfl | rfl | rfl <;> simp [Call.writesHistory] at hw

/-- C18, amended, on the runs of the tests: a status whose request has a record
is written to the file of the record; one whose request id is unknown is
refused with the error of `FindByRequestId`. -/
theorem UpdateStatus_cases_witness :
    UpdateStatus crashedRunBackend (DAG.zero Unit) (Status.sample "r1" .Success) =
      (none, [.request "/tmp/@dagu-.sock" "GET" "/status", .findByRequestId "" "r1",
        .writerOpen "test.r1.dat", .writerWrite "test.r1.dat" (Status.sample "r1" .Success),
        .writerClose "test.r1.dat"]) ∧
    UpdateStatus crashedRunBackend (DAG.zero Unit)
        (Status.sample "invalid-request-id" .Error) =
      (some (.message "request id not found"),
        [.request "/tmp/@dagu-.sock" "GET" "/status",
          .findByRequestId "" "invalid-request-id"]) := by
  have hnb : ∀ st, ¬ SocketBlocks crashedRunBackend (DAG.zero Unit) st := by
    intro st hb
    rcases hb with ⟨err, hreq, ht⟩ | ⟨res, ss, hreq, -⟩
    · have : err = .message "connection refused" := by
        have h0 : crashedRunBackend.request (crashedRunBackend.sockAddr (DAG.zero Unit))
            "GET" "/status" = .error (.message "connection refused") := rfl
        rw [h0] at hreq
        exact (Except.error.inj hreq).symm
      subst this
      exact absurd ht (by decide)
    · have h0 : crashedRunBackend.request (crashedRunBackend.sockAddr (DAG.zero Unit))
          "GET" "/status" = .error (.message "connection refused") := rfl
      rw [h0] at hreq
      exact absurd hreq (by simp)
  exact ⟨((UpdateStatus_cases crashedRunBackend (DAG.zero Unit)
      (Status.sample "r1" .Success)).2.2.1 (hnb _)).2.2
      { File := "test.r1.dat", Status := Status.sample "r1" .Running } rfl rfl,
    ((UpdateStatus_cases crashedRunBackend (DAG.zero Unit)
      (Status.sample "invalid-request-id" .Error)).2.2.1 (hnb _)).1
      (.message "request id not found") rfl⟩

/-! ## C19 – C20: `UpdateDAGSpec` and `CreateDAG` -/

theorem FileSystem.write_same (fs : FileSystem) (path data : String) :
    (fs.write path data) path = some data := by
  simp [FileSystem.write]

theorem FileSystem.write_other (fs : FileSystem) (path data p : String) (h : p ≠ path) :
    (fs.write path data) p = fs p := by
  simp [FileSystem.write, h]

/-- C19: `UpdateDAGSpec(value)` writes only when `value` loads and a file exists
at the location of the DAG.  If `value` does not load it returns the error of
the load, if there is no file it returns an error and creates none, the file
system being unchanged in both cases; when it succeeds the content of the file
is `value`, and no other file has changed. -/
theorem UpdateDAGSpec_cases {σ ν : Type} (B : Backend σ ν) (d : DAG σ) (value : String)
    (fs : FileSystem) :
    (∀ err, B.loadData value = some err → UpdateDAGSpec B d value fs = (some err, fs)) ∧
    (B.loadData value = none → fs d.Location = none →
      (∃ err, UpdateDAGSpec B d value fs = (some err, fs)) ∧
      (UpdateDAGSpec B d value fs).2 d.Location = none) ∧
    ((UpdateDAGSpec B d value fs).2 ≠ fs →
      B.loadData value = none ∧ (fs d.Location).isSome = true) ∧
    (∀ fs1, UpdateDAGSpec B d value fs = (none, fs1) →
      fs1 d.Location = some value ∧ ∀ p, p ≠ d.Location → fs1 p = fs p) ∧
    (B.loadData value = none → (fs d.Location).isSome = true →
      B.writeFileError d.Location = none →
      UpdateDAGSpec B d value fs = (none, fs.write d.Location value)) := by
  have invalid : ∀ err, B.loadData value = some err →
      UpdateDAGSpec B d value fs = (some err, fs) := by
    intro err hload
    simp [UpdateDAGSpec, hload]
  have missing : B.loadData value = none → fs d.Location = none →
      UpdateDAGSpec B d value fs =
        (some (.message ("the config file " ++ d.Location ++ " does not exist")), fs) := by
    intro hload hnone
    simp [UpdateDAGSpec, hload, FileExists, hnone]
  have present : B.loadData value = none → (fs d.Location).isSome = true →
      UpdateDAGSpec B d value fs = osWriteFile B fs d.Location value := by
    intro hload hsome
    simp [UpdateDAGSpec, hload, FileExists, hsome]
  refine ⟨invalid, ?_, ?_, ?_, ?_⟩
  · intro hload hnone
    exact ⟨⟨_, missing hload hnone⟩, by rw [missing hload hnone]; exact hnone⟩
  · intro hchanged
    cases hload : B.loadData value with
    | some err => rw [invalid err hload] at hchanged; exact absurd rfl hchanged
    | none =>
      cases hfile : fs d.Location with
      | none => rw [missing hload hfile] at hchanged; exact absurd rfl hchanged
      | some content => exact ⟨rfl, rfl⟩
  · intro fs1 hok
    cases hload : B.loadData value with
    | some err => rw [invalid err hload] at hok; simp at hok
    | none =>
      cases hfile : fs d.Location with
      | none => rw [missing hload hfile] at hok; simp at hok
      | some content =>
        rw [present hload (by simp [hfile])] at hok
        unfold osWriteFile at hok
        cases hw : B.writeFileError d.Location with
        | some err => simp [hw] at hok
        | none =>
          simp only [hw, Prod.mk.injEq, true_and] at hok
          subst hok
          exact ⟨FileSystem.write_same _ _ _, fun p hp => FileSystem.write_other _ _ _ p hp⟩
  · intro hload hsome hw
    rw [present hload hsome]
    simp [osWriteFile, hw]

/-- C19 on the steps of the test: without a file at the location the update is
refused and no file appears; once the file is there its content becomes the
value. -/
theorem UpdateDAGSpec_cases_witness :
    (∃ err, UpdateDAGSpec quietBackend { DAG.zero Unit with Location := "/tmp/test.yaml" }
      "name: test DAG\n" emptyFS = (some err, emptyFS)) ∧
    ∃ fs1, UpdateDAGSpec quietBackend { DAG.zero Unit with Location := "/tmp/test.yaml" }
        "name: test DAG\n" (emptyFS.write "/tmp/test.yaml" "") = (none, fs1) ∧
      fs1 "/tmp/test.yaml" = some "name: test DAG\n" := by
  constructor
  · exact ((UpdateDAGSpec_cases quietBackend { DAG.zero Unit with Location := "/tmp/test.yaml" }
      "name: test DAG\n" emptyFS).2.1 rfl rfl).1
  · have h := (UpdateDAGSpec_cases quietBackend
      { DAG.zero Unit with Location := "/tmp/test.yaml" }
      "name: test DAG\n" (emptyFS.write "/tmp/test.yaml" "")).2.2.2.2 rfl (by decide) rfl
    exact ⟨_, h, FileSystem.write_same _ _ _⟩

theorem filepathExt_yml (p : String) : filepathExt (p ++ ".yml") = ".yml" := by
  have hdata : (p ++ ".yml").data = p.data ++ ['.', 'y', 'm', 'l'] := by
    rw [String.data_append]
  simp [filepathExt, hdata, List.takeWhile]

/-- C20: `CreateDAG(file)` returns an error and leaves the file system as it is
when the extension of `file` is not `.yaml` (as for `.yml` and for a name
without extension) and when there is a file at the path already, which keeps
its content; otherwise it writes the built-in template to `file`, and when the
write goes through the content of the file is the template: one step `step1`
with the command `echo hello`. -/
theorem CreateDAG_cases {σ ν : Type} (B : Backend σ ν) (file : String) (fs : FileSystem) :
    (filepathExt file ≠ ".yaml" → ∃ err, CreateDAG B file fs = (some err, fs)) ∧
    (∀ p, filepathExt (p ++ ".yml") ≠ ".yaml") ∧ filepathExt "test" ≠ ".yaml" ∧
    (∀ content, fs file = some content →
      (∃ err, CreateDAG B file fs = (some err, fs)) ∧
      (CreateDAG B file fs).2 file = some content) ∧
    (filepathExt file = ".yaml" → fs file = none →
      CreateDAG B file fs = osWriteFile B fs file _DAGTemplate ∧
      (B.writeFileError file = none →
        CreateDAG B file fs = (none, fs.write file _DAGTemplate) ∧
        (CreateDAG B file fs).2 file = some _DAGTemplate) ∧
      (∀ err, B.writeFileError file = some err → CreateDAG B file fs = (some err, fs))) ∧
    _DAGTemplate = "steps:\n  - name: step1\n    command: echo hello\n" := by
  refine ⟨?_, ?_, by decide, ?_, ?_, rfl⟩
  · intro hext
    exact ⟨.message "the config file must be a yaml file with .yaml extension",
      by simp [CreateDAG, validateLocation, hext]⟩
  · intro p
    rw [filepathExt_yml]
    decide
  · intro content hfile
    by_cases hext : filepathExt file = ".yaml"
    · have h : CreateDAG B file fs =
          (some (.message ("the config file " ++ file ++ " already exists")), fs) := by
        simp [CreateDAG, validateLocation, hext, FileExists, hfile]
      exact ⟨⟨_, h⟩, by rw [h]; exact hfile⟩
    · have h : CreateDAG B file fs =
          (some (.message "the config file must be a yaml file with .yaml extension"), fs) := by
        simp [CreateDAG, validateLocation, hext]
      exact ⟨⟨_, h⟩, by rw [h]; exact hfile⟩
  · intro hext hfile
    have h : CreateDAG B file fs = osWriteFile B fs file _DAGTemplate := by
      simp [CreateDAG, validateLocation, hext, FileExists, hfile]
    refine ⟨h, ?_, ?_⟩
    · intro hw
      have h1 : CreateDAG B file fs = (none, fs.write file _DAGTemplate) := by
        rw [h]; simp [osWriteFile, hw]
      exact ⟨h1, by rw [h1]; exact FileSystem.write_same _ _ _⟩
    · intro err hw
      rw [h]; simp [osWriteFile, hw]

/-- C20 on the names of the test: `test` is refused, `test.yaml` is created with
the template, and a second creation is refused. -/
theorem CreateDAG_cases_witness :
    (∃ err, CreateDAG quietBackend "/tmp/test" emptyFS = (some err, emptyFS)) ∧
    CreateDAG quietBackend "/tmp/test.yaml" emptyFS =
      (none, emptyFS.write "/tmp/test.yaml" _DAGTemplate) ∧
    ∃ err, CreateDAG quietBackend "/tmp/test.yaml"
      (emptyFS.write "/tmp/test.yaml" _DAGTemplate) =
        (some err, emptyFS.write "/tmp/test.yaml" _DAGTemplate) :=
  ⟨(CreateDAG_cases quietBackend "/tmp/test" emptyFS).1 (by decide),
    (((CreateDAG_cases quietBackend "/tmp/test.yaml" emptyFS).2.2.2.2.1 (by decide) rfl).2.1
      rfl).1,
    ((CreateDAG_cases quietBackend "/tmp/test.yaml"
      (emptyFS.write "/tmp/test.yaml" _DAGTemplate)).2.2.2.1 _DAGTemplate (by decide)).1⟩

/-! ## C21: `MoveDAG` -/

theorem osRename_error {σ ν : Type} (B : Backend σ ν) (fs : FileSystem)
    (oldpath newpath : String) (err : GoError)
    (h : (osRename B fs oldpath newpath).1 = some err) :
    (osRename B fs oldpath newpath).2 = fs := by
  unfold osRename at h ⊢
  cases hf : fs oldpath with
  | none => simp
  | some content =>
    simp only [hf] at h ⊢
    cases hr : B.renameError oldpath newpath with
    | none => simp [hr] at h
    | some e => simp

theorem osRename_ok {σ ν : Type} (B : Backend σ ν) (fs : FileSystem)
    (oldpath newpath : String) (h : (osRename B fs oldpath newpath).1 = none) :
    (osRename B fs oldpath newpath).2 = fs.rename oldpath newpath := by
  unfold osRename at h ⊢
  cases hf : fs oldpath with
  | none => simp [hf] at h
  | some content =>
    simp only [hf] at h ⊢
    cases hr : B.renameError oldpath newpath with
    | none => simp
    | some e => simp [hr] at h

/-- C21: `MoveDAG(old, new)` checks the new location first: when the extension
of `new` is not `.yaml` it returns an error, the file system is as before and
the database is not called; when `os.Rename` fails its error is returned, the
file system is as before and the database is not called; the only call to the
database is `MoveData(old, new)`, and it is made only when the extension is
`.yaml` and the rename has succeeded, in which case the file has moved and the
error of `MoveData` is returned. -/
theorem MoveDAG_cases {σ ν : Type} (B : Backend σ ν) (oldDAGPath newDAGPath : String)
    (fs : FileSystem) :
    (filepathExt newDAGPath ≠ ".yaml" →
      ∃ err, MoveDAG B oldDAGPath newDAGPath fs = ((some err, fs), [])) ∧
    (∀ err, filepathExt newDAGPath = ".yaml" →
      (osRename B fs oldDAGPath newDAGPath).1 = some err →
      MoveDAG B oldDAGPath newDAGPath fs = ((some err, fs), [])) ∧
    (∀ c ∈ (MoveDAG B oldDAGPath newDAGPath fs).2,
      c = .moveData oldDAGPath newDAGPath ∧ filepathExt newDAGPath = ".yaml" ∧
      (osRename B fs oldDAGPath newDAGPath).1 = none) ∧
    (filepathExt newDAGPath = ".yaml" → (osRename B fs oldDAGPath newDAGPath).1 = none →
      MoveDAG B oldDAGPath newDAGPath fs =
        ((B.moveData oldDAGPath newDAGPath, fs.rename oldDAGPath newDAGPath),
          [.moveData oldDAGPath newDAGPath])) := by
  refine ⟨?_, ?_, ?_, ?_⟩
  · intro hext
    exact ⟨.message "the config file must be a yaml file with .yaml extension",
      by simp [MoveDAG, validateLocation, hext]⟩
  · intro err hext hren
    simp [MoveDAG, validateLocation, hext, hren, osRename_error B fs _ _ err hren]
  · intro c hc
    by_cases hext : filepathExt newDAGPath = ".yaml"
    · cases hren : (osRename B fs oldDAGPath newDAGPath).1 with
      | some err => simp [MoveDAG, validateLocation, hext, hren] at hc
      | none =>
        simp [MoveDAG, validateLocation, hext, hren] at hc
        exact ⟨hc, hext, rfl⟩
    · simp [MoveDAG, validateLocation, hext] at hc
  · intro hext hren
    simp [MoveDAG, validateLocation, hext, hren, osRename_ok B fs _ _ hren]

theorem MoveDAG_cases_witness :
    (∃ err, MoveDAG quietBackend "/tmp/rename_dag.yaml" "invalid-config-name"
      (emptyFS.write "/tmp/rename_dag.yaml" _DAGTemplate) =
        ((some err, emptyFS.write "/tmp/rename_dag.yaml" _DAGTemplate), [])) ∧
    MoveDAG quietBackend "/tmp/rename_dag.yaml" "/tmp/rename_dag_renamed.yaml"
      (emptyFS.write "/tmp/rename_dag.yaml" _DAGTemplate) =
        ((none, (emptyFS.write "/tmp/rename_dag.yaml" _DAGTemplate).rename
          "/tmp/rename_dag.yaml" "/tmp/rename_dag_renamed.yaml"),
          [.moveData "/tmp/rename_dag.yaml" "/tmp/rename_dag_renamed.yaml"]) ∧
    MoveDAG quietBackend "/tmp/missing.yaml" "/tmp/rename_dag_renamed.yaml" emptyFS =
      ((some (.message
        "rename /tmp/missing.yaml /tmp/rename_dag_renamed.yaml: no such file or directory"),
        emptyFS), []) :=
  ⟨(MoveDAG_cases quietBackend "/tmp/rename_dag.yaml" "invalid-config-name"
      (emptyFS.write "/tmp/rename_dag.yaml" _DAGTemplate)).1 (by decide),
    (MoveDAG_cases quietBackend "/tmp/rename_dag.yaml" "/tmp/rename_dag_renamed.yaml"
      (emptyFS.write "/tmp/rename_dag.yaml" _DAGTemplate)).2.2.2 (by decide) rfl,
    (MoveDAG_cases quietBackend "/tmp/missing.yaml" "/tmp/rename_dag_renamed.yaml"
      emptyFS).2.1 _ (by decide) rfl⟩

/-! ## C22 – C23: the child processes and `Kill` -/

theorem Start_commands {σ : Type} (X : Exec) (d : DAG σ) (binPath workDir params : String)
    (environ : List String) :
    (Start X d binPath workDir params environ).2 =
      [{ Args := binPath :: ((if params ≠ "" then ["start", "--params=\"" ++ params ++ "\""]
          else ["start"]) ++ [d.Location]),
         Dir := workDir, Env := environ, SysProcAttr := some SysProcAttrForSetpgid }] := by
  simp only [Start, execCommand]
  split <;> rfl

theorem Retry_commands {σ : Type} (X : Exec) (d : DAG σ) (binPath workDir reqId : String)
    (environ : List String) (written : Bool) :
    (Retry X d binPath workDir reqId environ written).2 =
      [{ Args := [binPath, "retry", "--req=" ++ reqId, d.Location],
         Dir := workDir, Env := environ, SysProcAttr := some SysProcAttrForSetpgid }] := by
  rfl

theorem Restart_commands {σ : Type} (X : Exec) (d : DAG σ) (bin workDir : String)
    (environ : List String) :
    (Restart X d bin workDir environ).2 =
      [{ Args := [bin, "restart", d.Location],
         Dir := workDir, Env := environ, SysProcAttr := some SysProcAttrForSetpgid }] := by
  simp only [Restart, execCommand]
  split <;> rfl

/-- C22: `Start` and `Retry` call `Start` on exactly one command.  After the
name of the binary its arguments are `start`, `Location` when `params` is
empty, `start`, `--params="p"`, `Location` for non-empty params `p`, and
`retry`, `--req=r`, `Location` for `Retry` with request id `r`; the location of
the DAG is the last argument and the working directory is `workDir`. -/
theorem Start_Retry_argv {σ : Type} (X : Exec) (d : DAG σ) (binPath workDir : String)
    (environ : List String) :
    (Start X d binPath workDir "" environ).2.map (fun c => (c.Args, c.Dir)) =
      [(binPath :: ["start", d.Location], workDir)] ∧
    (∀ p, p ≠ "" →
      (Start X d binPath workDir p environ).2.map (fun c => (c.Args, c.Dir)) =
        [(binPath :: ["start", "--params=\"" ++ p ++ "\"", d.Location], workDir)]) ∧
    (∀ r written,
      (Retry X d binPath workDir r environ written).2.map (fun c => (c.Args, c.Dir)) =
        [(binPath :: ["retry", "--req=" ++ r, d.Location], workDir)]) ∧
    (∀ p, ∀ c ∈ (Start X d binPath workDir p environ).2,
      c.Args.getLast? = some d.Location ∧ c.Dir = workDir) ∧
    (∀ r written, ∀ c ∈ (Retry X d binPath workDir r environ written).2,
      c.Args.getLast? = some d.Location ∧ c.Dir = workDir) := by
  refine ⟨?_, ?_, ?_, ?_, ?_⟩
  · rw [Start_commands]
    simp
  · intro p hp
    rw [Start_commands]
    simp [hp]
  · intro r written
    rw [Retry_commands]
    simp
  · intro p c hc
    rw [Start_commands] at hc
    simp only [List.mem_singleton] at hc
    subst hc
    by_cases hp : p = "" <;> simp [hp]
  · intro r written c hc
    rw [Retry_commands] at hc
    simp only [List.mem_singleton] at hc
    subst hc
    simp

theorem Start_Retry_argv_witness :
    (Start { start := fun _ => none, wait := fun _ => none }
      { DAG.zero Unit with Location := "/dags/test.yaml" } "/usr/bin/dagu" "/work" "x y"
      ["HOME=/root"]).2.map (fun c => (c.Args, c.Dir)) =
      [(["/usr/bin/dagu", "start", "--params=\"x y\"", "/dags/test.yaml"], "/work")] :=
  (Start_Retry_argv { start := fun _ => none, wait := fun _ => none }
    { DAG.zero Unit with Location := "/dags/test.yaml" } "/usr/bin/dagu" "/work"
    ["HOME=/root"]).2.1 "x y" (by decide)

/-- C23: for a pid other than the least `int`, `utils.Kill(pid, sig)` of
`utils_unix.go` makes exactly one system call, `kill(-pid, sig)`, and returns
the error of that call (for the least `int` the negation of Go gives the pid
back); and every command that `Start`, `Retry` and `Restart` start has
`Setpgid = true` and `Pgid = 0`. -/
theorem Kill_process_group (sysKill : Int → Int → Option GoError) (pid sig : Int) :
    (-(2 : Int) ^ 63 < pid → pid < 2 ^ 63 →
      Kill sysKill pid sig = (sysKill (-pid) sig, [.kill (-pid) sig])) ∧
    Kill sysKill (-(2 : Int) ^ 63) sig =
      (sysKill (-(2 : Int) ^ 63) sig, [.kill (-(2 : Int) ^ 63) sig]) ∧
    (∀ {σ : Type} (X : Exec) (d : DAG σ) (binPath workDir arg : String)
      (environ : List String) (written : Bool) (c : Cmd),
      c ∈ (Start X d binPath workDir arg environ).2 ∨
      c ∈ (Retry X d binPath workDir arg environ written).2 ∨
      c ∈ (Restart X d binPath workDir environ).2 →
      c.SysProcAttr = some { Setpgid := true, Pgid := 0 }) := by
  refine ⟨?_, ?_, ?_⟩
  · intro h1 h2
    have hw : wrapInt64 (-pid) = -pid := by
      unfold wrapInt64
      omega
    simp [Kill, hw]
  · have hw : wrapInt64 (-(-(2 : Int) ^ 63)) = -(2 : Int) ^ 63 := by
      unfold wrapInt64
      norm_num
    simp only [Kill, hw]
  · intro σ X d binPath workDir arg environ written c hc
    rw [Start_commands, Retry_commands, Restart_commands] at hc
    simp only [List.mem_singleton] at hc
    rcases hc with hc | hc | hc <;> subst hc <;> rfl

theorem Kill_process_group_witness :
    Kill (fun p _ => if p = -4242 then none else some (.message "no such process")) 4242 15 =
      (none, [.kill (-4242) 15]) :=
  (Kill_process_group (fun p _ => if p = -4242 then none else some (.message "no such process"))
    4242 15).1 (by decide) (by decide)

/-! ## C24: `nextTick` -/

/-- C24: for every time `t`, `nextTick t` is a multiple of one minute, it is
strictly greater than `t`, and no multiple of one minute strictly greater than
`t` is smaller; it is `truncate(t, 1 minute) + 1 minute`; for `t` on a minute
boundary it is `t + 1 minute`, and fifty seconds after a minute boundary (as at
01:00:50) it is the next minute boundary (01:01:00). -/
theorem nextTick_least_minute (t : Int) :
    timeMinute ∣ nextTick t ∧ t < nextTick t ∧
    (∀ m, timeMinute ∣ m → t < m → nextTick t ≤ m) ∧
    nextTick t = timeTruncate t timeMinute + timeMinute ∧
    (timeMinute ∣ t → nextTick t = t + timeMinute) ∧
    (timeMinute ∣ t → nextTick (t + 50 * 1000000000) = t + timeMinute) := by
  unfold nextTick timeTruncate timeMinute
  refine ⟨?_, ?_, ?_, rfl, ?_, ?_⟩
  · omega
  · omega
  · intro m hm hlt
    omega
  · intro h
    omega
  · intro h
    omega

theorem nextTick_least_minute_witness :
    nextTick (3600 * 1000000000 + 50 * 1000000000) = 3660 * 1000000000 :=
  (nextTick_least_minute (3600 * 1000000000)).2.2.2.2.2 (by decide)

/-! ## C30: `nameWithExt` -/

theorem stringsHasSuffix_append (s suffix : String) :
    stringsHasSuffix (s ++ suffix) suffix = true := by
  unfold stringsHasSuffix
  rw [List.isSuffixOf_iff_suffix, String.data_append]
  exact List.suffix_append _ _

theorem stringsTrimSuffix_append (s suffix : String) :
    stringsTrimSuffix (s ++ suffix) suffix = s := by
  unfold stringsTrimSuffix
  rw [if_pos (stringsHasSuffix_append s suffix), String.data_append]
  simp

theorem append_of_stringsHasSuffix (s suffix : String)
    (h : stringsHasSuffix s suffix = true) : stringsTrimSuffix s suffix ++ suffix = s := by
  unfold stringsHasSuffix at h
  rw [List.isSuffixOf_iff_suffix] at h
  obtain ⟨t, ht⟩ := h
  have hs : s = String.mk t ++ suffix := by
    apply String.ext
    rw [String.data_append, ← ht]
  rw [hs, stringsTrimSuffix_append]

theorem filepathExt_yaml (p : String) : filepathExt (p ++ ".yaml") = ".yaml" := by
  have hdata : (p ++ ".yaml").data = p.data ++ ['.', 'y', 'a', 'm', 'l'] := by
    rw [String.data_append]
  simp [filepathExt, hdata, List.takeWhile]

/-- C30: for every string `name`, `nameWithExt name` ends with `.yaml`, applying
`nameWithExt` again changes nothing, a name that ends with `.yaml` is returned
as it is, and `validateLocation` accepts `nameWithExt name`; so the "new"
action of `HandlePostList` never gets the extension error from `CreateDAG`: it
gets the error that the file exists already, or the result of writing the
template. -/
theorem nameWithExt_yaml (name : String) :
    stringsHasSuffix (nameWithExt name) ".yaml" = true ∧
    nameWithExt (nameWithExt name) = nameWithExt name ∧
    (stringsHasSuffix name ".yaml" = true → nameWithExt name = name) ∧
    validateLocation (nameWithExt name) = none ∧
    (∀ {σ ν : Type} (B : Backend σ ν) (filepathJoin : String → String → String)
      (DAGsDir value : String) (fs : FileSystem),
      HandlePostListNew B filepathJoin DAGsDir value fs =
        if FileExists fs (nameWithExt (filepathJoin DAGsDir value)) then
          (some (.message ("the config file " ++ nameWithExt (filepathJoin DAGsDir value) ++
            " already exists")), fs)
        else osWriteFile B fs (nameWithExt (filepathJoin DAGsDir value)) _DAGTemplate) := by
  have hval : ∀ n, validateLocation (nameWithExt n) = none := by
    intro n
    simp [validateLocation, nameWithExt, filepathExt_yaml]
  refine ⟨stringsHasSuffix_append _ _, ?_, ?_, hval name, ?_⟩
  · show stringsTrimSuffix (stringsTrimSuffix name ".yaml" ++ ".yaml") ".yaml" ++ ".yaml" = _
    rw [stringsTrimSuffix_append]
    rfl
  · intro h
    exact append_of_stringsHasSuffix name ".yaml" h
  · intro σ ν B filepathJoin DAGsDir value fs
    simp only [HandlePostListNew, CreateDAG, hval]

theorem nameWithExt_yaml_witness :
    nameWithExt "/dags/test.yaml" = "/dags/test.yaml" ∧
    nameWithExt "/dags/test" = "/dags/test.yaml" :=
  ⟨(nameWithExt_yaml "/dags/test.yaml").2.2.1 (by decide), by decide⟩

/-! ## C27: `buildStep` on executor maps that are not well formed -/

/-- C27: `buildStep` does not return on every executor map.  For a step
definition with a name and a command whose executor is a map, it panics with a
failed type assertion when the first entry the loop visits has the key `type`
and a value that is no string, and when that entry has a key that is no
string. -/
theorem buildStep_executor_panics {σ : Type} (deps : Deps σ) (b : builder) (env : Env)
    (vars : List String) (sdef : stepDef) (k v : YamlValue)
    (rest : List (YamlValue × YamlValue))
    (hn : sdef.Name ≠ "") (hc : sdef.Command ≠ "")
    (hex : sdef.Executor = .map ((k, v) :: rest)) :
    ((k = .str "type" ∧ ∀ s, v ≠ .str s) →
      buildStep deps b env vars sdef =
        .error (.panic ("interface conversion: interface \x7b\x7d is " ++
          runtimeTypeName v ++ ", not string"))) ∧
    ((∀ s, k ≠ .str s) →
      buildStep deps b env vars sdef =
        .error (.panic ("interface conversion: interface \x7b\x7d is " ++
          runtimeTypeName k ++ ", not string"))) := by
  have ha : assertStepDef sdef = none := by simp [assertStepDef, hn, hc]
  constructor
  · rintro ⟨hk, hv⟩
    subst hk
    have hs : assertString v = .error (.panic
        ("interface conversion: interface \x7b\x7d is " ++ runtimeTypeName v ++
          ", not string")) := by
      cases v with
      | str s => exact absurd rfl (hv s)
      | _ => rfl
    simp [buildStep, ha, hex, buildExecutor, executorEntries, eqString, hs]
  · intro hk
    have hs : assertString k = .error (.panic
        ("interface conversion: interface \x7b\x7d is " ++ runtimeTypeName k ++
          ", not string")) := by
      cases k with
      | str s => exact absurd rfl (hk s)
      | _ => rfl
    have he : eqString k "type" = false := by
      cases k with
      | str s => exact absurd rfl (hk s)
      | _ => rfl
    simp [buildStep, ha, hex, buildExecutor, executorEntries, he, hs]

theorem buildStep_executor_panics_witness :
    buildStep sampleDeps builder.zero emptyEnv []
      { stepDef.simple "step1" "echo hello" with Executor := .map [(.str "type", .int 5)] } =
      .error (.panic "interface conversion: interface \x7b\x7d is int, not string") ∧
    buildStep sampleDeps builder.zero emptyEnv []
      { stepDef.simple "step1" "echo hello" with Executor := .map [(.int 1, .str "x")] } =
      .error (.panic "interface conversion: interface \x7b\x7d is int, not string") :=
  ⟨(buildStep_executor_panics sampleDeps builder.zero emptyEnv []
      { stepDef.simple "step1" "echo hello" with Executor := .map [(.str "type", .int 5)] }
      (.str "type") (.int 5) [] (by decide) (by decide) rfl).1
      ⟨rfl, fun s h => by cases h⟩,
    (buildStep_executor_panics sampleDeps builder.zero emptyEnv []
      { stepDef.simple "step1" "echo hello" with Executor := .map [(.int 1, .str "x")] }
      (.int 1) (.str "x") [] (by decide) (by decide) rfl).2
      (fun s h => by cases h)⟩

/-! ## C28: `noSetenv` -/

theorem evalVariables_noSetenv {σ : Type} (deps : Deps σ) (env : Env)
    (vals : List (String × String)) :
    ∀ (vars : GoMap String),
      (evalVariables deps true vals vars env).2 = env ∧
      (∀ ps, evalAllIn deps.parseVariable env (vals.map Prod.snd) = .ok ps →
        (evalVariables deps true vals vars env).1 =
          .ok (((vals.map Prod.fst).zip ps).foldl (fun m kv => GoMap.set m kv.1 kv.2) vars)) := by
  induction vals with
  | nil =>
    intro vars
    refine ⟨rfl, ?_⟩
    intro ps h
    simp only [List.map_nil, evalAllIn, Except.ok.injEq] at h
    subst h
    rfl
  | cons kv rest ih =>
    intro vars
    obtain ⟨key, val⟩ := kv
    cases hp : deps.parseVariable env val with
    | error e =>
      refine ⟨by simp [evalVariables, hp], ?_⟩
      intro ps h
      simp [evalAllIn, hp] at h
    | ok parsed =>
      have hstep : evalVariables deps true ((key, val) :: rest) vars env =
          evalVariables deps true rest (GoMap.set vars key parsed) env := by
        simp [evalVariables, hp]
      rw [hstep]
      refine ⟨(ih _).1, ?_⟩
      intro ps h
      simp only [List.map_cons, evalAllIn, hp] at h
      cases hr : evalAllIn deps.parseVariable env (rest.map Prod.snd) with
      | error e => simp [hr] at h
      | ok ps1 =>
        simp only [hr, Except.ok.injEq] at h
        subst h
        rw [(ih _).2 ps1 hr]
        rfl

theorem parseParametersLoop_noSetenv {σ : Type} (deps : Deps σ) (b : builder)
    (hno : b.noSetenv = true) (eval : Bool) (env : Env) (tokens : List String) :
    ∀ (i : Nat) (ret envs : List String),
      (parseParametersLoop deps b eval i tokens ret envs env).2 = env ∧
      (∀ vs, evalAllIn (evalToken deps eval) env tokens = .ok vs →
        (parseParametersLoop deps b eval i tokens ret envs env).1 = .ok (ret ++ vs, envs)) := by
  induction tokens with
  | nil =>
    intro i ret envs
    refine ⟨rfl, ?_⟩
    intro vs h
    simp only [evalAllIn, Except.ok.injEq] at h
    subst h
    simp [parseParametersLoop]
  | cons t rest ih =>
    intro i ret envs
    cases hp : evalToken deps eval env t with
    | error e =>
      refine ⟨by simp [parseParametersLoop, parameterStep, hp], ?_⟩
      intro vs h
      simp [evalAllIn, hp] at h
    | ok v =>
      have hstep : parseParametersLoop deps b eval i (t :: rest) ret envs env =
          parseParametersLoop deps b eval (i + 1) rest (ret ++ [v]) envs env := by
        simp [parseParametersLoop, parameterStep, hp, hno]
      rw [hstep]
      refine ⟨(ih _ _ _).1, ?_⟩
      intro vs h
      simp only [evalAllIn, hp] at h
      cases hr : evalAllIn (evalToken deps eval) env rest with
      | error e => simp [hr] at h
      | ok vs1 =>
        simp only [hr, Except.ok.injEq] at h
        subst h
        rw [(ih _ _ _).2 vs1 hr]
        simp

/-- C28: with `noSetenv` set, the environment after `loadVariables` and after
`parseParameters` is the environment before the call, for every input; and the
results are still there: when the values collected evaluate, each in the
environment of the call, `loadVariables` returns the map that binds every key
to the value evaluated for it (the last one for a key given twice), and when
the tokens evaluate `parseParameters` returns their values as the params, in
order, with no exports. -/
theorem noSetenv_frame {σ : Type} (deps : Deps σ) (b : builder) (hno : b.noSetenv = true)
    (strVariables : YamlValue) (defaults : List (String × String)) (value : String)
    (eval : Bool) (env : Env) :
    (loadVariables deps b strVariables defaults env).2 = env ∧
    (parseParameters deps b value eval env).2 = env ∧
    (∀ vals ps, collectVariables strVariables defaults = .ok vals →
      evalAllIn deps.parseVariable env (vals.map Prod.snd) = .ok ps →
      ∃ vars, (loadVariables deps b strVariables defaults env).1 = .ok vars ∧
        ∀ k, GoMap.get vars k = lastBinding ((vals.map Prod.fst).zip ps) k) ∧
    (∀ tokens vs, deps.shellwordsParse value = .ok tokens →
      evalAllIn (evalToken deps eval) env tokens = .ok vs →
      (parseParameters deps b value eval env).1 = .ok (vs, [])) := by
  refine ⟨?_, ?_, ?_, ?_⟩
  · unfold loadVariables
    cases hc : collectVariables strVariables defaults with
    | error e => rfl
    | ok vals =>
      simp only [hno]
      exact (evalVariables_noSetenv deps env vals []).1
  · unfold parseParameters
    cases hs : deps.shellwordsParse value with
    | error e => rfl
    | ok tokens => exact (parseParametersLoop_noSetenv deps b hno eval env tokens 0 [] []).1
  · intro vals ps hc hps
    refine ⟨((vals.map Prod.fst).zip ps).foldl (fun m kv => GoMap.set m kv.1 kv.2) [], ?_, ?_⟩
    · unfold loadVariables
      simp only [hc, hno]
      exact (evalVariables_noSetenv deps env vals []).2 ps hps
    · intro k
      rw [get_foldl_set]
      cases lastBinding ((vals.map Prod.fst).zip ps) k <;> rfl
  · intro tokens vs hs hvs
    unfold parseParameters
    simp only [hs]
    simpa using (parseParametersLoop_noSetenv deps b hno eval env tokens 0 [] []).2 vs hvs

theorem noSetenv_frame_witness :
    (loadVariables sampleDeps { builder.zero with noSetenv := true }
      (envList [("FOO", "1"), ("BAR", "2")]) [] emptyEnv).2 = emptyEnv ∧
    (parseParameters sampleDeps { builder.zero with noSetenv := true } "x=1 y" false
      emptyEnv).2 = emptyEnv ∧
    (parseParameters sampleDeps { builder.zero with noSetenv := true } "x=1 y" false
      emptyEnv).1 = .ok (["x=1", "y"], []) :=
  ⟨(noSetenv_frame sampleDeps { builder.zero with noSetenv := true } rfl
      (envList [("FOO", "1"), ("BAR", "2")]) [] "x=1 y" false emptyEnv).1,
    (noSetenv_frame sampleDeps { builder.zero with noSetenv := true } rfl
      (envList [("FOO", "1"), ("BAR", "2")]) [] "x=1 y" false emptyEnv).2.1,
    (noSetenv_frame sampleDeps { builder.zero with noSetenv := true } rfl
      (envList [("FOO", "1"), ("BAR", "2")]) [] "x=1 y" false emptyEnv).2.2.2
      ["x=1", "y"] ["x=1", "y"] rfl rfl⟩

/-! ## C26: `buildEnvVariables` -/

theorem GoMap.keys_set {α : Type} (m : GoMap α) (k : String) (v : α) :
    (GoMap.set m k v).map Prod.fst =
      if k ∈ m.map Prod.fst then m.map Prod.fst else m.map Prod.fst ++ [k] := by
  induction m with
  | nil => simp [GoMap.set]
  | cons kv rest ih =>
    obtain ⟨k0, v0⟩ := kv
    by_cases h0 : k0 = k
    · subst h0
      simp [GoMap.set]
    · have h1 : ¬ k = k0 := fun h => h0 h.symm
      by_cases hin : k ∈ rest.map Prod.fst
      · simp only [GoMap.set, if_neg h0, List.map_cons, ih, if_pos hin, List.mem_cons, hin,
          or_true, if_true]
      · simp only [GoMap.set, if_neg h0, List.map_cons, ih, if_neg hin, List.mem_cons, h1, hin,
          or_self, if_false, List.cons_append]

theorem GoMap.nodup_set {α : Type} (m : GoMap α) (k : String) (v : α)
    (h : (m.map Prod.fst).Nodup) : ((GoMap.set m k v).map Prod.fst).Nodup := by
  rw [GoMap.keys_set]
  by_cases hin : k ∈ m.map Prod.fst
  · rw [if_pos hin]
    exact h
  · rw [if_neg hin]
    exact List.Nodup.append h (List.nodup_singleton k) (by simpa using hin)

theorem evalVariables_nodup {σ : Type} (deps : Deps σ) (noSetenv : Bool)
    (vals : List (String × String)) :
    ∀ (vars vars1 : GoMap String) (env : Env), (vars.map Prod.fst).Nodup →
      (evalVariables deps noSetenv vals vars env).1 = .ok vars1 →
      (vars1.map Prod.fst).Nodup := by
  induction vals with
  | nil =>
    intro vars vars1 env hnd h
    simp only [evalVariables, Except.ok.injEq] at h
    subst h
    exact hnd
  | cons kv rest ih =>
    intro vars vars1 env hnd h
    obtain ⟨key, val⟩ := kv
    unfold evalVariables at h
    cases hp : deps.parseVariable env val with
    | error e => simp [hp] at h
    | ok parsed =>
      simp only [hp] at h
      by_cases hno : noSetenv = true
      · simp only [hno, if_true] at h
        exact ih _ _ _ (GoMap.nodup_set vars key parsed hnd) (by simpa [hno] using h)
      · simp only [hno] at h
        cases hs : osSetenv env key parsed with
        | error e => simp [hs] at h
        | ok env2 =>
          simp only [hs] at h
          exact ih _ _ _ (GoMap.nodup_set vars key parsed hnd) (by simpa [hno] using h)

theorem GoMap.get_eq_some_iff {α : Type} (m : GoMap α) (h : (m.map Prod.fst).Nodup)
    (k : String) (v : α) : GoMap.get m k = some v ↔ (k, v) ∈ m := by
  induction m with
  | nil => simp [GoMap.get]
  | cons kv rest ih =>
    obtain ⟨k0, v0⟩ := kv
    simp only [List.map_cons, List.nodup_cons] at h
    obtain ⟨hnot, hnd⟩ := h
    by_cases h0 : k0 = k
    · subst h0
      have hno : ∀ w, (k0, w) ∉ rest := fun w hw => hnot (List.mem_map.mpr ⟨(k0, w), hw, rfl⟩)
      simp only [GoMap.get, if_true, Option.some.injEq, List.mem_cons, Prod.mk.injEq, true_and]
      constructor
      · intro hv
        exact Or.inl hv.symm
      · rintro (hv | hv)
        · exact hv.symm
        · exact absurd hv (hno v)
    · have h1 : ¬ k = k0 := fun h => h0 h.symm
      simp only [GoMap.get, if_neg h0, ih hnd, List.mem_cons, Prod.mk.injEq, h1, false_and,
        false_or]

/-- C26: when the env of the definition evaluates to the map `vars`, and the
loop over `vars` visits each of its entries once, `buildEnvVariables` succeeds
and `d.Env` is one entry `K=V` for every key `K` of `vars` with its value `V`
(each key once), followed by the entries of the base configuration, in their
order, whose text before the first `=` is not a key of `vars`; without a base
configuration nothing follows.  So an entry of the base configuration whose
key is a key of `vars` is not among the entries taken from the base. -/
theorem buildEnvVariables_env {σ : Type} (deps : Deps σ) (C : Context σ) (b : builder)
    (baseConfig : Option (DAG σ)) (cdef : configDefinition) (d : DAG σ) (env : Env)
    (vars : GoMap String) (hperm : (C.rangeOrder vars).Perm vars)
    (hload : (loadVariables deps b cdef.Env b.defaultEnv env).1 = .ok vars) :
    (buildEnvVariables deps C b baseConfig cdef d env).1 = none ∧
    (buildEnvVariables deps C b baseConfig cdef d env).2.2 =
      (loadVariables deps b cdef.Env b.defaultEnv env).2 ∧
    (buildEnvVariables deps C b baseConfig cdef d env).2.1.Env =
      (C.rangeOrder vars).map (fun kv => kv.1 ++ "=" ++ kv.2) ++
        (match baseConfig with
          | none => []
          | some base => base.Env.filter (fun e => (GoMap.get vars (splitAtEq e).1).isNone)) ∧
    ((C.rangeOrder vars).map Prod.fst).Nodup ∧
    (∀ k v, (k, v) ∈ C.rangeOrder vars ↔ GoMap.get vars k = some v) ∧
    (∀ base e, baseConfig = some base → e ∈ base.Env →
      (GoMap.get vars (splitAtEq e).1).isSome →
      e ∉ base.Env.filter (fun e => (GoMap.get vars (splitAtEq e).1).isNone)) := by
  have hnd : (vars.map Prod.fst).Nodup := by
    unfold loadVariables at hload
    cases hc : collectVariables cdef.Env b.defaultEnv with
    | error e => simp [hc] at hload
    | ok vals =>
      simp only [hc] at hload
      exact evalVariables_nodup deps b.noSetenv vals [] vars env (by simp) hload
  have hrun : loadVariables deps b cdef.Env b.defaultEnv env =
      (.ok vars, (loadVariables deps b cdef.Env b.defaultEnv env).2) := by
    rw [← hload]
  refine ⟨?_, ?_, ?_, ?_, ?_, ?_⟩
  · unfold buildEnvVariables
    rw [hrun]
    cases baseConfig <;> rfl
  · unfold buildEnvVariables
    generalize loadVariables deps b cdef.Env b.defaultEnv env = r at hload
    obtain ⟨r1, r2⟩ := r
    simp only at hload
    subst hload
    cases baseConfig <;> rfl
  · unfold buildEnvVariables
    rw [hrun]
    cases baseConfig with
    | none => simp [buildConfigEnv]
    | some base => simp [buildConfigEnv]
  · exact (List.Perm.nodup_iff (hperm.map Prod.fst)).mpr hnd
  · intro k v
    rw [hperm.mem_iff, GoMap.get_eq_some_iff vars hnd]
  · intro base e _ _ hsome hmem
    have hnone := (List.mem_filter.mp hmem).2
    cases hg : GoMap.get vars (splitAtEq e).1 with
    | none => simp [hg] at hsome
    | some v => simp [hg] at hnone

theorem buildEnvVariables_env_witness :
    (buildEnvVariables sampleDeps sampleContext builder.zero
      (some { DAG.zero Unit with Env := ["FOO=base", "BAZ=3", "PLAIN"] })
      { configDefinition.zero with Env := envList [("FOO", "1"), ("BAR", "2")] }
      (DAG.zero Unit) emptyEnv).2.1.Env = ["FOO=1", "BAR=2", "BAZ=3", "PLAIN"] :=
  (buildEnvVariables_env sampleDeps sampleContext builder.zero
    (some { DAG.zero Unit with Env := ["FOO=base", "BAZ=3", "PLAIN"] })
    { configDefinition.zero with Env := envList [("FOO", "1"), ("BAR", "2")] }
    (DAG.zero Unit) emptyEnv [("FOO", "1"), ("BAR", "2")] (List.Perm.refl _) rfl).2.2.1

/-! ## C29: `buildHandlers` -/

theorem buildHandlers_eq_run {σ : Type} (deps : Deps σ) (C : Context σ) (b : builder)
    (env : Env) (hdef : handlerOnDef) (d : DAG σ) :
    buildHandlers deps C b env hdef d =
      runHandlerBlocks deps b env (handlerBlocks C hdef) d := by
  simp only [buildHandlers, runHandlerBlocks, handlerBlocks]
  repeat' split
  all_goals simp_all

theorem executorEntries_error (m : List (YamlValue × YamlValue)) :
    ∀ (ec : ExecutorConfig) (f : Failure), executorEntries m ec = .error f →
      ∃ msg, f = .panic msg := by
  induction m with
  | nil => intro ec f h; simp [executorEntries] at h
  | cons kv rest ih =>
    intro ec f h
    obtain ⟨k, v⟩ := kv
    unfold executorEntries at h
    by_cases hk : eqString k "type" = true
    · simp only [hk, if_true] at h
      cases v with
      | str t => exact ih _ f (by simpa [assertString] using h)
      | _ =>
        simp only [assertString, Except.error.injEq] at h
        exact ⟨_, h.symm⟩
    · simp only [hk, Bool.false_eq_true, if_false] at h
      cases k with
      | str ks =>
        simp only [assertString, setConfig] at h
        cases hcfg : ec.Config with
        | none =>
          simp only [hcfg, Except.error.injEq] at h
          exact ⟨_, h.symm⟩
        | some cfg =>
          simp only [hcfg] at h
          exact ih _ f h
      | _ =>
        simp only [assertString, Except.error.injEq] at h
        exact ⟨_, h.symm⟩

theorem invalid_signal_ne_name (s : String) :
    "invalid signal: " ++ s ≠ "step name must be specified" := by
  intro h
  have h1 : ("invalid signal: " ++ s).data.head? = some 'i' := by
    rw [String.data_append]
    rfl
  rw [h] at h1
  exact absurd h1 (by decide)

/-- A step definition with a name never meets the error about the name. -/
theorem buildStep_error_ne_name {σ : Type} (deps : Deps σ) (b : builder) (env : Env)
    (vars : List String) (sdef : stepDef) (hn : sdef.Name ≠ "") :
    buildStep deps b env vars sdef ≠ .error (.error "step name must be specified") := by
  intro h
  unfold buildStep at h
  by_cases hc : sdef.Command = ""
  · have ha : assertStepDef sdef = some "step command must be specified" := by
      simp [assertStepDef, hn, hc]
    simp only [ha, Except.error.injEq, Failure.error.injEq] at h
    exact absurd h (by decide)
  · have ha : assertStepDef sdef = none := by simp [assertStepDef, hn, hc]
    simp only [ha] at h
    cases hex : buildExecutor sdef.Executor with
    | error f =>
      simp only [hex, Except.error.injEq] at h
      subst h
      cases hv : sdef.Executor with
      | map m =>
        rw [hv] at hex
        obtain ⟨msg, hmsg⟩ := executorEntries_error m _ _ hex
        cases hmsg
      | null => rw [hv] at hex; cases hex
      | str t => rw [hv] at hex; cases hex
      | int n => rw [hv] at hex; simp [buildExecutor] at hex
      | bool n => rw [hv] at hex; simp [buildExecutor] at hex
      | float n => rw [hv] at hex; simp [buildExecutor] at hex
      | list n => rw [hv] at hex; simp [buildExecutor] at hex
    | ok ec =>
      simp only [hex] at h
      cases hs : sdef.SignalOnStop with
      | none => simp [hs] at h
      | some sig =>
        simp only [hs, SignalNum] at h
        by_cases h0 : deps.unixSignalNum sig = 0
        · simp only [h0, if_true, Except.error.injEq, Failure.error.injEq] at h
          exact invalid_signal_ne_name sig h
        · simp [h0] at h

/-- A step definition without a command is turned down with an error. -/
theorem buildStep_no_command {σ : Type} (deps : Deps σ) (b : builder) (env : Env)
    (vars : List String) (sdef : stepDef) (hc : sdef.Command = "") :
    ∃ msg, buildStep deps b env vars sdef = .error (.error msg) := by
  unfold buildStep
  by_cases hn : sdef.Name = ""
  · exact ⟨"step name must be specified", by simp [assertStepDef, hn]⟩
  · exact ⟨"step command must be specified", by simp [assertStepDef, hn, hc]⟩

/-- A valid handler definition under a non-empty name is built. -/
theorem buildStep_valid_handler {σ : Type} (deps : Deps σ) (b : builder) (env : Env)
    (vars : List String) (sdef : stepDef) (name : String) (hname : name ≠ "")
    (hv : ValidHandlerDef deps sdef) :
    ∃ step, buildStep deps b env vars { sdef with Name := name } = .ok step := by
  obtain ⟨hc, hsig, hex⟩ := hv
  obtain ⟨ec, hec⟩ := buildExecutor_well_formed sdef.Executor hex
  have h := buildStep_of_executor deps b env vars { sdef with Name := name } ec hname hc hec
  rcases Option.eq_none_or_eq_some sdef.SignalOnStop with hs | ⟨sig, hs⟩
  · obtain ⟨step, hstep, -⟩ := h.1 hs
    exact ⟨step, hstep⟩
  · obtain ⟨n, hn⟩ := hsig sig hs
    obtain ⟨step, hstep, -⟩ := h.2.1 sig n hs hn
    exact ⟨step, hstep⟩

/-- The four outcomes of a block. -/
theorem buildHandler_cases {σ : Type} (deps : Deps σ) (b : builder) (env : Env) (name : String)
    (hdef : Option stepDef) (assign : DAG σ → Option Step → DAG σ) (d : DAG σ) :
    (hdef = none ∧ buildHandler deps b env name hdef assign d = (none, d)) ∨
    (∃ sd st, hdef = some sd ∧ buildStep deps b env d.Env { sd with Name := name } = .ok st ∧
      buildHandler deps b env name hdef assign d = (none, assign d (some st))) ∨
    (∃ sd msg, hdef = some sd ∧
      buildStep deps b env d.Env { sd with Name := name } = .error (.error msg) ∧
      buildHandler deps b env name hdef assign d = (some (.error msg), assign d none)) ∨
    (∃ sd msg, hdef = some sd ∧
      buildStep deps b env d.Env { sd with Name := name } = .error (.panic msg) ∧
      buildHandler deps b env name hdef assign d = (some (.panic msg), d)) := by
  cases hdef with
  | none => exact Or.inl ⟨rfl, rfl⟩
  | some sd =>
    cases hr : buildStep deps b env d.Env { sd with Name := name } with
    | ok st => exact Or.inr (Or.inl ⟨sd, st, rfl, hr, by simp [buildHandler, hr]⟩)
    | error f =>
      cases f with
      | error msg => exact Or.inr (Or.inr (Or.inl ⟨sd, msg, rfl, hr, by simp [buildHandler, hr]⟩))
      | panic msg => exact Or.inr (Or.inr (Or.inr ⟨sd, msg, rfl, hr, by simp [buildHandler, hr]⟩))

/-- Blocks whose handler is not given, or whose assignment leaves `g` alone, leave
`g` alone. -/
theorem runHandlerBlocks_frame {σ α : Type} (deps : Deps σ) (b : builder) (env : Env)
    (g : DAG σ → α) (blocks : List (HandlerBlock σ)) :
    ∀ d, (∀ blk ∈ blocks, blk.hdef = none ∨ ∀ d s, g (blk.assign d s) = g d) →
      g (runHandlerBlocks deps b env blocks d).2 = g d := by
  induction blocks with
  | nil => intro d _; rfl
  | cons blk rest ih =>
    intro d h
    have hrest : ∀ blk ∈ rest, blk.hdef = none ∨ ∀ d s, g (blk.assign d s) = g d :=
      fun x hx => h x (by simp [hx])
    have hblk := h blk (by simp)
    unfold runHandlerBlocks
    rcases buildHandler_cases deps b env blk.name blk.hdef blk.assign d with
      ⟨_, hr⟩ | ⟨sd, st, hsd, _, hr⟩ | ⟨sd, msg, hsd, _, hr⟩ | ⟨sd, msg, _, _, hr⟩
    · rw [hr]
      exact ih d hrest
    · rw [hr]
      have hg : ∀ d s, g (blk.assign d s) = g d := by
        rcases hblk with hnone | hg
        · rw [hsd] at hnone; cases hnone
        · exact hg
      show g (runHandlerBlocks deps b env rest (blk.assign d (some st))).2 = g d
      rw [ih _ hrest, hg]
    · rw [hr]
      have hg : ∀ d s, g (blk.assign d s) = g d := by
        rcases hblk with hnone | hg
        · rw [hsd] at hnone; cases hnone
        · exact hg
      exact hg d none
    · rw [hr]

/-- With non-empty names no block fails for want of a step name. -/
theorem runHandlerBlocks_error_ne_name {σ : Type} (deps : Deps σ) (b : builder) (env : Env)
    (blocks : List (HandlerBlock σ)) :
    ∀ d, (∀ blk ∈ blocks, blk.name ≠ "") →
      (runHandlerBlocks deps b env blocks d).1 ≠ some (.error "step name must be specified") := by
  induction blocks with
  | nil => intro d _ h; cases h
  | cons blk rest ih =>
    intro d h
    have hrest : ∀ blk ∈ rest, blk.name ≠ "" := fun x hx => h x (by simp [hx])
    have hname := h blk (by simp)
    unfold runHandlerBlocks
    rcases buildHandler_cases deps b env blk.name blk.hdef blk.assign d with
      ⟨_, hr⟩ | ⟨sd, st, _, _, hr⟩ | ⟨sd, msg, _, hbs, hr⟩ | ⟨sd, msg, _, _, hr⟩
    · rw [hr]
      exact ih d hrest
    · rw [hr]
      exact ih _ hrest
    · rw [hr]
      intro hmsg
      simp only [Option.some.injEq, Failure.error.injEq] at hmsg
      subst hmsg
      exact buildStep_error_ne_name deps b env d.Env { sd with Name := blk.name } hname hbs
    · rw [hr]
      intro hmsg
      cases hmsg

/-- A block whose handler has no command makes the run fail. -/
theorem runHandlerBlocks_no_command {σ : Type} (deps : Deps σ) (b : builder) (env : Env)
    (blocks : List (HandlerBlock σ)) (blk : HandlerBlock σ) (sd : stepDef)
    (hsd : blk.hdef = some sd) (hc : sd.Command = "") :
    ∀ d, blk ∈ blocks → (runHandlerBlocks deps b env blocks d).1 ≠ none := by
  induction blocks with
  | nil => intro d h; simp at h
  | cons blk0 rest ih =>
    intro d hmem
    unfold runHandlerBlocks
    rcases buildHandler_cases deps b env blk0.name blk0.hdef blk0.assign d with
      ⟨hnone, hr⟩ | ⟨sd0, st, hsd0, hbs, hr⟩ | ⟨sd0, msg, _, _, hr⟩ | ⟨sd0, msg, _, _, hr⟩
    · rw [hr]
      rcases List.mem_cons.mp hmem with h0 | h0
      · subst h0
        rw [hsd] at hnone
        cases hnone
      · exact ih d h0
    · rw [hr]
      rcases List.mem_cons.mp hmem with h0 | h0
      · subst h0
        rw [hsd] at hsd0
        cases hsd0
        obtain ⟨msg, hmsg⟩ := buildStep_no_command deps b env d.Env { sd with Name := blk.name } hc
        rw [hmsg] at hbs
        cases hbs
      · exact ih _ h0
    · rw [hr]
      intro h
      cases h
    · rw [hr]
      intro h
      cases h

/-- After a run without failure, the field of a block whose handler is given
holds a step with the name of the block. -/
theorem runHandlerBlocks_built {σ : Type} (deps : Deps σ) (b : builder) (env : Env)
    (g : DAG σ → Option Step) (blk : HandlerBlock σ) (post : List (HandlerBlock σ))
    (sd : stepDef) (hsd : blk.hdef = some sd) (hg : ∀ d s, g (blk.assign d s) = s)
    (hpost : ∀ x ∈ post, ∀ d s, g (x.assign d s) = g d) (pre : List (HandlerBlock σ)) :
    ∀ d, (runHandlerBlocks deps b env (pre ++ blk :: post) d).1 = none →
      ∃ st, g (runHandlerBlocks deps b env (pre ++ blk :: post) d).2 = some st ∧
        st.Name = blk.name := by
  induction pre with
  | nil =>
    intro d hok
    simp only [List.nil_append] at hok ⊢
    unfold runHandlerBlocks at hok ⊢
    rcases buildHandler_cases deps b env blk.name blk.hdef blk.assign d with
      ⟨hnone, hr⟩ | ⟨sd0, st, _, hbs, hr⟩ | ⟨sd0, msg, _, _, hr⟩ | ⟨sd0, msg, _, _, hr⟩
    · rw [hsd] at hnone
      cases hnone
    · rw [hr]
      refine ⟨st, ?_, (buildStep_fields deps b env d.Env _ st hbs).2.2.2.1⟩
      show g (runHandlerBlocks deps b env post (blk.assign d (some st))).2 = some st
      rw [runHandlerBlocks_frame deps b env g post _ (fun x hx => Or.inr (hpost x hx)), hg]
    · rw [hr] at hok
      cases hok
    · rw [hr] at hok
      cases hok
  | cons p pre ih =>
    intro d hok
    simp only [List.cons_append] at hok ⊢
    unfold runHandlerBlocks at hok ⊢
    rcases buildHandler_cases deps b env p.name p.hdef p.assign d with
      ⟨_, hr⟩ | ⟨sd0, st, _, _, hr⟩ | ⟨sd0, msg, _, _, hr⟩ | ⟨sd0, msg, _, _, hr⟩
    · rw [hr] at hok ⊢
      exact ih d hok
    · rw [hr] at hok ⊢
      exact ih _ hok
    · rw [hr] at hok
      cases hok
    · rw [hr] at hok
      cases hok

/-- Blocks with non-empty names whose handlers are valid all go through. -/
theorem runHandlerBlocks_valid {σ : Type} (deps : Deps σ) (b : builder) (env : Env)
    (blocks : List (HandlerBlock σ)) :
    ∀ d, (∀ blk ∈ blocks, blk.name ≠ "" ∧ ∀ sd, blk.hdef = some sd → ValidHandlerDef deps sd) →
      (runHandlerBlocks deps b env blocks d).1 = none := by
  induction blocks with
  | nil => intro d _; rfl
  | cons blk rest ih =>
    intro d h
    have hrest : ∀ blk ∈ rest,
        blk.name ≠ "" ∧ ∀ sd, blk.hdef = some sd → ValidHandlerDef deps sd :=
      fun x hx => h x (by simp [hx])
    obtain ⟨hname, hvalid⟩ := h blk (by simp)
    unfold runHandlerBlocks
    rcases buildHandler_cases deps b env blk.name blk.hdef blk.assign d with
      ⟨_, hr⟩ | ⟨sd, st, _, _, hr⟩ | ⟨sd, msg, hsd, hbs, hr⟩ | ⟨sd, msg, hsd, hbs, hr⟩
    · rw [hr]
      exact ih d hrest
    · rw [hr]
      exact ih _ hrest
    · obtain ⟨st, hst⟩ := buildStep_valid_handler deps b env d.Env sd blk.name hname (hvalid sd hsd)
      rw [hst] at hbs
      cases hbs
    · obtain ⟨st, hst⟩ := buildStep_valid_handler deps b env d.Env sd blk.name hname (hvalid sd hsd)
      rw [hst] at hbs
      cases hbs

/-- C29: for each of the four handlers (exit, success, failure, cancel): when
`buildHandlers` returns without error, a handler the definition gives is built
and the name of the built step is the constant of that handler, whatever name
the definition writes; with non-empty constants `buildHandlers` never fails
with "step name must be specified", and it succeeds when every handler given
has a command, a valid stop signal (if any) and a well-formed executor; a
handler the definition omits leaves its field of `d.HandlerOn` as it was
(nil); and a handler given with an empty command makes `buildHandlers` fail. -/
theorem buildHandlers_names {σ : Type} (deps : Deps σ) (C : Context σ) (b : builder)
    (env : Env) (hdef : handlerOnDef) (d : DAG σ) :
    ((buildHandlers deps C b env hdef d).1 = none →
      (∀ sd, hdef.Exit = some sd → ∃ st,
        (buildHandlers deps C b env hdef d).2.HandlerOn.Exit = some st ∧ st.Name = C.OnExit) ∧
      (∀ sd, hdef.Success = some sd → ∃ st,
        (buildHandlers deps C b env hdef d).2.HandlerOn.Success = some st ∧
          st.Name = C.OnSuccess) ∧
      (∀ sd, hdef.Failure = some sd → ∃ st,
        (buildHandlers deps C b env hdef d).2.HandlerOn.Failure = some st ∧
          st.Name = C.OnFailure) ∧
      (∀ sd, hdef.Cancel = some sd → ∃ st,
        (buildHandlers deps C b env hdef d).2.HandlerOn.Cancel = some st ∧
          st.Name = C.OnCancel)) ∧
    (C.OnExit ≠ "" → C.OnSuccess ≠ "" → C.OnFailure ≠ "" → C.OnCancel ≠ "" →
      (buildHandlers deps C b env hdef d).1 ≠ some (.error "step name must be specified") ∧
      ((∀ sd, hdef.Exit = some sd ∨ hdef.Success = some sd ∨ hdef.Failure = some sd ∨
          hdef.Cancel = some sd → ValidHandlerDef deps sd) →
        (buildHandlers deps C b env hdef d).1 = none)) ∧
    ((hdef.Exit = none →
        (buildHandlers deps C b env hdef d).2.HandlerOn.Exit = d.HandlerOn.Exit) ∧
      (hdef.Success = none →
        (buildHandlers deps C b env hdef d).2.HandlerOn.Success = d.HandlerOn.Success) ∧
      (hdef.Failure = none →
        (buildHandlers deps C b env hdef d).2.HandlerOn.Failure = d.HandlerOn.Failure) ∧
      (hdef.Cancel = none →
        (buildHandlers deps C b env hdef d).2.HandlerOn.Cancel = d.HandlerOn.Cancel)) ∧
    (∀ sd, hdef.Exit = some sd ∨ hdef.Success = some sd ∨ hdef.Failure = some sd ∨
        hdef.Cancel = some sd → sd.Command = "" →
      (buildHandlers deps C b env hdef d).1 ≠ none) := by
  rw [buildHandlers_eq_run]
  refine ⟨?_, ?_, ⟨?_, ?_, ?_, ?_⟩, ?_⟩
  · intro hok
    refine ⟨?_, ?_, ?_, ?_⟩
    · intro sd hsd
      exact runHandlerBlocks_built deps b env (fun d => d.HandlerOn.Exit) _ _ sd hsd
        (fun _ _ => rfl) (by intro x hx d s; simp at hx; rcases hx with rfl | rfl | rfl <;> rfl)
        [] d hok
    · intro sd hsd
      exact runHandlerBlocks_built deps b env (fun d => d.HandlerOn.Success) _ _ sd hsd
        (fun _ _ => rfl) (by intro x hx d s; simp at hx; rcases hx with rfl | rfl <;> rfl)
        [_] d hok
    · intro sd hsd
      exact runHandlerBlocks_built deps b env (fun d => d.HandlerOn.Failure) _ _ sd hsd
        (fun _ _ => rfl) (by intro x hx d s; simp at hx; subst hx; rfl)
        [_, _] d hok
    · intro sd hsd
      exact runHandlerBlocks_built deps b env (fun d => d.HandlerOn.Cancel) _ _ sd hsd
        (fun _ _ => rfl) (by intro x hx; simp at hx)
        [_, _, _] d hok
  · intro h1 h2 h3 h4
    constructor
    · apply runHandlerBlocks_error_ne_name
      intro blk hblk
      simp only [handlerBlocks, List.mem_cons, List.mem_singleton, List.not_mem_nil,
        or_false] at hblk
      rcases hblk with rfl | rfl | rfl | rfl <;> assumption
    · intro hvalid
      apply runHandlerBlocks_valid
      intro blk hblk
      simp only [handlerBlocks, List.mem_cons, List.mem_singleton, List.not_mem_nil,
        or_false] at hblk
      rcases hblk with rfl | rfl | rfl | rfl
      · exact ⟨h1, fun sd hsd => hvalid sd (Or.inl hsd)⟩
      · exact ⟨h2, fun sd hsd => hvalid sd (Or.inr (Or.inl hsd))⟩
      · exact ⟨h3, fun sd hsd => hvalid sd (Or.inr (Or.inr (Or.inl hsd)))⟩
      · exact ⟨h4, fun sd hsd => hvalid sd (Or.inr (Or.inr (Or.inr hsd)))⟩
  · intro hnone
    apply runHandlerBlocks_frame deps b env (fun d => d.HandlerOn.Exit)
    intro blk hblk
    simp only [handlerBlocks, List.mem_cons, List.mem_singleton, List.not_mem_nil,
      or_false] at hblk
    rcases hblk with rfl | rfl | rfl | rfl
    · exact Or.inl hnone
    all_goals exact Or.inr (fun _ _ => rfl)
  · intro hnone
    apply runHandlerBlocks_frame deps b env (fun d => d.HandlerOn.Success)
    intro blk hblk
    simp only [handlerBlocks, List.mem_cons, List.mem_singleton, List.not_mem_nil,
      or_false] at hblk
    rcases hblk with rfl | rfl | rfl | rfl
    · exact Or.inr (fun _ _ => rfl)
    · exact Or.inl hnone
    all_goals exact Or.inr (fun _ _ => rfl)
  · intro hnone
    apply runHandlerBlocks_frame deps b env (fun d => d.HandlerOn.Failure)
    intro blk hblk
    simp only [handlerBlocks, List.mem_cons, List.mem_singleton, List.not_mem_nil,
      or_false] at hblk
    rcases hblk with rfl | rfl | rfl | rfl
    · exact Or.inr (fun _ _ => rfl)
    · exact Or.inr (fun _ _ => rfl)
    · exact Or.inl hnone
    · exact Or.inr (fun _ _ => rfl)
  · intro hnone
    apply runHandlerBlocks_frame deps b env (fun d => d.HandlerOn.Cancel)
    intro blk hblk
    simp only [handlerBlocks, List.mem_cons, List.mem_singleton, List.not_mem_nil,
      or_false] at hblk
    rcases hblk with rfl | rfl | rfl | rfl
    · exact Or.inr (fun _ _ => rfl)
    · exact Or.inr (fun _ _ => rfl)
    · exact Or.inr (fun _ _ => rfl)
    · exact Or.inl hnone
  · intro sd hsd hc
    have key : ∀ blk ∈ handlerBlocks C hdef, blk.hdef = some sd →
        (runHandlerBlocks deps b env (handlerBlocks C hdef) d).1 ≠ none :=
      fun blk hm h => runHandlerBlocks_no_command deps b env _ blk sd h hc d hm
    rcases hsd with hsd | hsd | hsd | hsd
    · exact key _ (List.Mem.head _) hsd
    · exact key _ (List.Mem.tail _ (List.Mem.head _)) hsd
    · exact key _ (List.Mem.tail _ (List.Mem.tail _ (List.Mem.head _))) hsd
    · exact key _ (List.Mem.tail _ (List.Mem.tail _ (List.Mem.tail _ (List.Mem.head _)))) hsd

theorem buildHandlers_names_witness :
    (∃ st, (buildHandlers sampleDeps sampleContext builder.zero emptyEnv
        { Failure := none, Success := none, Cancel := none,
          Exit := some (stepDef.simple "my exit handler" "echo bye") }
        (DAG.zero Unit)).2.HandlerOn.Exit = some st ∧ st.Name = "onExit") ∧
    (buildHandlers sampleDeps sampleContext builder.zero emptyEnv
      { Failure := none, Success := none, Exit := none,
        Cancel := some (stepDef.simple "cleanup" "") } (DAG.zero Unit)).1 ≠ none :=
  ⟨((buildHandlers_names sampleDeps sampleContext builder.zero emptyEnv
      { Failure := none, Success := none, Cancel := none,
        Exit := some (stepDef.simple "my exit handler" "echo bye") }
      (DAG.zero Unit)).1 rfl).1 (stepDef.simple "my exit handler" "echo bye") rfl,
    (buildHandlers_names sampleDeps sampleContext builder.zero emptyEnv
      { Failure := none, Success := none, Exit := none,
        Cancel := some (stepDef.simple "cleanup" "") } (DAG.zero Unit)).2.2.2
      (stepDef.simple "cleanup" "") (Or.inr (Or.inr (Or.inr rfl))) rfl⟩

/-! ## C25: `buildFromDefinition` in head-only mode -/

/-- The method `buildSchedule` assigns the three schedule fields and no other. -/
theorem buildSchedule_assigns {σ : Type} (deps : Deps σ) (schedule : YamlValue) (d : DAG σ) :
    ∃ s1 s2 s3, (buildSchedule deps schedule d).2 =
      { d with Schedule := s1, StopSchedule := s2, RestartSchedule := s3 } := by
  unfold buildSchedule
  cases classifySchedule schedule with
  | error e => exact ⟨d.Schedule, d.StopSchedule, d.RestartSchedule, rfl⟩
  | ok acc =>
    simp only
    cases (parseSchedule deps acc.starts).2 with
    | some err => exact ⟨_, d.StopSchedule, d.RestartSchedule, rfl⟩
    | none =>
      simp only
      cases (parseSchedule deps acc.stops).2 with
      | some err => exact ⟨_, _, d.RestartSchedule, rfl⟩
      | none => exact ⟨_, _, _, rfl⟩

theorem runBuildSteps_headOnly {σ : Type} (deps : Deps σ) (C : Context σ) (b : builder)
    (baseConfig : Option (DAG σ)) (cdef : configDefinition) (d : DAG σ) (env : Env) :
    runBuildSteps true (buildSteps deps C b baseConfig) cdef d env =
      ((buildSchedule deps cdef.Schedule d).1.map Failure.error,
        (buildSchedule deps cdef.Schedule d).2, env) := by
  simp only [buildSteps, runBuildSteps, Bool.and_true, Bool.and_false, Bool.not_true,
    Bool.or_false, Bool.false_eq_true, if_true, if_false]
  cases (buildSchedule deps cdef.Schedule d).1 <;> rfl

/-- C25: in head-only mode `buildFromDefinition` runs the schedule build step and
no other: its error is the error of `buildSchedule`, so it succeeds exactly when
`buildSchedule` does; the environment is the one before the call; the DAG
returned is the DAG `buildSchedule` leaves, started on the DAG after `Init`
with Name, Group, Description, MailOn, Delay, RestartWait and Tags copied from
the definition: it differs from that DAG in the three schedule fields only, so
Steps, Env, Params and the handlers are as `Init` left them; and the result is
the same for every definition with the same Name, Group, Description, MailOn,
delays, Tags and Schedule, whatever its steps, handlers, env and params are. -/
theorem buildFromDefinition_headOnly {σ : Type} (deps : Deps σ) (C : Context σ) (b : builder)
    (hhead : b.headOnly = true) (cdef : configDefinition) (baseConfig : Option (DAG σ))
    (env : Env) :
    (buildFromDefinition deps C b cdef baseConfig env).1 =
      (buildSchedule deps cdef.Schedule (headline C cdef)).1.map Failure.error ∧
    ((buildFromDefinition deps C b cdef baseConfig env).1 = none ↔
      (buildSchedule deps cdef.Schedule (headline C cdef)).1 = none) ∧
    (buildFromDefinition deps C b cdef baseConfig env).2.2 = env ∧
    (buildFromDefinition deps C b cdef baseConfig env).2.1 =
      (buildSchedule deps cdef.Schedule (headline C cdef)).2 ∧
    (∃ s1 s2 s3, (buildFromDefinition deps C b cdef baseConfig env).2.1 =
      { headline C cdef with Schedule := s1, StopSchedule := s2, RestartSchedule := s3 }) ∧
    ((headline C cdef).Name = cdef.Name ∧ (headline C cdef).Group = cdef.Group ∧
      (headline C cdef).Description = cdef.Description ∧
      (headline C cdef).Delay = secondsDuration cdef.DelaySec ∧
      (headline C cdef).RestartWait = secondsDuration cdef.RestartWaitSec ∧
      (headline C cdef).Tags = parseTags C.unicode cdef.Tags ∧
      (∀ m, cdef.MailOn = some m →
        (headline C cdef).MailOn = some { Failure := m.Failure, Success := m.Success })) ∧
    ((buildFromDefinition deps C b cdef baseConfig env).2.1.Steps =
        (C.dagInit (DAG.zero σ)).Steps ∧
      (buildFromDefinition deps C b cdef baseConfig env).2.1.Env =
        (C.dagInit (DAG.zero σ)).Env ∧
      (buildFromDefinition deps C b cdef baseConfig env).2.1.Params =
        (C.dagInit (DAG.zero σ)).Params ∧
      (buildFromDefinition deps C b cdef baseConfig env).2.1.HandlerOn =
        (C.dagInit (DAG.zero σ)).HandlerOn) ∧
    (∀ (other : configDefinition) (otherBase : Option (DAG σ)),
      other.Name = cdef.Name → other.Group = cdef.Group →
      other.Description = cdef.Description → other.MailOn = cdef.MailOn →
      other.DelaySec = cdef.DelaySec → other.RestartWaitSec = cdef.RestartWaitSec →
      other.Tags = cdef.Tags → other.Schedule = cdef.Schedule →
      buildFromDefinition deps C b other otherBase env =
        buildFromDefinition deps C b cdef baseConfig env) := by
  have hrun : ∀ (c : configDefinition) (base : Option (DAG σ)),
      buildFromDefinition deps C b c base env =
        ((buildSchedule deps c.Schedule (headline C c)).1.map Failure.error,
          (buildSchedule deps c.Schedule (headline C c)).2, env) := by
    intro c base
    unfold buildFromDefinition
    rw [hhead]
    exact runBuildSteps_headOnly deps C b base c (headline C c) env
  have hfields : (headline C cdef).Steps = (C.dagInit (DAG.zero σ)).Steps ∧
      (headline C cdef).Env = (C.dagInit (DAG.zero σ)).Env ∧
      (headline C cdef).Params = (C.dagInit (DAG.zero σ)).Params ∧
      (headline C cdef).HandlerOn = (C.dagInit (DAG.zero σ)).HandlerOn := by
    unfold headline
    cases cdef.MailOn <;> exact ⟨rfl, rfl, rfl, rfl⟩
  obtain ⟨s1, s2, s3, hs⟩ := buildSchedule_assigns deps cdef.Schedule (headline C cdef)
  refine ⟨?_, ?_, ?_, ?_, ⟨s1, s2, s3, ?_⟩, ?_, ?_, ?_⟩
  · rw [hrun]
  · rw [hrun]
    cases (buildSchedule deps cdef.Schedule (headline C cdef)).1 <;> simp
  · rw [hrun]
  · rw [hrun]
  · rw [hrun]
    exact hs
  · unfold headline
    refine ⟨?_, ?_, ?_, ?_, ?_, ?_, ?_⟩
    · cases cdef.MailOn <;> rfl
    · cases cdef.MailOn <;> rfl
    · cases cdef.MailOn <;> rfl
    · rfl
    · rfl
    · rfl
    · intro m hm
      rw [hm]
  · rw [hrun]
    simp only
    rw [hs]
    exact hfields
  · intro other otherBase h1 h2 h3 h4 h5 h6 h7 h8
    have hh : headline C other = headline C cdef := by
      unfold headline
      rw [h1, h2, h3, h4, h5, h6, h7]
    rw [hrun, hrun, hh, h8]

theorem buildFromDefinition_headOnly_witness :
    (buildFromDefinition sampleDeps sampleContext { builder.zero with headOnly := true }
      { configDefinition.zero with
        Name := "nightly", Schedule := .str "0 1 * * *"
        Env := .map [(.str "A", .int 5)]
        Steps := [{ stepDef.simple "" "" with SignalOnStop := some "SIGNONE" }] }
      none emptyEnv).1 = none ∧
    (buildFromDefinition sampleDeps sampleContext { builder.zero with headOnly := true }
      { configDefinition.zero with
        Name := "nightly", Schedule := .str "0 1 * * *"
        Env := .map [(.str "A", .int 5)]
        Steps := [{ stepDef.simple "" "" with SignalOnStop := some "SIGNONE" }] }
      none emptyEnv).2.1.Schedule = some [{ Expression := "0 1 * * *", Parsed := () }] ∧
    (buildFromDefinition sampleDeps sampleContext builder.zero
      { configDefinition.zero with
        Name := "nightly", Schedule := .str "0 1 * * *"
        Env := .map [(.str "A", .int 5)]
        Steps := [{ stepDef.simple "" "" with SignalOnStop := some "SIGNONE" }] }
      none emptyEnv).1 = some (.error "invalid value for env A") :=
  ⟨(buildFromDefinition_headOnly sampleDeps sampleContext { builder.zero with headOnly := true }
      rfl
      { configDefinition.zero with
        Name := "nightly", Schedule := .str "0 1 * * *"
        Env := .map [(.str "A", .int 5)]
        Steps := [{ stepDef.simple "" "" with SignalOnStop := some "SIGNONE" }] }
      none emptyEnv).2.1.mpr rfl,
    (congrArg DAG.Schedule
      (buildFromDefinition_headOnly sampleDeps sampleContext
        { builder.zero with headOnly := true } rfl
        { configDefinition.zero with
          Name := "nightly", Schedule := .str "0 1 * * *"
          Env := .map [(.str "A", .int 5)]
          Steps := [{ stepDef.simple "" "" with SignalOnStop := some "SIGNONE" }] }
        none emptyEnv).2.2.2.1).trans rfl,
    rfl⟩

end Dagu
